import Mathlib

/-!
# ETC data processor: batch ingestion pipeline

A shallow embedding of `src/pkg/handler/service.go`, `src/pkg/handler/validator.go`
and `src/pkg/db/client.go`, followed by theorems about it.

Conventions of the embedding.

* Go `int32` values are integers reduced by `int32` (two's-complement wrap-around).
  Go `int` quantities that occur (`i`, `len(records)`, `i + 1`, `i + 2`) are bounded by a
  slice length and are kept as exact integers.
* An `error` is represented by its message; `none` is the `nil` error.
* The external collaborators (parser, store, context, environment, file system) are
  parameters.  The store is stateful: every call receives the current store state and
  returns the next one.  The context is observed once per iteration of the batch loop.
-/

namespace EtcDataProcessor

/-! ## Machine integers and formatting verbs -/

/-- Conversion of an integer to Go `int32`. -/
def int32 (x : Int) : Int := (x + 2147483648) % 4294967296 - 2147483648

/-- The verb `%d` of `fmt.Sprintf`. -/
def fmtD (n : Int) : String := toString n

/-! ## Records as delivered by the parser package

The declarations of `parser.ActualETCRecord` and `parser.ETCRecord` are outside the
sources at hand; the fields below are the ones the handler reads. -/

/-- Fields of `parser.ActualETCRecord` read by the handler. -/
structure ActualETCRecord where
  EntryDate : String
  EntryTime : String
  ExitDate : String
  ExitTime : String
  ETCAmount : Int
  CardNumber : String
deriving DecidableEq, Repr

/-- Broken-down `time.Time`: calendar fields in the zone of the value, the zone being
given by its offset east of UTC in seconds. -/
structure Time where
  year : Int
  month : Nat
  day : Nat
  hour : Nat
  minute : Nat
  second : Nat
  nsec : Nat
  offset : Int
deriving DecidableEq, Repr

/-- Fields of `parser.ETCRecord` read by the handler. -/
structure ETCRecord where
  Date : Time
  EntryIC : String
  ExitIC : String
  Route : String
  VehicleType : Int
  Amount : Int
  CardNumber : String
deriving DecidableEq, Repr

/-- Dynamic values stored under `interface{}` in the save payload: the nil interface, a
`string`, an `int`, an `int32`, an `int64`, a `float64` (given by its value truncated
toward zero, which is `none` for a NaN and for the two infinities, and by its `%v`
rendering, the two things the code observes of it), or a value of any other type (given
by its `%T` and `%v` renderings). -/
inductive Value where
  | nil
  | str (s : String)
  | int (v : Int)
  | int32 (v : Int)
  | int64 (v : Int)
  | float64 (truncated : Option Int) (text : String)
  | other (typeName : String) (text : String)
deriving DecidableEq, Repr

/-- The Go type `map[string]interface{}`, as an association list. -/
abbrev DataMap := List (String × Value)

/-! ## Formatting of `time.Time` -/

/-- The helper `utod` of package `time`: a decimal digit as a character. -/
def utod (u : Nat) : Char := Char.ofNat (48 + u)

/-- The helper `appendInt` of package `time`: an optional sign, then the decimal digits
of the absolute value, zero-padded on the left to `width`; the two-digit and four-digit
cases are the dedicated branches of the library. -/
def appendInt (x : Int) (width : Nat) : List Char :=
  let u := x.natAbs
  let sign : List Char := if x < 0 then ['-'] else []
  if width = 2 ∧ u < 100 then
    sign ++ [utod (u / 10), utod (u % 10)]
  else if width = 4 ∧ u < 10000 then
    sign ++ [utod (u / 1000), utod (u / 100 % 10), utod (u / 10 % 10), utod (u % 10)]
  else
    sign ++ List.replicate (width - (Nat.toDigits 10 u).length) '0' ++ Nat.toDigits 10 u

/-- Layout `"2006-01-02"` of `Time.Format`. -/
def Time.formatDate (t : Time) : String :=
  String.mk (appendInt t.year 4 ++ '-' :: appendInt t.month 2 ++ '-' :: appendInt t.day 2)

/-! ## Collaborators of the service -/

/-- The interface `DBClient`.  A call takes the current state of the store and returns
the next state together with the error (`none` for `nil`). -/
structure DBClient (σ : Type) where
  SaveETCData : σ → DataMap → σ × Option String

/-- The interface `Parser`. -/
structure Parser where
  ParseFile : String → Except String (List ActualETCRecord)
  Parse : String → Except String (List ActualETCRecord)
  ValidateRecord : ActualETCRecord → Option String
  ConvertToSimpleRecord : ActualETCRecord → Except String ETCRecord

/-- The part of `context.Context` the batch loop uses: `ErrAt i` tells whether
`ctx.Err() != nil` when it is evaluated at the start of iteration `i`. -/
structure Context where
  ErrAt : Nat → Bool

/-- The message `ProcessingStats`. -/
structure ProcessingStats where
  TotalRecords : Int
  SavedRecords : Int
  SkippedRecords : Int
  ErrorRecords : Int
deriving DecidableEq, Repr

/-! ## `processRecords` -/

/-- The processing key built inside `processRecords`:
`fmt.Sprintf("%s_%s_%s_%s_%d_%s", ...)`. -/
def processingKey (record : ActualETCRecord) : String :=
  record.EntryDate ++ "_" ++ record.EntryTime ++ "_" ++ record.ExitDate ++ "_" ++
    record.ExitTime ++ "_" ++ fmtD record.ETCAmount ++ "_" ++ record.CardNumber

/-- The function `CreateDuplicateKey` of `validator.go`. -/
def CreateDuplicateKey (entryDate entryTime exitDate exitTime : String) (amount : Int)
    (cardNumber : String) : String :=
  entryDate ++ "_" ++ entryTime ++ "_" ++ exitDate ++ "_" ++ exitTime ++ "_" ++
    fmtD amount ++ "_" ++ cardNumber

/-- The map literal `dataToSave` of `processRecords`. -/
def dataToSave (accountID : String) (simpleRecord : ETCRecord) : DataMap :=
  [("account_id", .str accountID),
   ("date", .str simpleRecord.Date.formatDate),
   ("entry_ic", .str simpleRecord.EntryIC),
   ("exit_ic", .str simpleRecord.ExitIC),
   ("route", .str simpleRecord.Route),
   ("vehicle_type", .int simpleRecord.VehicleType),
   ("amount", .int simpleRecord.Amount),
   ("card_number", .str simpleRecord.CardNumber)]

/-- Local state of `processRecords` together with the state of the store. -/
structure LoopState (σ : Type) where
  stats : ProcessingStats
  errors : List String
  processedKeys : String → Bool
  store : σ

/-- Assignment `processedKeys[key] = true`. -/
def markProcessed (m : String → Bool) (key : String) : String → Bool :=
  fun k => if k = key then true else m k

/-- One iteration of the loop of `processRecords` after the cancellation check: the
local state with which the next iteration starts (every `continue` ends the
iteration). -/
def processRecord {σ : Type} (dbClient : Option (DBClient σ)) (parser : Parser)
    (accountID : String) (skipDuplicates : Bool) (i : Nat) (record : ActualETCRecord)
    (st : LoopState σ) : LoopState σ :=
  let key := processingKey record
  if skipDuplicates && st.processedKeys key then
    { st with stats := { st.stats with
        SkippedRecords := int32 (st.stats.SkippedRecords + 1) } }
  else
    match parser.ConvertToSimpleRecord record with
    | .error err =>
      { st with
        errors := st.errors ++
          ["Record " ++ fmtD ((i : Int) + 1) ++ ": conversion failed: " ++ err]
        stats := { st.stats with ErrorRecords := int32 (st.stats.ErrorRecords + 1) } }
    | .ok simpleRecord =>
      match dbClient with
      | some db =>
        match db.SaveETCData st.store (dataToSave accountID simpleRecord) with
        | (store', some err) =>
          { st with
            store := store'
            errors := st.errors ++
              ["Record " ++ fmtD ((i : Int) + 1) ++ ": save failed: " ++ err]
            stats := { st.stats with ErrorRecords := int32 (st.stats.ErrorRecords + 1) } }
        | (store', none) =>
          { st with
            store := store'
            processedKeys := markProcessed st.processedKeys key
            stats := { st.stats with SavedRecords := int32 (st.stats.SavedRecords + 1) } }
      | none =>
        { st with
          processedKeys := markProcessed st.processedKeys key
          stats := { st.stats with SavedRecords := int32 (st.stats.SavedRecords + 1) } }

/-- The `for i, record := range records` loop of `processRecords`, from iteration `i`
on; `n` is `len(records)`.  When cancellation is observed the loop is left (`break`). -/
def processLoop {σ : Type} (ctx : Context) (dbClient : Option (DBClient σ)) (parser : Parser)
    (accountID : String) (skipDuplicates : Bool) (n : Nat) :
    Nat → List ActualETCRecord → LoopState σ → LoopState σ
  | _, [], st => st
  | i, record :: rest, st =>
    if ctx.ErrAt i then
      { st with
        errors := st.errors ++ ["Processing cancelled at record " ++ fmtD i]
        stats := { st.stats with ErrorRecords := int32 ((n : Int) - (i : Int)) } }
    else
      processLoop ctx dbClient parser accountID skipDuplicates n (i + 1) rest
        (processRecord dbClient parser accountID skipDuplicates i record st)

/-- State of `processRecords` on entry to the loop. -/
def initState {σ : Type} (n : Nat) (store : σ) : LoopState σ :=
  { stats := { TotalRecords := int32 n, SavedRecords := 0, SkippedRecords := 0,
               ErrorRecords := 0 }
    errors := []
    processedKeys := fun _ => false
    store := store }

/-- The method `processRecords`, as the final loop state: statistics, error list and the
state the store is left in. -/
def processRecords {σ : Type} (ctx : Context) (dbClient : Option (DBClient σ))
    (parser : Parser) (records : List ActualETCRecord) (accountID : String)
    (skipDuplicates : Bool) (store : σ) : LoopState σ :=
  processLoop ctx dbClient parser accountID skipDuplicates records.length 0 records
    (initState records.length store)

/-! ## Request validation (`validator.go`) -/

/-- The gRPC status codes that occur, and `Unknown` for an error that carries no
status. -/
inductive Code where
  | InvalidArgument
  | NotFound
  | Internal
  | Unknown
deriving DecidableEq, Repr

/-- An `error` built by `status.Error` or `status.Errorf`. -/
structure Status where
  code : Code
  message : String
deriving DecidableEq, Repr

/-- The function `os.Getenv`: the value of a variable, empty when it is unset. -/
abbrev Env := String → String

/-- A non-nil error of `os.Stat`, with the answer of `os.IsNotExist` on it. -/
structure StatError where
  isNotExist : Bool
  message : String
deriving DecidableEq, Repr

/-- A directory entry (`os.DirEntry`). -/
structure DirEntry where
  Name : String
  IsDir : Bool
deriving DecidableEq, Repr

/-- The file-system calls the handler makes. -/
structure FileSystem where
  Stat : String → Option StatError
  ReadDir : String → Except String (List DirEntry)
  Glob : String → Except String (List String)
  Join : String → String → String

/-- The interface `Validator`. -/
structure Validator where
  ValidateCSVFilePath : String → Option Status
  ValidateAccountID : String → Option Status
  ValidateCSVData : String → Option Status
  CheckFileExists : String → Option Status

/-- The method `DefaultValidator.ValidateCSVFilePath`. -/
def DefaultValidator.ValidateCSVFilePath (env : Env) (path : String) : Option Status :=
  if path = "" ∧ env "CSV_BASE_PATH" = "" then
    some ⟨.InvalidArgument, "csv_file_path is required when CSV_BASE_PATH is not set"⟩
  else none

/-- The method `DefaultValidator.ValidateAccountID`; `len` counts bytes. -/
def DefaultValidator.ValidateAccountID (accountID : String) : Option Status :=
  if accountID = "" then none
  else if accountID.utf8ByteSize < 3 then
    some ⟨.InvalidArgument, "account_id must be at least 3 characters"⟩
  else none

/-- The method `DefaultValidator.ValidateCSVData`; `len` counts bytes. -/
def DefaultValidator.ValidateCSVData (data : String) : Option Status :=
  if data = "" then some ⟨.InvalidArgument, "csv_data is required"⟩
  else if data.utf8ByteSize < 10 then some ⟨.InvalidArgument, "csv_data is too short"⟩
  else none

/-- The method `DefaultValidator.CheckFileExists`. -/
def DefaultValidator.CheckFileExists (fs : FileSystem) (path : String) : Option Status :=
  match fs.Stat path with
  | none => none
  | some err =>
    if err.isNotExist then some ⟨.NotFound, "file not found: " ++ path⟩
    else some ⟨.Internal, "failed to check file: " ++ err.message⟩

/-- The value built by `NewDefaultValidator`, in a given environment and file system. -/
def NewDefaultValidator (env : Env) (fs : FileSystem) : Validator :=
  { ValidateCSVFilePath := DefaultValidator.ValidateCSVFilePath env
    ValidateAccountID := DefaultValidator.ValidateAccountID
    ValidateCSVData := DefaultValidator.ValidateCSVData
    CheckFileExists := DefaultValidator.CheckFileExists fs }

/-- The message `ProcessCSVFileRequest`. -/
structure ProcessCSVFileRequest where
  CsvFilePath : String
  AccountId : String
deriving DecidableEq, Repr

/-- The message `ProcessCSVDataRequest`. -/
structure ProcessCSVDataRequest where
  CsvData : String
  AccountId : String
deriving DecidableEq, Repr

/-- The message `ValidateCSVDataRequest`. -/
structure ValidateCSVDataRequest where
  CsvData : String
  AccountId : String
deriving DecidableEq, Repr

/-- Generated getter of a request pointer; `none` is the nil pointer, on which a
generated getter returns the zero value. -/
def ProcessCSVFileRequest.GetCsvFilePath : Option ProcessCSVFileRequest → String
  | some x => x.CsvFilePath
  | none => ""

/-- Generated getter, nil-safe. -/
def ProcessCSVFileRequest.GetAccountId : Option ProcessCSVFileRequest → String
  | some x => x.AccountId
  | none => ""

/-- Generated getter, nil-safe. -/
def ProcessCSVDataRequest.GetCsvData : Option ProcessCSVDataRequest → String
  | some x => x.CsvData
  | none => ""

/-- Generated getter, nil-safe. -/
def ProcessCSVDataRequest.GetAccountId : Option ProcessCSVDataRequest → String
  | some x => x.AccountId
  | none => ""

/-- Generated getter, nil-safe. -/
def ValidateCSVDataRequest.GetCsvData : Option ValidateCSVDataRequest → String
  | some x => x.CsvData
  | none => ""

/-- Generated getter, nil-safe. -/
def ValidateCSVDataRequest.GetAccountId : Option ValidateCSVDataRequest → String
  | some x => x.AccountId
  | none => ""

/-- A value of type `interface{}` handed to a request validator: the nil interface, a
pointer to one of the three request messages (`none` being a nil pointer of that type),
or a value of a type without the getters. -/
inductive AnyRequest where
  | nil
  | file (req : Option ProcessCSVFileRequest)
  | data (req : Option ProcessCSVDataRequest)
  | validate (req : Option ValidateCSVDataRequest)
  | other
deriving DecidableEq, Repr

/-- The function `ValidateProcessCSVFileRequest`. -/
def ValidateProcessCSVFileRequest (env : Env) (req : AnyRequest) (v : Validator) :
    Option Status :=
  match req with
  | .nil => some ⟨.InvalidArgument, "request is nil"⟩
  | .file fileReq =>
    let csvFilePath := ProcessCSVFileRequest.GetCsvFilePath fileReq
    let accountID := ProcessCSVFileRequest.GetAccountId fileReq
    match v.ValidateCSVFilePath csvFilePath with
    | some err => some err
    | none =>
      match v.ValidateAccountID accountID with
      | some err => some err
      | none =>
        if csvFilePath ≠ "" ∧ env "CSV_BASE_PATH" = "" then
          match v.CheckFileExists csvFilePath with
          | some err => some err
          | none => none
        else none
  | _ => some ⟨.InvalidArgument, "invalid request type"⟩

/-- The checks shared by the two validators of inline-data requests. -/
def validateDataFields (csvData accountID : String) (v : Validator) : Option Status :=
  match v.ValidateCSVData csvData with
  | some err => some err
  | none =>
    match v.ValidateAccountID accountID with
    | some err => some err
    | none => none

/-- The function `ValidateProcessCSVDataRequest`. -/
def ValidateProcessCSVDataRequest (req : AnyRequest) (v : Validator) : Option Status :=
  match req with
  | .nil => some ⟨.InvalidArgument, "request is nil"⟩
  | .data dataReq =>
    validateDataFields (ProcessCSVDataRequest.GetCsvData dataReq)
      (ProcessCSVDataRequest.GetAccountId dataReq) v
  | .validate dataReq =>
    validateDataFields (ValidateCSVDataRequest.GetCsvData dataReq)
      (ValidateCSVDataRequest.GetAccountId dataReq) v
  | _ => some ⟨.InvalidArgument, "invalid request type"⟩

/-- The function `ValidateValidateCSVDataRequest`. -/
def ValidateValidateCSVDataRequest (req : AnyRequest) (v : Validator) : Option Status :=
  match req with
  | .nil => some ⟨.InvalidArgument, "request is nil"⟩
  | .data validateReq =>
    validateDataFields (ProcessCSVDataRequest.GetCsvData validateReq)
      (ProcessCSVDataRequest.GetAccountId validateReq) v
  | .validate validateReq =>
    validateDataFields (ValidateCSVDataRequest.GetCsvData validateReq)
      (ValidateCSVDataRequest.GetAccountId validateReq) v
  | _ => some ⟨.InvalidArgument, "invalid request type"⟩

/-! ## Source resolution and the service entry points (`service.go`) -/

/-- The function `getSkipDuplicatesDefault`. -/
def getSkipDuplicatesDefault (env : Env) : Bool :=
  let skipDup := env "SKIP_DUPLICATES"
  if skipDup = "false" ∨ skipDup = "0" then false else true

/-- The call `sort.Slice(dirs, func(i, j) { dirs[i].Name() > dirs[j].Name() })`: the
entries in descending order of name, strings being compared as in Go, that is
lexicographically by character code. -/
def sortByNameDesc (dirs : List DirEntry) : List DirEntry :=
  dirs.insertionSort (fun a b => b.Name.data < a.Name.data)

/-- The function `resolveCSVFilePath`. -/
def resolveCSVFilePath (env : Env) (fs : FileSystem) (providedPath : String) :
    Except String String :=
  let basePath := env "CSV_BASE_PATH"
  if basePath = "" then .ok providedPath
  else
    match fs.ReadDir basePath with
    | .error err => .error ("failed to read base path " ++ basePath ++ ": " ++ err)
    | .ok entries =>
      match entries.filter (fun entry => entry.IsDir) with
      | [] => .error ("no directories found in base path: " ++ basePath)
      | d :: ds =>
        let latestDir := ((sortByNameDesc (d :: ds)).headD d).Name
        let latestDirPath := fs.Join basePath latestDir
        match fs.Glob (fs.Join latestDirPath "*.csv") with
        | .error err => .error ("failed to search for CSV files: " ++ err)
        | .ok [] => .error ("no CSV files found in latest directory: " ++ latestDirPath)
        | .ok (csvFile :: _) => .ok csvFile

/-- The struct `DataProcessorService`. -/
structure DataProcessorService (σ : Type) where
  dbClient : Option (DBClient σ)
  parser : Parser
  validator : Validator

/-- The messages `ProcessCSVFileResponse` and `ProcessCSVDataResponse`, which have the
same fields. -/
structure ProcessCSVResponse where
  Success : Bool
  Message : String
  Stats : ProcessingStats
  Errors : List String
deriving DecidableEq, Repr

/-- Outcome of a service method: a response with a nil error, a nil response with an
error, or a run-time panic (nil pointer dereference). -/
inductive RpcResult (α : Type) where
  | response (r : α)
  | error (s : Status)
  | panic
deriving DecidableEq, Repr

/-- The method `ProcessCSVFile`; the second component is the state the store is left
in. -/
def ProcessCSVFile {σ : Type} (env : Env) (fs : FileSystem) (s : DataProcessorService σ)
    (ctx : Context) (req : Option ProcessCSVFileRequest) (store : σ) :
    RpcResult ProcessCSVResponse × σ :=
  match ValidateProcessCSVFileRequest env (.file req) s.validator with
  | some err => (.error err, store)
  | none =>
    match resolveCSVFilePath env fs (ProcessCSVFileRequest.GetCsvFilePath req) with
    | .error err =>
      (.response
        { Success := false
          Message := "Failed to resolve CSV file path: " ++ err
          Stats := ⟨0, 0, 0, 0⟩
          Errors := [err] }, store)
    | .ok resolvedPath =>
      match s.parser.ParseFile resolvedPath with
      | .error err =>
        (.response
          { Success := false
            Message := "Failed to parse CSV file: " ++ err
            Stats := ⟨0, 0, 0, 0⟩
            Errors := [err] }, store)
      | .ok records =>
        let skipDuplicates := getSkipDuplicatesDefault env
        let out := processRecords ctx s.dbClient s.parser records
          (ProcessCSVFileRequest.GetAccountId req) skipDuplicates store
        (.response
          { Success := decide (out.stats.SavedRecords > 0)
            Message := "Processed " ++ fmtD out.stats.TotalRecords ++ " records from file"
            Stats := out.stats
            Errors := out.errors }, out.store)

/-- The method `ProcessCSVData`; the field access `req.CsvData` panics on a nil
pointer. -/
def ProcessCSVData {σ : Type} (env : Env) (s : DataProcessorService σ) (ctx : Context)
    (req : Option ProcessCSVDataRequest) (store : σ) : RpcResult ProcessCSVResponse × σ :=
  match ValidateProcessCSVDataRequest (.data req) s.validator with
  | some err => (.error err, store)
  | none =>
    match req with
    | none => (.panic, store)
    | some r =>
      match s.parser.Parse r.CsvData with
      | .error err => (.error ⟨.InvalidArgument, "invalid CSV format: " ++ err⟩, store)
      | .ok records =>
        let skipDuplicates := getSkipDuplicatesDefault env
        let out := processRecords ctx s.dbClient s.parser records
          (ProcessCSVDataRequest.GetAccountId req) skipDuplicates store
        (.response
          { Success := decide (out.stats.SavedRecords > 0)
            Message := "Processed " ++ fmtD out.stats.TotalRecords ++ " records"
            Stats := out.stats
            Errors := out.errors }, out.store)

/-- The message `ValidationError`. -/
structure ValidationError where
  LineNumber : Int
  Field : String
  Message : String
  RecordData : String
deriving DecidableEq, Repr

/-- The message `ValidateCSVDataResponse`. -/
structure ValidateCSVDataResponse where
  IsValid : Bool
  Errors : List ValidationError
  DuplicateCount : Int
  TotalRecords : Int
deriving DecidableEq, Repr

/-- The validation key built inside `ValidateCSVData`:
`fmt.Sprintf("%s_%s_%s_%s_%d", ...)`. -/
def validationKey (record : ActualETCRecord) : String :=
  record.EntryDate ++ "_" ++ record.EntryTime ++ "_" ++ record.ExitDate ++ "_" ++
    record.ExitTime ++ "_" ++ fmtD record.ETCAmount

/-- The rendering `fmt.Sprintf("%v", record)` of a record, over the fields at hand:
the field values in order, separated by blanks, in braces. -/
def fmtV (record : ActualETCRecord) : String :=
  "\x7b" ++ record.EntryDate ++ " " ++ record.EntryTime ++ " " ++ record.ExitDate ++ " " ++
    record.ExitTime ++ " " ++ fmtD record.ETCAmount ++ " " ++ record.CardNumber ++ "\x7d"

/-- Local state of the record loop of `ValidateCSVData`. -/
structure ValidateState where
  duplicateMap : String → Option Int
  duplicateCount : Int
  validationErrors : List ValidationError

/-- The `for i, record := range records` loop of `ValidateCSVData`, from iteration `i`
on. -/
def validateLoop (parser : Parser) :
    Nat → List ActualETCRecord → ValidateState → ValidateState
  | _, [], st => st
  | i, record :: rest, st =>
    let key := validationKey record
    let st1 : ValidateState :=
      match st.duplicateMap key with
      | some c =>
        { st with
          duplicateCount := int32 (st.duplicateCount + 1)
          duplicateMap := fun k => if k = key then some (c + 1) else st.duplicateMap k }
      | none =>
        { st with duplicateMap := fun k => if k = key then some 1 else st.duplicateMap k }
    match parser.ValidateRecord record with
    | some err =>
      validateLoop parser (i + 1) rest
        { st1 with
          validationErrors := st1.validationErrors ++
            [{ LineNumber := int32 ((i : Int) + 2), Field := "", Message := err,
               RecordData := fmtV record }] }
    | none => validateLoop parser (i + 1) rest st1

/-- The method `ValidateCSVData` of the service; the field access `req.CsvData` panics
on a nil pointer. -/
def ValidateCSVData {σ : Type} (s : DataProcessorService σ)
    (req : Option ValidateCSVDataRequest) : RpcResult ValidateCSVDataResponse :=
  match ValidateValidateCSVDataRequest (.validate req) s.validator with
  | some err => .error err
  | none =>
    match req with
    | none => .panic
    | some r =>
      match s.parser.Parse r.CsvData with
      | .error err =>
        .response
          { IsValid := false
            Errors := [{ LineNumber := 0, Field := "csv", Message := err, RecordData := "" }]
            DuplicateCount := 0
            TotalRecords := 0 }
      | .ok records =>
        let st := validateLoop s.parser 0 records
          { duplicateMap := fun _ => none, duplicateCount := 0, validationErrors := [] }
        .response
          { IsValid := decide (st.validationErrors.length = 0)
            Errors := st.validationErrors
            DuplicateCount := st.duplicateCount
            TotalRecords := int32 records.length }

/-! ## Date normalisation (`client.go`)

`time.Parse` and `Time.Format` belong to the Go standard library.  They are modelled for
the two layouts the code uses.  For `time.RFC3339` the library first tries its dedicated
parser `parseRFC3339` and, when that rejects the text, the general layout parser `parse`;
the latter also accepts a one-digit hour, a comma before the fraction of a second, and a
zone offset of up to 24 hours and up to 60 minutes. -/

/-- The helper `isDigit` of package `time`. -/
def isDigit (c : Char) : Bool := decide (48 ≤ c.toNat ∧ c.toNat ≤ 57)

/-- Value of a decimal digit character. -/
def digitVal (c : Char) : Nat := c.toNat - 48

/-- Value of a two-digit field. -/
def num2 (a b : Char) : Nat := 10 * digitVal a + digitVal b

/-- Value of a four-digit field. -/
def num4 (a b c d : Char) : Nat :=
  1000 * digitVal a + 100 * digitVal b + 10 * digitVal c + digitVal d

/-- The helper `isLeap` of package `time`. -/
def isLeap (year : Int) : Bool :=
  year % 4 == 0 && (year % 100 != 0 || year % 400 == 0)

/-- The helper `daysIn` of package `time`. -/
def daysIn (month : Nat) (year : Int) : Nat :=
  if month = 2 then (if isLeap year then 29 else 28)
  else if month = 4 ∨ month = 6 ∨ month = 9 ∨ month = 11 then 30
  else 31

/-- The call `time.Parse("2006-01-02", value)`: four digits, a hyphen, two digits, a
hyphen, two digits and nothing else, the month in 1..12 and the day in the month; the
result is midnight UTC of that day. -/
def timeParseDate (value : String) : Option Time :=
  match value.data with
  | [y0, y1, y2, y3, p1, m0, m1, p2, d0, d1] =>
    if isDigit y0 && isDigit y1 && isDigit y2 && isDigit y3 && p1 == '-' &&
        isDigit m0 && isDigit m1 && p2 == '-' && isDigit d0 && isDigit d1 then
      let year : Int := num4 y0 y1 y2 y3
      let month := num2 m0 m1
      let day := num2 d0 d1
      if 1 ≤ month ∧ month ≤ 12 ∧ 1 ≤ day ∧ day ≤ daysIn month year then
        some { year := year, month := month, day := day, hour := 0, minute := 0,
               second := 0, nsec := 0, offset := 0 }
      else none
    else none
  | _ => none

/-- The helper `parseNanoseconds`, on the digits of a fraction: at most nine digits
count, scaled to nanoseconds. -/
def parseNanoseconds (digits : List Char) : Nat :=
  let ds := digits.take 9
  (ds.foldl (fun acc c => 10 * acc + digitVal c) 0) * 10 ^ (9 - ds.length)

/-- The zone suffix as read by `parseRFC3339`: `Z`, or a sign, two digits of hours below
24, a colon and two digits of minutes below 60; the result is the offset in seconds. -/
def parseZoneStrict : List Char → Option Int
  | ['Z'] => some 0
  | [sg, h0, h1, c, m0, m1] =>
    if isDigit h0 && isDigit h1 && isDigit m0 && isDigit m1 && c == ':' &&
        (sg == '-' || sg == '+') && decide (num2 h0 h1 ≤ 23) && decide (num2 m0 m1 ≤ 59) then
      let zoneOffset : Int := ((num2 h0 h1 * 60 + num2 m0 m1) * 60 : Nat)
      some (if sg == '-' then -zoneOffset else zoneOffset)
    else none
  | _ => none

/-- The fraction of a second as read by `parseRFC3339`: splits an optional fraction (a
period followed by at least one digit) off the text after the seconds, giving the
nanoseconds and the remaining text. -/
def splitFraction : List Char → Nat × List Char
  | '.' :: c :: rest =>
    if isDigit c then
      (parseNanoseconds (c :: rest.takeWhile isDigit), rest.dropWhile isDigit)
    else (0, '.' :: c :: rest)
  | s => (0, s)

/-- The function `parseRFC3339` of package `time` (`format_rfc3339.go`), the dedicated
parser that `time.Parse` tries first for the layout `time.RFC3339`: fixed positions, two
digits for every field but the year, a period before the fraction, zone hours up to 23 and
zone minutes up to 59. -/
def parseRFC3339 (value : String) : Option Time :=
  match value.data with
  | y0 :: y1 :: y2 :: y3 :: p1 :: m0 :: m1 :: p2 :: d0 :: d1 :: t :: h0 :: h1 :: c1 ::
      n0 :: n1 :: c2 :: s0 :: s1 :: rest =>
    if isDigit y0 && isDigit y1 && isDigit y2 && isDigit y3 && isDigit m0 && isDigit m1 &&
        isDigit d0 && isDigit d1 && isDigit h0 && isDigit h1 && isDigit n0 && isDigit n1 &&
        isDigit s0 && isDigit s1 &&
        p1 == '-' && p2 == '-' && t == 'T' && c1 == ':' && c2 == ':' then
      let year : Int := num4 y0 y1 y2 y3
      let month := num2 m0 m1
      let day := num2 d0 d1
      if 1 ≤ month ∧ month ≤ 12 ∧ 1 ≤ day ∧ day ≤ daysIn month year ∧
          num2 h0 h1 ≤ 23 ∧ num2 n0 n1 ≤ 59 ∧ num2 s0 s1 ≤ 59 then
        let fr := splitFraction rest
        match parseZoneStrict fr.2 with
        | some off =>
          some { year := year, month := month, day := day, hour := num2 h0 h1,
                 minute := num2 n0 n1, second := num2 s0 s1, nsec := fr.1, offset := off }
        | none => none
      else none
    else none
  | _ => none

/-- The helper `commaOrPeriod` of package `time`. -/
def commaOrPeriod (c : Char) : Bool := c == '.' || c == ','

/-- The helper `getnum` of package `time`: a number of one or two digits at the head of
the text, of exactly two digits when `fixed` is set; the value and the remaining text. -/
def getnum (s : List Char) (fixed : Bool) : Option (Nat × List Char) :=
  match s with
  | [] => none
  | a :: rest =>
    if isDigit a then
      match rest with
      | [] => if fixed then none else some (digitVal a, [])
      | b :: rest2 =>
        if isDigit b then some (num2 a b, rest2)
        else if fixed then none else some (digitVal a, rest)
    else none

/-- The helper `skip` of package `time`, for a prefix of one character. -/
def skip (value : List Char) (c : Char) : Option (List Char) :=
  match value with
  | x :: rest => if x == c then some rest else none
  | [] => none

/-- The element `2006` (`stdLongYear`) of the layout parser: four digits. -/
def getLongYear : List Char → Option (Nat × List Char)
  | y0 :: y1 :: y2 :: y3 :: rest =>
    if isDigit y0 && isDigit y1 && isDigit y2 && isDigit y3 then some (num4 y0 y1 y2 y3, rest)
    else none
  | _ => none

/-- The fraction of a second as read by the layout parser after the seconds of a layout
without fraction: a comma or a period followed by at least one digit. -/
def splitFractionLayout : List Char → Nat × List Char
  | p :: c :: rest =>
    if commaOrPeriod p && isDigit c then
      (parseNanoseconds (c :: rest.takeWhile isDigit), rest.dropWhile isDigit)
    else (0, p :: c :: rest)
  | s => (0, s)

/-- The element `Z07:00` (`stdISO8601ColonTZ`) of the layout parser, which is the last
element of `time.RFC3339`, so that nothing may follow it: `Z`, or a sign, two digits of
hours up to 24, a colon and two digits of minutes up to 60; the result is the offset in
seconds. -/
def parseZoneLayout : List Char → Option Int
  | ['Z'] => some 0
  | [sg, h0, h1, c, m0, m1] =>
    if c == ':' then
      match getnum [h0, h1] true, getnum [m0, m1] true with
      | some (hr, _), some (mm, _) =>
        if 24 < hr ∨ 60 < mm then none
        else
          let zoneOffset : Int := (((hr * 60 + mm) * 60 : Nat) : Int)
          if sg == '+' then some zoneOffset
          else if sg == '-' then some (-zoneOffset)
          else none
      | _, _ => none
    else none
  | _ => none

/-- The function `parse` of package `time` for the layout `time.RFC3339`
(`2006-01-02T15:04:05Z07:00`), the general layout parser: the elements of the layout are
read in turn, the hour with one or two digits, and the day is checked against the month
at the end. -/
def parseLayoutRFC3339 (value : String) : Option Time :=
  match getLongYear value.data with
  | none => none
  | some (year, v) =>
  match skip v '-' with
  | none => none
  | some v =>
  match getnum v true with
  | none => none
  | some (month, v) =>
  if month = 0 ∨ 12 < month then none else
  match skip v '-' with
  | none => none
  | some v =>
  match getnum v true with
  | none => none
  | some (day, v) =>
  match skip v 'T' with
  | none => none
  | some v =>
  match getnum v false with
  | none => none
  | some (hour, v) =>
  if 24 ≤ hour then none else
  match skip v ':' with
  | none => none
  | some v =>
  match getnum v true with
  | none => none
  | some (min, v) =>
  if 60 ≤ min then none else
  match skip v ':' with
  | none => none
  | some v =>
  match getnum v true with
  | none => none
  | some (sec, v) =>
  if 60 ≤ sec then none else
  let fr := splitFractionLayout v
  match parseZoneLayout fr.2 with
  | none => none
  | some off =>
  if day < 1 ∨ daysIn month year < day then none
  else some { year := year, month := month, day := day, hour := hour, minute := min,
              second := sec, nsec := fr.1, offset := off }

/-- The call `time.Parse(time.RFC3339, value)`: the dedicated parser, and the layout
parser when the dedicated one rejects the text. -/
def timeParseRFC3339 (value : String) : Option Time :=
  match parseRFC3339 value with
  | some t => some t
  | none => parseLayoutRFC3339 value

/-- The zone part `Z07:00` of `Time.Format`. -/
def formatZone (offset : Int) : List Char :=
  if offset = 0 then ['Z']
  else
    let zone := Int.tdiv offset 60
    if zone < 0 then
      '-' :: appendInt ((-zone) / 60) 2 ++ ':' :: appendInt ((-zone) % 60) 2
    else
      '+' :: appendInt (zone / 60) 2 ++ ':' :: appendInt (zone % 60) 2

/-- The call `t.Format(time.RFC3339)`. -/
def Time.formatRFC3339 (t : Time) : String :=
  String.mk (appendInt t.year 4 ++ '-' :: appendInt t.month 2 ++ '-' :: appendInt t.day 2 ++
    'T' :: appendInt t.hour 2 ++ ':' :: appendInt t.minute 2 ++ ':' ::
    appendInt t.second 2 ++ formatZone t.offset)

/-- The calendar day after the day of `t`. -/
def Time.nextDay (t : Time) : Time :=
  if t.day < daysIn t.month t.year then { t with day := t.day + 1 }
  else if t.month < 12 then { t with month := t.month + 1, day := 1 }
  else { t with year := t.year + 1, month := 1, day := 1 }

/-- The calendar day before the day of `t`. -/
def Time.prevDay (t : Time) : Time :=
  if 1 < t.day then { t with day := t.day - 1 }
  else if 1 < t.month then { t with month := t.month - 1, day := daysIn (t.month - 1) t.year }
  else { t with year := t.year - 1, month := 12, day := 31 }

/-- The method `Time.UTC`: the same instant with the zone set to UTC. -/
def Time.UTC (t : Time) : Time :=
  if t.offset = 0 then t
  else
    let secs : Int := ((t.hour * 3600 + t.minute * 60 + t.second : Nat) : Int) - t.offset
    let rem := (secs % 86400).toNat
    let t1 : Time :=
      { t with hour := rem / 3600, minute := rem % 3600 / 60, second := rem % 60,
               offset := 0 }
    let shift := secs / 86400
    if shift < 0 then Nat.iterate Time.prevDay shift.natAbs t1
    else Nat.iterate Time.nextDay shift.natAbs t1

/-- Text of the error of a failed `time.Parse`; the detail naming the element that did
not parse is left out. -/
def parseErrorText (layout value : String) : String :=
  "parsing time \"" ++ value ++ "\" as \"" ++ layout ++ "\""

/-- The function `formatDateToRFC3339`. -/
def formatDateToRFC3339 (dateStr : String) : Except String String :=
  let dateOnly : Except String String :=
    match timeParseDate dateStr with
    | none =>
      .error ("cannot parse date '" ++ dateStr ++ "': " ++ parseErrorText "2006-01-02" dateStr)
    | some t => .ok t.UTC.formatRFC3339
  if 'T' ∈ dateStr.data then
    match timeParseRFC3339 dateStr with
    | some t => .ok t.formatRFC3339
    | none => dateOnly
  else dateOnly

/-! ## Sample collaborators and inputs -/

/-- A context on which no cancellation is ever observed. -/
def neverCancelled : Context := ⟨fun _ => false⟩

/-- A context whose cancellation is observed from iteration `k` on. -/
def cancelledFrom (k : Nat) : Context := ⟨fun i => decide (k ≤ i)⟩

/-- A store that records every payload it is handed, in call order; `outcome` gives the
error of a call from the payloads recorded so far and the payload of the call. -/
def recordingStore (outcome : List DataMap → DataMap → Option String) :
    DBClient (List DataMap) :=
  ⟨fun log data => (log ++ [data], outcome log data)⟩

/-- A parser whose record validator requires a card number and whose conversion
requires an entry date. -/
def sampleParser : Parser :=
  { ParseFile := fun _ => .ok []
    Parse := fun _ => .ok []
    ValidateRecord := fun r => if r.CardNumber = "" then some "card number is required" else none
    ConvertToSimpleRecord := fun r =>
      if r.EntryDate = "" then .error "invalid entry date"
      else .ok
        { Date := ⟨2024, 1, 5, 0, 0, 0, 0, 0⟩, EntryIC := "A", ExitIC := "B", Route := "R",
          VehicleType := 1, Amount := r.ETCAmount, CardNumber := r.CardNumber } }

/-- A well-formed record. -/
def goodRecord : ActualETCRecord := ⟨"2024-01-05", "10:00", "2024-01-05", "11:00", 1200, "1234"⟩

/-- A record without entry date: `sampleParser` fails to convert it. -/
def undatedRecord : ActualETCRecord := ⟨"", "10:00", "2024-01-05", "11:00", 1200, "1234"⟩

/-- A record without card number: `sampleParser` rejects it in validation and converts
it. -/
def cardlessRecord : ActualETCRecord := ⟨"2024-01-05", "10:00", "2024-01-05", "11:00", 1200, ""⟩

/-- A record whose entry date holds an underscore. -/
def shiftedRecordA : ActualETCRecord := ⟨"a_b", "c", "d", "e", 1, "f"⟩

/-- A record that differs from `shiftedRecordA` in entry date and entry time. -/
def shiftedRecordB : ActualETCRecord := ⟨"a", "b_c", "d", "e", 1, "f"⟩

/-- The three tallies are `int32` values. -/
def CountersWrapped (s : ProcessingStats) : Prop :=
  int32 s.SavedRecords = s.SavedRecords ∧ int32 s.SkippedRecords = s.SkippedRecords ∧
    int32 s.ErrorRecords = s.ErrorRecords

/-- Shape of a per-record line of the error list: the position of the record and the
detail of the failure. -/
def recordError (position : Int) (detail : String) : String :=
  "Record " ++ fmtD position ++ ": " ++ detail

/-- Number of keys of `ks` that are not in `seen`, each counted once. -/
def freshKeys (seen : Finset String) (ks : List String) : Nat := (ks.toFinset \ seen).card

/-- The detail of the error line of a record that failed: the conversion of the record
failed with the error quoted, or its conversion succeeded and the save failed with the
error quoted. -/
def FailureDetail (parser : Parser) (r : ActualETCRecord) (detail : String) : Prop :=
  (∃ err, parser.ConvertToSimpleRecord r = .error err ∧
    detail = "conversion failed: " ++ err) ∨
  (∃ simple err, parser.ConvertToSimpleRecord r = .ok simple ∧
    detail = "save failed: " ++ err)

/-- Two loop states that agree on everything but the error tally, the error list and the
total. -/
def SameProgress {σ : Type} (s t : LoopState σ) : Prop :=
  s.processedKeys = t.processedKeys ∧ s.store = t.store ∧
    s.stats.SavedRecords = t.stats.SavedRecords ∧
    s.stats.SkippedRecords = t.stats.SkippedRecords

/-- The record `r` fails when its iteration starts in state `st`: it is not skipped, and
either its conversion fails or its conversion succeeds and the save returns an error,
the store being left as it was. -/
def RecordFails {σ : Type} (dbClient : Option (DBClient σ)) (parser : Parser)
    (accountID : String) (skipDuplicates : Bool) (st : LoopState σ)
    (r : ActualETCRecord) : Prop :=
  ¬ (skipDuplicates = true ∧ st.processedKeys (processingKey r) = true) ∧
  ((∃ err, parser.ConvertToSimpleRecord r = .error err) ∨
    (∃ simple d err, parser.ConvertToSimpleRecord r = .ok simple ∧ dbClient = some d ∧
      d.SaveETCData st.store (dataToSave accountID simple) = (st.store, some err)))

/-- Value of a text of decimal digits. -/
def decimalValue (l : List Char) : Nat := l.foldl (fun acc c => 10 * acc + digitVal c) 0

/-- The two dates and the two times of the record hold no underscore. -/
def DateTimeUnderscoreFree (r : ActualETCRecord) : Prop :=
  '_' ∉ r.EntryDate.data ∧ '_' ∉ r.EntryTime.data ∧ '_' ∉ r.ExitDate.data ∧
    '_' ∉ r.ExitTime.data

/-- Number of entries of `ks` equal to an entry before them, for `ks` in reverse order. -/
def repeatsInReverse {α : Type} [DecidableEq α] : List α → Nat
  | [] => 0
  | k :: rest => (if k ∈ rest then 1 else 0) + repeatsInReverse rest

/-- Number of entries of `ks` that are equal to an earlier entry of `ks`. -/
def earlierDuplicates {α : Type} [DecidableEq α] (ks : List α) : Nat :=
  repeatsInReverse ks.reverse

/-- The validation error `ValidateCSVData` builds for the record at index `i`. -/
def lineError (parser : Parser) (p : Nat × ActualETCRecord) : Option ValidationError :=
  (parser.ValidateRecord p.2).map fun err =>
    { LineNumber := int32 ((p.1 : Int) + 2), Field := "", Message := err,
      RecordData := fmtV p.2 }

/-- An environment in which no variable is set. -/
def emptyEnv : Env := fun _ => ""

/-- A file system without files. -/
def emptyFS : FileSystem :=
  { Stat := fun _ => some ⟨true, "no such file"⟩
    ReadDir := fun _ => .error "no such directory"
    Glob := fun _ => .ok []
    Join := fun a b => a ++ "/" ++ b }

/-- A service with the default validator in `emptyEnv`, a recording store and a parser
that delivers the given records. -/
def sampleService (records : List ActualETCRecord) : DataProcessorService (List DataMap) :=
  { dbClient := some (recordingStore fun _ _ => none)
    parser := { sampleParser with
      ParseFile := fun _ => .ok records
      Parse := fun _ => .ok records }
    validator := NewDefaultValidator emptyEnv emptyFS }

/-- A valid bare calendar date `YYYY-MM-DD`: the four digits of a year up to 9999, a
hyphen, the two digits of a month in 1..12, a hyphen and the two digits of a day of that
month. -/
def IsCalendarDate (s : String) : Prop :=
  ∃ y m d : Nat, y ≤ 9999 ∧ 1 ≤ m ∧ m ≤ 12 ∧ 1 ≤ d ∧ d ≤ daysIn m y ∧
    s.data = [utod (y / 1000), utod (y / 100 % 10), utod (y / 10 % 10), utod (y % 10), '-',
      utod (m / 10), utod (m % 10), '-', utod (d / 10), utod (d % 10)]

/-- The first nineteen characters of a timestamp: date, time designator, time of day. -/
def dateTimeText (y mo d h mi sc : Nat) : List Char :=
  [utod (y / 1000), utod (y / 100 % 10), utod (y / 10 % 10), utod (y % 10), '-',
    utod (mo / 10), utod (mo % 10), '-', utod (d / 10), utod (d % 10), 'T',
    utod (h / 10), utod (h % 10), ':', utod (mi / 10), utod (mi % 10), ':',
    utod (sc / 10), utod (sc % 10)]

/-- A numeric zone suffix: sign, hours, colon, minutes. -/
def zoneText (sg : Char) (hh mm : Nat) : List Char :=
  [sg, utod (hh / 10), utod (hh % 10), ':', utod (mm / 10), utod (mm % 10)]

/-! ## Conversion to the message of the store (`client.go`) -/

/-- The fields of the message `Db_ETCMeisai` that `convertToETCMeisai` fills. -/
structure Db_ETCMeisai where
  DateTo : String
  DateToDate : String
  IcFr : Option String
  IcTo : String
  Price : Int
  Shashu : Int
  EtcNum : String
  Hash : String
deriving DecidableEq, Repr

/-- An index expression `data[key]`: the nil interface when the key is absent. -/
def DataMap.get (data : DataMap) (key : String) : Value :=
  match data.lookup key with
  | some v => v
  | none => .nil

/-- The verb `%T`. -/
def Value.typeName : Value → String
  | .nil => "<nil>"
  | .str _ => "string"
  | .int _ => "int"
  | .int32 _ => "int32"
  | .int64 _ => "int64"
  | .float64 _ _ => "float64"
  | .other t _ => t

/-- The verb `%v`. -/
def Value.render : Value → String
  | .nil => "<nil>"
  | .str s => s
  | .int v => fmtD v
  | .int32 v => fmtD v
  | .int64 v => fmtD v
  | .float64 _ text => text
  | .other _ text => text

/-- The digits of an unsigned decimal numeral: its value, when the text is not empty and
holds digits only. -/
def parseDigits (l : List Char) : Option Nat :=
  if l ≠ [] ∧ l.all isDigit then some (decimalValue l) else none

/-- The call `strconv.ParseInt(s, 10, 32)`: an optional sign and decimal digits, the
value lying in the range of `int32`; the error is that of `strconv.NumError`, the input
quoted plainly. -/
def strconvParseInt32 (s : String) : Except String Int :=
  let body : List Char × Bool :=
    match s.data with
    | '+' :: rest => (rest, false)
    | '-' :: rest => (rest, true)
    | l => (l, false)
  match parseDigits body.1 with
  | none => .error ("strconv.ParseInt: parsing \"" ++ s ++ "\": invalid syntax")
  | some un =>
    if (!body.2 && decide (un ≥ 2147483648)) || (body.2 && decide (un > 2147483648)) then
      .error ("strconv.ParseInt: parsing \"" ++ s ++ "\": value out of range")
    else .ok (if body.2 then -(un : Int) else (un : Int))

/-- The conversion `int32(v)` of a `float64`: the value truncated toward zero when that
lies in the range of `int32`.  For every other value (out of range, NaN, infinite) Go
leaves the result to the implementation; the model takes the result on amd64, which is
`-2147483648`. -/
def float64ToInt32 (truncated : Option Int) : Int :=
  match truncated with
  | some t => if -2147483648 ≤ t ∧ t ≤ 2147483647 then t else -2147483648
  | none => -2147483648

/-- The function `parseInt32`. -/
def parseInt32 (value : Value) : Except String Int :=
  match value with
  | .int v => .ok (int32 v)
  | .int32 v => .ok v
  | .int64 v => .ok (int32 v)
  | .float64 v _ => .ok (float64ToInt32 v)
  | .str v =>
    match strconvParseInt32 v with
    | .error err => .error ("cannot parse '" ++ v ++ "' as int32: " ++ err)
    | .ok parsed => .ok (int32 parsed)
  | v => .error ("unsupported type " ++ v.typeName ++ " for int32 conversion")

/-- A digest of `crypto/sha256`: thirty-two bytes. -/
abbrev Digest := Fin 32 → Fin 256

/-- A lowercase hexadecimal digit. -/
def hexDigit (n : Nat) : Char := if n < 10 then Char.ofNat (48 + n) else Char.ofNat (87 + n)

/-- The two hexadecimal digits of a byte. -/
def hexOfByte (b : Fin 256) : List Char := [hexDigit (b.val / 16), hexDigit (b.val % 16)]

/-- The hexadecimal digits of a sequence of bytes. -/
def hexOfBytes : List (Fin 256) → List Char
  | [] => []
  | b :: rest => hexOfByte b ++ hexOfBytes rest

/-- The verb `%x` on a digest. -/
def fmtX (d : Digest) : String := String.mk (hexOfBytes (List.ofFn d))

/-- The text `generateHash` feeds to the digest function:
`fmt.Sprintf("%s_%s_%s_%d_%s", ...)`. -/
def hashInput (dateTo icFr icTo : String) (price : Int) (etcNum : String) : String :=
  dateTo ++ "_" ++ icFr ++ "_" ++ icTo ++ "_" ++ fmtD price ++ "_" ++ etcNum

/-- The function `generateHash`; `sum256` is `sha256.Sum256` on the bytes of a text. -/
def generateHash (sum256 : String → Digest) (etcMeisai : Db_ETCMeisai) : String :=
  let icFr :=
    match etcMeisai.IcFr with
    | some p => p
    | none => ""
  fmtX (sum256 (hashInput etcMeisai.DateTo icFr etcMeisai.IcTo etcMeisai.Price
    etcMeisai.EtcNum))

/-- The function `convertToETCMeisai`. -/
def convertToETCMeisai (sum256 : String → Digest) (data : DataMap) :
    Except String Db_ETCMeisai :=
  let dateError : Except String Db_ETCMeisai :=
    .error ("missing or invalid 'date' field: got type " ++ (data.get "date").typeName ++
      ", value " ++ (data.get "date").render)
  match data.get "date" with
  | .str dateStr =>
    if dateStr = "" then dateError
    else
      match formatDateToRFC3339 dateStr with
      | .error err => .error ("failed to convert date to RFC3339: " ++ err)
      | .ok dateToRFC3339 =>
        match data.get "entry_ic" with
        | .str entryIC =>
          match data.get "exit_ic" with
          | .str exitIC =>
            match parseInt32 (data.get "amount") with
            | .error err => .error ("invalid 'amount': " ++ err)
            | .ok amount =>
              match parseInt32 (data.get "vehicle_type") with
              | .error err => .error ("invalid 'vehicle_type': " ++ err)
              | .ok vehicleType =>
                let cardNumber :=
                  match data.get "card_number" with
                  | .str c => c
                  | _ => ""
                let icFr : Option String := if entryIC ≠ "" then some entryIC else none
                let etcMeisai : Db_ETCMeisai :=
                  { DateTo := dateToRFC3339
                    DateToDate := dateStr
                    IcFr := icFr
                    IcTo := exitIC
                    Price := amount
                    Shashu := vehicleType
                    EtcNum := cardNumber
                    Hash := "" }
                .ok { etcMeisai with Hash := generateHash sum256 etcMeisai }
          | _ => .error "missing or invalid 'exit_ic' field"
        | _ => .error "missing or invalid 'entry_ic' field"
  | _ => dateError

/-- A stand-in for the digest function, for evaluation: byte `i` of the digest of a text
is the number of characters of the text plus `i`, modulo 256. -/
def sampleSum256 (s : String) : Digest := fun i => ⟨(s.length + i.val) % 256, Nat.mod_lt _ (by norm_num)⟩

/-- A well-formed save payload. -/
def samplePayload : DataMap :=
  [("account_id", .str "acc"), ("date", .str "2024-01-05"), ("entry_ic", .str "A"),
   ("exit_ic", .str "B"), ("route", .str "R"), ("vehicle_type", .int 1),
   ("amount", .int 1200), ("card_number", .str "1234")]

/-- An environment in which the override base directory is `/data`. -/
def overrideEnv : Env := fun name => if name = "CSV_BASE_PATH" then "/data" else ""

/-- A validator that accepts everything. -/
def permissiveValidator : Validator :=
  { ValidateCSVFilePath := fun _ => none
    ValidateAccountID := fun _ => none
    ValidateCSVData := fun _ => none
    CheckFileExists := fun _ => none }

/-- A file system whose directory `/data` holds three dated sub-directories and a file,
the latest sub-directory holding one CSV file. -/
def datedFS : FileSystem :=
  { Stat := fun _ => none
    ReadDir := fun p =>
      if p = "/data" then
        .ok [⟨"2024-01-01", true⟩, ⟨"2024-02-01", true⟩, ⟨"notes.txt", false⟩,
          ⟨"2024-01-15", true⟩]
      else .error "no such directory"
    Glob := fun pattern =>
      if pattern = "/data/2024-02-01/*.csv" then .ok ["/data/2024-02-01/etc.csv"] else .ok []
    Join := fun a b => a ++ "/" ++ b }

/-! ## Further sample collaborators and notions of the specification -/

/-- A store that refuses a payload without card number, keeping nothing of it, and
records every other payload. -/
def choosyStore : DBClient (List DataMap) :=
  ⟨fun log data =>
    if data.get "card_number" = .str "" then (log, some "card number missing")
    else (log ++ [data], none)⟩

/-- A store whose first call fails and whose later calls succeed. -/
def warmingStore : DBClient (List DataMap) :=
  recordingStore fun log _ => if log.isEmpty then some "unavailable" else none

/-- The five fields a validation key is built from: entry date, entry time, exit date,
exit time and amount; the card number is not among them. -/
def validationFields (r : ActualETCRecord) : String × String × String × String × Int :=
  (r.EntryDate, r.EntryTime, r.ExitDate, r.ExitTime, r.ETCAmount)

/-- The text that joins five fields with underscores. -/
def joinFields (f : String × String × String × String × Int) : String :=
  f.1 ++ "_" ++ f.2.1 ++ "_" ++ f.2.2.1 ++ "_" ++ f.2.2.2.1 ++ "_" ++ fmtD f.2.2.2.2

/-- The payload value `v` holds the integer `n`: as an `int`, an `int32` or an `int64`,
or as its decimal text. -/
def HoldsInteger (v : Value) (n : Int) : Prop :=
  v = .int n ∨ v = .int32 n ∨ v = .int64 n ∨ v = .str (fmtD n)

/-- A save payload whose amount, the `int` 4294968496, lies outside the range of
`int32`. -/
def widePayload : DataMap :=
  [("account_id", .str "acc"), ("date", .str "2024-01-05"), ("entry_ic", .str "A"),
   ("exit_ic", .str "B"), ("route", .str "R"), ("vehicle_type", .int 1),
   ("amount", .int 4294968496), ("card_number", .str "1234")]

/-! ## Theorems -/

/-- C1 (defect of the code): a batch of two records in which the first record fails
conversion and cancellation is observed at the start of the second iteration returns
total 2, saved 0, skipped 0, errored 1: the cancellation branch overwrites the error
count with the number of remaining records, and the total is no longer the sum of the
three tallies. -/
theorem processRecords_cancel_after_error_unbalanced :
    (processRecords (cancelledFrom 1) (some (recordingStore fun _ _ => none)) sampleParser
        [undatedRecord, goodRecord] "acc" true []).stats = ⟨2, 0, 0, 1⟩ ∧
    (processRecords (cancelledFrom 1) (some (recordingStore fun _ _ => none)) sampleParser
        [undatedRecord, goodRecord] "acc" true []).stats.TotalRecords ≠
      (processRecords (cancelledFrom 1) (some (recordingStore fun _ _ => none)) sampleParser
        [undatedRecord, goodRecord] "acc" true []).stats.SavedRecords +
      (processRecords (cancelledFrom 1) (some (recordingStore fun _ _ => none)) sampleParser
        [undatedRecord, goodRecord] "acc" true []).stats.SkippedRecords +
      (processRecords (cancelledFrom 1) (some (recordingStore fun _ _ => none)) sampleParser
        [undatedRecord, goodRecord] "acc" true []).stats.ErrorRecords := by
  decide

/-! ### Arithmetic of `int32` and unfolding of the batch loop -/
theorem int32_add_int32 (a b : Int) : int32 (int32 a + b) = int32 (a + b) := by
  unfold int32; omega

theorem int32_of_range (x : Int) (h1 : -2147483648 ≤ x) (h2 : x < 2147483648) :
    int32 x = x := by
  unfold int32; omega

theorem int32_idem (a : Int) : int32 (int32 a) = int32 a := by
  unfold int32; omega

/-- The four ways an iteration that is not cancelled ends. -/
theorem processRecord_cases {σ : Type} (db : Option (DBClient σ)) (parser : Parser) (acct : String)
    (skip : Bool) (i : Nat) (r : ActualETCRecord) (st : LoopState σ) :
    (skip = true ∧ st.processedKeys (processingKey r) = true ∧
      processRecord db parser acct skip i r st =
        { st with stats := { st.stats with
            SkippedRecords := int32 (st.stats.SkippedRecords + 1) } }) ∨
    (¬ (skip = true ∧ st.processedKeys (processingKey r) = true) ∧
      ∃ err, parser.ConvertToSimpleRecord r = .error err ∧
        processRecord db parser acct skip i r st =
          { st with
            errors := st.errors ++
              ["Record " ++ fmtD ((i : Int) + 1) ++ ": conversion failed: " ++ err]
            stats := { st.stats with
              ErrorRecords := int32 (st.stats.ErrorRecords + 1) } }) ∨
    (¬ (skip = true ∧ st.processedKeys (processingKey r) = true) ∧
      ∃ simple d store' err, parser.ConvertToSimpleRecord r = .ok simple ∧ db = some d ∧
        d.SaveETCData st.store (dataToSave acct simple) = (store', some err) ∧
        processRecord db parser acct skip i r st =
          { st with
            store := store'
            errors := st.errors ++
              ["Record " ++ fmtD ((i : Int) + 1) ++ ": save failed: " ++ err]
            stats := { st.stats with
              ErrorRecords := int32 (st.stats.ErrorRecords + 1) } }) ∨
    (¬ (skip = true ∧ st.processedKeys (processingKey r) = true) ∧
      ∃ simple store', parser.ConvertToSimpleRecord r = .ok simple ∧
        (db = none ∧ store' = st.store ∨
          ∃ d, db = some d ∧
            d.SaveETCData st.store (dataToSave acct simple) = (store', none)) ∧
        processRecord db parser acct skip i r st =
          { st with
            store := store'
            processedKeys := markProcessed st.processedKeys (processingKey r)
            stats := { st.stats with
              SavedRecords := int32 (st.stats.SavedRecords + 1) } }) := by
  unfold processRecord
  by_cases hsk : skip = true ∧ st.processedKeys (processingKey r) = true
  · left
    refine ⟨hsk.1, hsk.2, ?_⟩
    simp [hsk.1, hsk.2]
  · right
    have hcond : (skip && st.processedKeys (processingKey r)) = false := by
      cases skip <;> simp_all
    simp only [hcond]
    cases hc : parser.ConvertToSimpleRecord r with
    | error err =>
      left
      exact ⟨hsk, err, rfl, by simp⟩
    | ok simple =>
      right
      cases db with
      | none =>
        right
        exact ⟨hsk, simple, st.store, rfl, Or.inl ⟨rfl, rfl⟩, by simp⟩
      | some d =>
        cases hs : d.SaveETCData st.store (dataToSave acct simple) with
        | mk store' res =>
          cases res with
          | some err =>
            left
            exact ⟨hsk, simple, d, store', err, rfl, rfl, hs, by simp [hs]⟩
          | none =>
            right
            exact ⟨hsk, simple, store', rfl, Or.inr ⟨d, rfl, hs⟩, by simp [hs]⟩


theorem processLoop_nil (ctx : Context) {σ : Type} (db : Option (DBClient σ)) (parser : Parser)
    (acct : String) (skip : Bool) (n i : Nat) (st : LoopState σ) :
    processLoop ctx db parser acct skip n i [] st = st := by
  simp [processLoop]

theorem processLoop_cons (ctx : Context) {σ : Type} (db : Option (DBClient σ)) (parser : Parser)
    (acct : String) (skip : Bool) (n i : Nat) (r : ActualETCRecord)
    (rest : List ActualETCRecord) (st : LoopState σ) (h : ctx.ErrAt i = false) :
    processLoop ctx db parser acct skip n i (r :: rest) st =
      processLoop ctx db parser acct skip n (i + 1) rest
        (processRecord db parser acct skip i r st) := by
  simp [processLoop, h]

theorem processLoop_cancel (ctx : Context) {σ : Type} (db : Option (DBClient σ)) (parser : Parser)
    (acct : String) (skip : Bool) (n i : Nat) (r : ActualETCRecord)
    (rest : List ActualETCRecord) (st : LoopState σ) (h : ctx.ErrAt i = true) :
    processLoop ctx db parser acct skip n i (r :: rest) st =
      { st with
        errors := st.errors ++ ["Processing cancelled at record " ++ fmtD i]
        stats := { st.stats with ErrorRecords := int32 ((n : Int) - (i : Int)) } } := by
  simp [processLoop, h]

theorem recordError_conversion (p : Int) (err : String) :
    "Record " ++ fmtD p ++ ": conversion failed: " ++ err =
      recordError p ("conversion failed: " ++ err) := by
  unfold recordError
  have : (": conversion failed: " : String) = ": " ++ "conversion failed: " := by decide
  rw [this]
  simp only [String.append_assoc]

theorem recordError_save (p : Int) (err : String) :
    "Record " ++ fmtD p ++ ": save failed: " ++ err =
      recordError p ("save failed: " ++ err) := by
  unfold recordError
  have : (": save failed: " : String) = ": " ++ "save failed: " := by decide
  rw [this]
  simp only [String.append_assoc]

/-- Effect of one iteration on the tallies and the error list. -/
theorem processRecord_counts {σ : Type} (db : Option (DBClient σ)) (parser : Parser) (acct : String)
    (skip : Bool) (i : Nat) (r : ActualETCRecord) (st : LoopState σ)
    (hw : CountersWrapped st.stats) :
    ∃ (a b : Nat) (ps : List String), a + b + ps.length = 1 ∧
      (processRecord db parser acct skip i r st).stats.SavedRecords =
        int32 (st.stats.SavedRecords + a) ∧
      (processRecord db parser acct skip i r st).stats.SkippedRecords =
        int32 (st.stats.SkippedRecords + b) ∧
      (processRecord db parser acct skip i r st).stats.ErrorRecords =
        int32 (st.stats.ErrorRecords + ps.length) ∧
      (processRecord db parser acct skip i r st).errors =
        st.errors ++ ps.map (fun d => recordError ((i : Int) + 1) d) ∧
      (∀ d ∈ ps, FailureDetail parser r d) ∧
      (processRecord db parser acct skip i r st).stats.TotalRecords =
        st.stats.TotalRecords ∧
      CountersWrapped (processRecord db parser acct skip i r st).stats := by
  obtain ⟨h1, h2, h3⟩ := hw
  rcases processRecord_cases db parser acct skip i r st with
    ⟨_, _, h⟩ | ⟨_, err, hc, h⟩ | ⟨_, simple, d, store', err, hc, _, _, h⟩ |
    ⟨_, simple, store', _, _, h⟩
  · refine ⟨0, 1, [], rfl, ?_⟩
    rw [h]
    simp [CountersWrapped, h1, h2, h3, int32_idem]
  · refine ⟨0, 0, ["conversion failed: " ++ err], rfl, ?_⟩
    rw [h]
    have hd : FailureDetail parser r ("conversion failed: " ++ err) :=
      Or.inl ⟨err, hc, rfl⟩
    simp [CountersWrapped, h1, h2, h3, int32_idem, recordError_conversion, hd]
  · refine ⟨0, 0, ["save failed: " ++ err], rfl, ?_⟩
    rw [h]
    have hd : FailureDetail parser r ("save failed: " ++ err) :=
      Or.inr ⟨simple, err, hc, rfl⟩
    simp [CountersWrapped, h1, h2, h3, int32_idem, recordError_save, hd]
  · refine ⟨1, 0, [], rfl, ?_⟩
    rw [h]
    simp [CountersWrapped, h1, h2, h3, int32_idem]


/-- Tallies and error list of a loop on which cancellation is never observed. -/
theorem processLoop_counts (ctx : Context) {σ : Type} (db : Option (DBClient σ)) (parser : Parser)
    (acct : String) (skip : Bool) (n : Nat) (hctx : ∀ j, ctx.ErrAt j = false) :
    ∀ (l : List ActualETCRecord) (i : Nat) (st : LoopState σ), CountersWrapped st.stats →
      ∃ (a b : Nat) (ps : List (Nat × String)), a + b + ps.length = l.length ∧
        (processLoop ctx db parser acct skip n i l st).stats.SavedRecords =
          int32 (st.stats.SavedRecords + a) ∧
        (processLoop ctx db parser acct skip n i l st).stats.SkippedRecords =
          int32 (st.stats.SkippedRecords + b) ∧
        (processLoop ctx db parser acct skip n i l st).stats.ErrorRecords =
          int32 (st.stats.ErrorRecords + ps.length) ∧
        (processLoop ctx db parser acct skip n i l st).errors =
          st.errors ++ ps.map (fun p => recordError ((p.1 : Int) + 1) p.2) ∧
        (ps.map Prod.fst).Pairwise (· < ·) ∧
        (∀ p ∈ ps, i ≤ p.1 ∧ ∃ r, l[p.1 - i]? = some r ∧ FailureDetail parser r p.2) ∧
        (processLoop ctx db parser acct skip n i l st).stats.TotalRecords =
          st.stats.TotalRecords := by
  intro l
  induction l with
  | nil =>
    intro i st hw
    obtain ⟨h1, h2, h3⟩ := hw
    refine ⟨0, 0, [], rfl, ?_⟩
    simp [processLoop_nil, h1, h2, h3]
  | cons r rest ih =>
    intro i st hw
    rw [processLoop_cons _ _ _ _ _ _ _ _ _ _ (hctx i)]
    obtain ⟨a0, b0, ps0, hsum0, hs0, hk0, he0, hl0, hd0, ht0, hw0⟩ :=
      processRecord_counts db parser acct skip i r st hw
    obtain ⟨a, b, ps, hsum, hs, hk, he, hl, hpw, hb, ht⟩ :=
      ih (i + 1) (processRecord db parser acct skip i r st) hw0
    refine ⟨a0 + a, b0 + b, ps0.map (fun d => (i, d)) ++ ps, ?_, ?_, ?_, ?_, ?_, ?_, ?_, ?_⟩
    · simp only [List.length_append, List.length_map, List.length_cons]; omega
    · rw [hs, hs0, int32_add_int32]; push_cast; ring_nf
    · rw [hk, hk0, int32_add_int32]; push_cast; ring_nf
    · rw [he, he0, int32_add_int32]
      simp only [List.length_append, List.length_map]; push_cast; ring_nf
    · rw [hl, hl0]
      simp [List.map_append, Function.comp_def]
    · rw [List.map_append, List.pairwise_append]
      refine ⟨?_, hpw, ?_⟩
      · have hlen : ps0.length ≤ 1 := by omega
        match ps0, hlen with
        | [], _ => simp
        | [d], _ => simp
      · intro x hx y hy
        simp only [List.map_map, List.mem_map, Function.comp] at hx
        obtain ⟨d, _, rfl⟩ := hx
        obtain ⟨p, hp, rfl⟩ := List.mem_map.1 hy
        have := (hb p hp).1
        omega
    · intro p hp
      rcases List.mem_append.1 hp with hp | hp
      · obtain ⟨d, hd, rfl⟩ := List.mem_map.1 hp
        exact ⟨le_refl _, r, by simp, hd0 d hd⟩
      · obtain ⟨hle, x, hx, hdx⟩ := hb p hp
        refine ⟨by omega, x, ?_, hdx⟩
        have : p.1 - i = (p.1 - (i + 1)) + 1 := by omega
        rw [this, List.getElem?_cons_succ]
        exact hx
    · rw [ht, ht0]

/-- With every conversion and every save succeeding, an iteration skips a record whose key
is marked (when duplicates are skipped) and saves and marks it otherwise. -/
theorem processRecord_all_succeed {σ : Type} (db : Option (DBClient σ)) (parser : Parser)
    (acct : String) (skip : Bool) (i : Nat) (r : ActualETCRecord) (st : LoopState σ)
    (hconv : ∃ simple, parser.ConvertToSimpleRecord r = .ok simple)
    (hsave : ∀ d simple s, db = some d → parser.ConvertToSimpleRecord r = .ok simple →
      (d.SaveETCData s (dataToSave acct simple)).2 = none) :
    (skip = true ∧ st.processedKeys (processingKey r) = true ∧
      (processRecord db parser acct skip i r st).processedKeys = st.processedKeys ∧
      (processRecord db parser acct skip i r st).stats =
        { st.stats with SkippedRecords := int32 (st.stats.SkippedRecords + 1) }) ∨
    (¬ (skip = true ∧ st.processedKeys (processingKey r) = true) ∧
      (processRecord db parser acct skip i r st).processedKeys =
        markProcessed st.processedKeys (processingKey r) ∧
      (processRecord db parser acct skip i r st).stats =
        { st.stats with SavedRecords := int32 (st.stats.SavedRecords + 1) }) := by
  obtain ⟨simple0, hs0⟩ := hconv
  rcases processRecord_cases db parser acct skip i r st with
    ⟨h1, h2, h⟩ | ⟨_, err, hc, _⟩ | ⟨_, simple, d, store', err, hc, hd, hsv, _⟩ |
    ⟨hn, simple, store', _, _, h⟩
  · left
    exact ⟨h1, h2, by rw [h], by rw [h]⟩
  · rw [hs0] at hc
    cases hc
  · have := hsave d simple st.store hd hc
    rw [hsv] at this
    cases this
  · right
    exact ⟨hn, by rw [h], by rw [h]⟩

theorem freshKeys_cons_mem (seen : Finset String) (k : String) (ks : List String)
    (h : k ∈ seen) : freshKeys seen (k :: ks) = freshKeys seen ks := by
  unfold freshKeys
  congr 1
  ext x
  simp only [List.toFinset_cons, Finset.mem_sdiff, Finset.mem_insert, List.mem_toFinset]
  constructor
  · rintro ⟨h1 | h1, h2⟩
    · subst h1; exact absurd h h2
    · exact ⟨h1, h2⟩
  · rintro ⟨h1, h2⟩
    exact ⟨Or.inr h1, h2⟩

theorem freshKeys_cons_not_mem (seen : Finset String) (k : String) (ks : List String)
    (h : k ∉ seen) : freshKeys seen (k :: ks) = freshKeys (insert k seen) ks + 1 := by
  unfold freshKeys
  have hk : k ∉ ks.toFinset \ insert k seen := by simp
  rw [← Finset.card_insert_of_not_mem hk]
  congr 1
  ext x
  simp only [List.toFinset_cons, Finset.mem_sdiff, Finset.mem_insert, List.mem_toFinset]
  constructor
  · rintro ⟨h1 | h1, h2⟩
    · exact Or.inl h1
    · by_cases hx : x = k
      · exact Or.inl hx
      · exact Or.inr ⟨h1, by simp [hx, h2]⟩
  · rintro (h1 | ⟨h1, h2⟩)
    · subst h1; exact ⟨Or.inl rfl, h⟩
    · exact ⟨Or.inr h1, fun hx => h2 (Or.inr hx)⟩

theorem freshKeys_le (seen : Finset String) (ks : List String) :
    freshKeys seen ks ≤ ks.length := by
  unfold freshKeys
  calc (ks.toFinset \ seen).card ≤ ks.toFinset.card := Finset.card_le_card Finset.sdiff_subset
    _ ≤ ks.length := List.toFinset_card_le ks

/-- Tallies of a loop without cancellation in which everything succeeds and duplicates
are skipped. -/
theorem processLoop_all_succeed_skip (ctx : Context) {σ : Type} (db : Option (DBClient σ))
    (parser : Parser) (acct : String) (n : Nat) (hctx : ∀ j, ctx.ErrAt j = false) :
    ∀ (l : List ActualETCRecord) (i : Nat) (st : LoopState σ) (seen : Finset String),
      (∀ r ∈ l, (∃ simple, parser.ConvertToSimpleRecord r = .ok simple) ∧
        ∀ d simple s, db = some d → parser.ConvertToSimpleRecord r = .ok simple →
          (d.SaveETCData s (dataToSave acct simple)).2 = none) →
      (∀ k, st.processedKeys k = true ↔ k ∈ seen) →
      CountersWrapped st.stats →
      (processLoop ctx db parser acct true n i l st).stats.SavedRecords =
          int32 (st.stats.SavedRecords + freshKeys seen (l.map processingKey)) ∧
      (processLoop ctx db parser acct true n i l st).stats.SkippedRecords =
          int32 (st.stats.SkippedRecords +
            ((l.length : Int) - freshKeys seen (l.map processingKey))) ∧
      (processLoop ctx db parser acct true n i l st).stats.ErrorRecords =
          st.stats.ErrorRecords := by
  intro l
  induction l with
  | nil =>
    intro i st seen _ _ hw
    obtain ⟨h1, h2, h3⟩ := hw
    simp [processLoop_nil, freshKeys, h1, h2]
  | cons r rest ih =>
    intro i st seen hconv hkeys hw
    obtain ⟨h1, h2, h3⟩ := hw
    rw [processLoop_cons _ _ _ _ _ _ _ _ _ _ (hctx i)]
    have hrest := fun x hx => hconv x (List.mem_cons_of_mem r hx)
    rcases processRecord_all_succeed db parser acct true i r st
        (hconv r (List.mem_cons_self _ _)).1 (hconv r (List.mem_cons_self _ _)).2 with ⟨_, hseen, hk, hst⟩ | ⟨hn, hk, hst⟩
    · have hmem : processingKey r ∈ seen := (hkeys _).1 hseen
      obtain ⟨e1, e2, e3⟩ := ih (i + 1) (processRecord db parser acct true i r st) seen hrest
        (by rw [hk]; exact hkeys) (by rw [hst]; exact ⟨h1, int32_idem _, h3⟩)
      rw [e1, e2, e3, hst]
      simp only [List.map_cons, List.length_cons, freshKeys_cons_mem seen _ _ hmem]
      refine ⟨trivial, ?_, trivial⟩
      rw [int32_add_int32]; push_cast; ring_nf
    · have hnot : processingKey r ∉ seen := by
        intro hm
        exact hn ⟨rfl, (hkeys _).2 hm⟩
      obtain ⟨e1, e2, e3⟩ := ih (i + 1) (processRecord db parser acct true i r st)
        (insert (processingKey r) seen) hrest
        (by
          intro k
          rw [hk]
          unfold markProcessed
          by_cases hkk : k = processingKey r
          · simp [hkk]
          · simp [hkk, hkeys k])
        (by rw [hst]; exact ⟨int32_idem _, h2, h3⟩)
      rw [e1, e2, e3, hst]
      simp only [List.map_cons, List.length_cons, freshKeys_cons_not_mem seen _ _ hnot]
      refine ⟨?_, ?_, trivial⟩
      · rw [int32_add_int32]; push_cast; ring_nf
      · congr 1; push_cast; ring_nf

/-- Tallies of a loop without cancellation in which everything succeeds and duplicates
are not skipped. -/
theorem processLoop_all_succeed_noskip (ctx : Context) {σ : Type} (db : Option (DBClient σ))
    (parser : Parser) (acct : String) (n : Nat) (hctx : ∀ j, ctx.ErrAt j = false) :
    ∀ (l : List ActualETCRecord) (i : Nat) (st : LoopState σ),
      (∀ r ∈ l, (∃ simple, parser.ConvertToSimpleRecord r = .ok simple) ∧
        ∀ d simple s, db = some d → parser.ConvertToSimpleRecord r = .ok simple →
          (d.SaveETCData s (dataToSave acct simple)).2 = none) →
      CountersWrapped st.stats →
      (processLoop ctx db parser acct false n i l st).stats.SavedRecords =
          int32 (st.stats.SavedRecords + l.length) ∧
      (processLoop ctx db parser acct false n i l st).stats.SkippedRecords =
          st.stats.SkippedRecords ∧
      (processLoop ctx db parser acct false n i l st).stats.ErrorRecords =
          st.stats.ErrorRecords := by
  intro l
  induction l with
  | nil =>
    intro i st _ hw
    obtain ⟨h1, h2, h3⟩ := hw
    simp [processLoop_nil, h1]
  | cons r rest ih =>
    intro i st hconv hw
    obtain ⟨h1, h2, h3⟩ := hw
    rw [processLoop_cons _ _ _ _ _ _ _ _ _ _ (hctx i)]
    have hrest := fun x hx => hconv x (List.mem_cons_of_mem r hx)
    rcases processRecord_all_succeed db parser acct false i r st
        (hconv r (List.mem_cons_self _ _)).1 (hconv r (List.mem_cons_self _ _)).2 with ⟨hf, _⟩ | ⟨_, hk, hst⟩
    · cases hf
    · obtain ⟨e1, e2, e3⟩ := ih (i + 1) (processRecord db parser acct false i r st) hrest
        (by rw [hst]; exact ⟨int32_idem _, h2, h3⟩)
      rw [e1, e2, e3, hst]
      simp only [List.length_cons]
      refine ⟨?_, trivial, trivial⟩
      rw [int32_add_int32]; push_cast; ring_nf

/-! ### Tallies of a batch in which everything succeeds -/

theorem countersWrapped_init {σ : Type} (n : Nat) (store : σ) :
    CountersWrapped (initState n store).stats := by
  simp [CountersWrapped, initState, int32]

/-- C2: in a batch of fewer than 2^31 records on which cancellation is never observed and
in which every record converts and its save succeeds, with skip-duplicates enabled the
number of saved records is the number of distinct processing keys of the batch and the
number of skipped records is the batch length minus that number; with skip-duplicates
disabled every record is saved and none is skipped. -/
theorem processRecords_all_succeed_tallies {σ : Type} (ctx : Context)
    (dbClient : Option (DBClient σ)) (parser : Parser) (records : List ActualETCRecord)
    (accountID : String) (store : σ)
    (hctx : ∀ i, ctx.ErrAt i = false)
    (hok : ∀ r ∈ records, (∃ simple, parser.ConvertToSimpleRecord r = .ok simple) ∧
      ∀ d simple s, dbClient = some d → parser.ConvertToSimpleRecord r = .ok simple →
        (d.SaveETCData s (dataToSave accountID simple)).2 = none)
    (hlen : records.length < 2 ^ 31) :
    ((processRecords ctx dbClient parser records accountID true store).stats.SavedRecords =
        ((records.map processingKey).dedup.length : Int) ∧
      (processRecords ctx dbClient parser records accountID true store).stats.SkippedRecords =
        (records.length : Int) - ((records.map processingKey).dedup.length : Int)) ∧
    ((processRecords ctx dbClient parser records accountID false store).stats.SavedRecords =
        (records.length : Int) ∧
      (processRecords ctx dbClient parser records accountID false store).stats.SkippedRecords =
        0) := by
  have hfresh : freshKeys ∅ (records.map processingKey) =
      (records.map processingKey).dedup.length := by
    unfold freshKeys
    rw [Finset.sdiff_empty, List.card_toFinset]
  have hle := freshKeys_le ∅ (records.map processingKey)
  rw [List.length_map] at hle
  have hlen' : (records.length : Int) < 2147483648 := by
    have : (2 : Nat) ^ 31 = 2147483648 := by norm_num
    omega
  obtain ⟨e1, e2, _⟩ := processLoop_all_succeed_skip ctx dbClient parser accountID
    records.length hctx records 0 (initState records.length store) ∅ hok
    (by intro k; simp [initState]) (countersWrapped_init _ _)
  obtain ⟨f1, f2, _⟩ := processLoop_all_succeed_noskip ctx dbClient parser accountID
    records.length hctx records 0 (initState records.length store) hok
    (countersWrapped_init _ _)
  unfold processRecords
  rw [e1, e2, f1, f2, hfresh] at *
  simp only [initState, zero_add]
  rw [hfresh] at hle
  refine ⟨⟨?_, ?_⟩, ?_, trivial⟩
  · apply int32_of_range <;> omega
  · apply int32_of_range <;> omega
  · apply int32_of_range <;> omega

/-- Witness of C2: two identical well-formed records give saved 1 and skipped 1 with
skip-duplicates enabled, and saved 2 and skipped 0 with it disabled. -/
theorem processRecords_all_succeed_tallies_witness :
    ((processRecords neverCancelled (some (recordingStore fun _ _ => none)) sampleParser
        [goodRecord, goodRecord] "acc" true []).stats.SavedRecords = 1 ∧
      (processRecords neverCancelled (some (recordingStore fun _ _ => none)) sampleParser
        [goodRecord, goodRecord] "acc" true []).stats.SkippedRecords = 1) ∧
    ((processRecords neverCancelled (some (recordingStore fun _ _ => none)) sampleParser
        [goodRecord, goodRecord] "acc" false []).stats.SavedRecords = 2 ∧
      (processRecords neverCancelled (some (recordingStore fun _ _ => none)) sampleParser
        [goodRecord, goodRecord] "acc" false []).stats.SkippedRecords = 0) := by
  have h := processRecords_all_succeed_tallies neverCancelled
    (some (recordingStore fun _ _ => none)) sampleParser [goodRecord, goodRecord] "acc" []
    (fun _ => rfl)
    (by
      intro r hr
      have hr' : r = goodRecord := by simpa using hr
      subst hr'
      refine ⟨⟨_, rfl⟩, ?_⟩
      intro d simple s hd _
      cases hd
      rfl)
    (by norm_num)
  have hd : ((([goodRecord, goodRecord] : List ActualETCRecord).map processingKey).dedup.length
      : Int) = 1 := by decide
  rw [hd] at h
  exact h

/-! ### The guard in front of the store -/

/-- The batch loop does not consult `ValidateRecord`. -/
theorem processLoop_validateRecord_irrelevant {σ : Type} (ctx : Context)
    (db : Option (DBClient σ)) (parser : Parser) (acct : String) (skip : Bool) (n : Nat)
    (v : ActualETCRecord → Option String) :
    ∀ (l : List ActualETCRecord) (i : Nat) (st : LoopState σ),
      processLoop ctx db { parser with ValidateRecord := v } acct skip n i l st =
        processLoop ctx db parser acct skip n i l st := by
  intro l
  induction l with
  | nil => intro i st; simp [processLoop]
  | cons r rest ih =>
    intro i st
    unfold processLoop
    rw [ih]
    rfl

/-- Every payload a recording store holds after one iteration was there before or is the
payload of the record of the iteration, whose conversion succeeded. -/
theorem processRecord_log (outcome : List DataMap → DataMap → Option String)
    (parser : Parser) (acct : String) (skip : Bool) (i : Nat) (r : ActualETCRecord)
    (st : LoopState (List DataMap)) :
    ∀ p ∈ (processRecord (some (recordingStore outcome)) parser acct skip i r st).store,
      p ∈ st.store ∨
        ∃ simple, parser.ConvertToSimpleRecord r = .ok simple ∧ p = dataToSave acct simple := by
  intro p hp
  rcases processRecord_cases (some (recordingStore outcome)) parser acct skip i r st with
    ⟨_, _, h⟩ | ⟨_, err, _, h⟩ | ⟨_, simple, d, store', err, hc, hd, hsv, h⟩ |
    ⟨_, simple, store', hc, hsv, h⟩
  · rw [h] at hp; exact Or.inl hp
  · rw [h] at hp; exact Or.inl hp
  · rw [h] at hp
    cases hd
    simp only [recordingStore, Prod.mk.injEq] at hsv
    obtain ⟨hs, _⟩ := hsv
    subst hs
    rcases List.mem_append.1 hp with hp | hp
    · exact Or.inl hp
    · exact Or.inr ⟨simple, hc, by simpa using hp⟩
  · rw [h] at hp
    rcases hsv with ⟨hd, _⟩ | ⟨d, hd, hsv⟩
    · cases hd
    · cases hd
      simp only [recordingStore, Prod.mk.injEq] at hsv
      obtain ⟨hs, _⟩ := hsv
      subst hs
      rcases List.mem_append.1 hp with hp | hp
      · exact Or.inl hp
      · exact Or.inr ⟨simple, hc, by simpa using hp⟩

/-- Every payload a recording store holds after the loop was there before or is the
payload of a record of the batch whose conversion succeeded. -/
theorem processLoop_log (ctx : Context) (outcome : List DataMap → DataMap → Option String)
    (parser : Parser) (acct : String) (skip : Bool) (n : Nat) :
    ∀ (l : List ActualETCRecord) (i : Nat) (st : LoopState (List DataMap)),
      ∀ p ∈ (processLoop ctx (some (recordingStore outcome)) parser acct skip n i l st).store,
        p ∈ st.store ∨ ∃ r ∈ l, ∃ simple,
          parser.ConvertToSimpleRecord r = .ok simple ∧ p = dataToSave acct simple := by
  intro l
  induction l with
  | nil => intro i st p hp; rw [processLoop_nil] at hp; exact Or.inl hp
  | cons r rest ih =>
    intro i st p hp
    cases hc : ctx.ErrAt i with
    | true =>
      rw [processLoop_cancel _ _ _ _ _ _ _ _ _ _ hc] at hp
      exact Or.inl hp
    | false =>
      rw [processLoop_cons _ _ _ _ _ _ _ _ _ _ hc] at hp
      rcases ih _ _ p hp with h | ⟨x, hx, simple, h1, h2⟩
      · rcases processRecord_log outcome parser acct skip i r st p h with h | ⟨simple, h1, h2⟩
        · exact Or.inl h
        · exact Or.inr ⟨r, List.mem_cons_self _ _, simple, h1, h2⟩
      · exact Or.inr ⟨x, List.mem_cons_of_mem _ hx, simple, h1, h2⟩

/-- C3, counterexample: a record that the parser's `ValidateRecord` rejects and its
`ConvertToSimpleRecord` accepts is passed to the store and counted as saved; it is not
counted in `ErrorRecords` and contributes no error string. -/
theorem processRecords_saves_record_failing_validation :
    sampleParser.ValidateRecord cardlessRecord = some "card number is required" ∧
    (processRecords neverCancelled (some (recordingStore fun _ _ => none)) sampleParser
        [cardlessRecord] "acc" true []).store =
      [[("account_id", .str "acc"), ("date", .str "2024-01-05"), ("entry_ic", .str "A"),
        ("exit_ic", .str "B"), ("route", .str "R"), ("vehicle_type", .int 1),
        ("amount", .int 1200), ("card_number", .str "")]] ∧
    (processRecords neverCancelled (some (recordingStore fun _ _ => none)) sampleParser
        [cardlessRecord] "acc" true []).stats = ⟨1, 1, 0, 0⟩ ∧
    (processRecords neverCancelled (some (recordingStore fun _ _ => none)) sampleParser
        [cardlessRecord] "acc" true []).errors = [] := by
  decide

/-- C3, amended: `processRecords` does not consult `ValidateRecord` (its result is the
same for every record validator); its guard is `ConvertToSimpleRecord`.  Every payload a
recording store is handed during a batch is the payload of a record of the batch whose
conversion succeeded, so a record whose conversion fails is never passed to
`SaveETCData`; and an iteration that reaches the conversion of such a record adds one to
`ErrorRecords`, appends one error string and leaves everything else, the store included,
as it was. -/
theorem processRecords_conversion_guard {σ : Type} (ctx : Context)
    (dbClient : Option (DBClient σ)) (parser : Parser) (accountID : String)
    (skipDuplicates : Bool) :
    (∀ (v : ActualETCRecord → Option String) (records : List ActualETCRecord) (store : σ),
      processRecords ctx dbClient { parser with ValidateRecord := v } records accountID
          skipDuplicates store =
        processRecords ctx dbClient parser records accountID skipDuplicates store) ∧
    (∀ (outcome : List DataMap → DataMap → Option String) (records : List ActualETCRecord),
      ∀ p ∈ (processRecords ctx (some (recordingStore outcome)) parser records accountID
          skipDuplicates []).store,
        ∃ r ∈ records, ∃ simple,
          parser.ConvertToSimpleRecord r = .ok simple ∧ p = dataToSave accountID simple) ∧
    (∀ (i : Nat) (record : ActualETCRecord) (st : LoopState σ) (err : String),
      ¬ (skipDuplicates = true ∧ st.processedKeys (processingKey record) = true) →
      parser.ConvertToSimpleRecord record = .error err →
      processRecord dbClient parser accountID skipDuplicates i record st =
        { st with
          errors := st.errors ++
            ["Record " ++ fmtD ((i : Int) + 1) ++ ": conversion failed: " ++ err]
          stats := { st.stats with ErrorRecords := int32 (st.stats.ErrorRecords + 1) } }) := by
  refine ⟨?_, ?_, ?_⟩
  · intro v records store
    exact processLoop_validateRecord_irrelevant ctx dbClient parser accountID skipDuplicates
      records.length v records 0 _
  · intro outcome records p hp
    rcases processLoop_log ctx outcome parser accountID skipDuplicates records.length
      records 0 _ p hp with h | h
    · simp [initState] at h
    · exact h
  · intro i record st err hns hc
    rcases processRecord_cases dbClient parser accountID skipDuplicates i record st with
      ⟨h1, h2, _⟩ | ⟨_, err', hc', h⟩ | ⟨_, simple, _, _, _, hc', _⟩ | ⟨_, simple, _, hc', _⟩
    · exact absurd ⟨h1, h2⟩ hns
    · rw [hc] at hc'
      cases hc'
      exact h
    · rw [hc] at hc'; cases hc'
    · rw [hc] at hc'; cases hc'

/-- Witness of the amended C3: the iteration on a record without entry date, which
`sampleParser` fails to convert. -/
theorem processRecords_conversion_guard_witness :
    processRecord (some (recordingStore fun _ _ => none)) sampleParser "acc" true 0
        undatedRecord (initState 1 []) =
      { initState 1 [] with
        errors := ["Record 1: conversion failed: invalid entry date"]
        stats := ⟨1, 0, 0, 1⟩ } :=
  (processRecords_conversion_guard neverCancelled (some (recordingStore fun _ _ => none))
    sampleParser "acc" true).2.2 0 undatedRecord (initState 1 []) "invalid entry date"
    (by decide) rfl

/-! ### Isolation of failures -/

/-- Without cancellation the loop over a concatenation is the loop over the second part
started in the state the first part ends in. -/
theorem processLoop_append {σ : Type} (ctx : Context) (db : Option (DBClient σ))
    (parser : Parser) (acct : String) (skip : Bool) (n : Nat)
    (hctx : ∀ j, ctx.ErrAt j = false) :
    ∀ (xs ys : List ActualETCRecord) (i : Nat) (st : LoopState σ),
      processLoop ctx db parser acct skip n i (xs ++ ys) st =
        processLoop ctx db parser acct skip n (i + xs.length) ys
          (processLoop ctx db parser acct skip n i xs st) := by
  intro xs
  induction xs with
  | nil => intro ys i st; simp [processLoop_nil]
  | cons x xs ih =>
    intro ys i st
    rw [List.cons_append, processLoop_cons _ _ _ _ _ _ _ _ _ _ (hctx i),
      processLoop_cons _ _ _ _ _ _ _ _ _ _ (hctx i), ih]
    simp only [List.length_cons]
    congr 1
    omega

/-- An iteration keeps two states in step and changes their error tallies alike. -/
theorem processRecord_congr {σ : Type} (db : Option (DBClient σ)) (parser : Parser)
    (acct : String) (skip : Bool) (i j : Nat) (r : ActualETCRecord) (s t : LoopState σ)
    (h : SameProgress s t) :
    SameProgress (processRecord db parser acct skip i r s)
        (processRecord db parser acct skip j r t) ∧
      (((processRecord db parser acct skip i r s).stats.ErrorRecords = s.stats.ErrorRecords ∧
        (processRecord db parser acct skip j r t).stats.ErrorRecords = t.stats.ErrorRecords) ∨
       ((processRecord db parser acct skip i r s).stats.ErrorRecords =
          int32 (s.stats.ErrorRecords + 1) ∧
        (processRecord db parser acct skip j r t).stats.ErrorRecords =
          int32 (t.stats.ErrorRecords + 1))) := by
  obtain ⟨hk, hst, hsv, hsk⟩ := h
  unfold processRecord SameProgress
  simp only [hk, hst]
  by_cases hc : (skip && t.processedKeys (processingKey r)) = true
  · simp [hc, hsv, hsk]
  · simp only [hc]
    cases parser.ConvertToSimpleRecord r with
    | error err => simp [hsv, hsk]
    | ok simple =>
      cases db with
      | none => simp [hsv, hsk]
      | some d =>
        cases hs : d.SaveETCData t.store (dataToSave acct simple) with
        | mk store' res =>
          cases res with
          | some err => simp only [hs]; simp [hsv, hsk]
          | none => simp only [hs]; simp [hsv, hsk]

/-- Without cancellation the loop keeps two states in step and adds the same number to
their error tallies. -/
theorem processLoop_congr {σ : Type} (ctx : Context) (db : Option (DBClient σ))
    (parser : Parser) (acct : String) (skip : Bool) (n m : Nat)
    (hctx : ∀ j, ctx.ErrAt j = false) :
    ∀ (l : List ActualETCRecord) (i j : Nat) (s t : LoopState σ), SameProgress s t →
      int32 s.stats.ErrorRecords = s.stats.ErrorRecords →
      int32 t.stats.ErrorRecords = t.stats.ErrorRecords →
      SameProgress (processLoop ctx db parser acct skip n i l s)
          (processLoop ctx db parser acct skip m j l t) ∧
        ∃ c : Nat, c ≤ l.length ∧
          (processLoop ctx db parser acct skip n i l s).stats.ErrorRecords =
            int32 (s.stats.ErrorRecords + c) ∧
          (processLoop ctx db parser acct skip m j l t).stats.ErrorRecords =
            int32 (t.stats.ErrorRecords + c) := by
  intro l
  induction l with
  | nil =>
    intro i j s t h hs ht
    simp only [processLoop_nil]
    exact ⟨h, 0, le_refl _, by simp [hs], by simp [ht]⟩
  | cons r rest ih =>
    intro i j s t h hs ht
    rw [processLoop_cons _ _ _ _ _ _ _ _ _ _ (hctx i),
      processLoop_cons _ _ _ _ _ _ _ _ _ _ (hctx j)]
    obtain ⟨hp, he⟩ := processRecord_congr db parser acct skip i j r s t h
    rcases he with ⟨e1, e2⟩ | ⟨e1, e2⟩
    · obtain ⟨hp', c, hc, f1, f2⟩ := ih (i + 1) (j + 1) _ _ hp (by rw [e1]; exact hs)
        (by rw [e2]; exact ht)
      refine ⟨hp', c, ?_, ?_, ?_⟩
      · simp only [List.length_cons]; omega
      · rw [f1, e1]
      · rw [f2, e2]
    · obtain ⟨hp', c, hc, f1, f2⟩ := ih (i + 1) (j + 1) _ _ hp
        (by rw [e1]; exact int32_idem _) (by rw [e2]; exact int32_idem _)
      refine ⟨hp', c + 1, ?_, ?_, ?_⟩
      · simp only [List.length_cons]; omega
      · rw [f1, e1, int32_add_int32]; push_cast; ring_nf
      · rw [f2, e2, int32_add_int32]; push_cast; ring_nf

/-- The initial states of two runs on the same store are in step. -/
theorem sameProgress_init {σ : Type} (n m : Nat) (store : σ) :
    SameProgress (initState n store) (initState m store) := by
  simp [SameProgress, initState]

/-- The iteration of a record that fails changes only the error tally and the error
list. -/
theorem processRecord_of_fails {σ : Type} (db : Option (DBClient σ)) (parser : Parser)
    (acct : String) (skip : Bool) (i : Nat) (r : ActualETCRecord) (st : LoopState σ)
    (hf : RecordFails db parser acct skip st r) :
    SameProgress (processRecord db parser acct skip i r st) st ∧
      (processRecord db parser acct skip i r st).stats.ErrorRecords =
        int32 (st.stats.ErrorRecords + 1) := by
  obtain ⟨hns, hf⟩ := hf
  rcases processRecord_cases db parser acct skip i r st with
    ⟨h1, h2, _⟩ | ⟨_, err, _, h⟩ | ⟨_, simple, d, store', err, hc, hd, hsv, h⟩ |
    ⟨_, simple, store', hc, hsv, h⟩
  · exact absurd ⟨h1, h2⟩ hns
  · rw [h]; simp [SameProgress]
  · rcases hf with ⟨err', hc'⟩ | ⟨simple', d', err', hc', hd', hsv'⟩
    · rw [hc] at hc'; cases hc'
    · rw [hc] at hc'; cases hc'
      rw [hd] at hd'; cases hd'
      rw [hsv] at hsv'
      cases hsv'
      rw [h]; simp [SameProgress]
  · rcases hf with ⟨err', hc'⟩ | ⟨simple', d', err', hc', hd', hsv'⟩
    · rw [hc] at hc'; cases hc'
    · rw [hc] at hc'; cases hc'
      rcases hsv with ⟨hd, _⟩ | ⟨d, hd, hsv⟩
      · rw [hd] at hd'; cases hd'
      · rw [hd] at hd'; cases hd'
        rw [hsv] at hsv'
        cases hsv'

/-- Being in step is transitive. -/
theorem sameProgress_trans {σ : Type} {s t u : LoopState σ} (h1 : SameProgress s t)
    (h2 : SameProgress t u) : SameProgress s u :=
  ⟨h1.1.trans h2.1, h1.2.1.trans h2.2.1, h1.2.2.1.trans h2.2.2.1, h1.2.2.2.trans h2.2.2.2⟩

/-- Whether a record fails depends only on what two states in step share. -/
theorem recordFails_congr {σ : Type} (db : Option (DBClient σ)) (parser : Parser)
    (acct : String) (skip : Bool) (r : ActualETCRecord) (s t : LoopState σ)
    (h : SameProgress s t) (hf : RecordFails db parser acct skip s r) :
    RecordFails db parser acct skip t r := by
  unfold RecordFails at *
  rw [← h.1, ← h.2.1]
  exact hf

/-- C4, counterexample: with a store whose first call fails and whose later calls succeed,
and skip-duplicates enabled, the first of three equal records fails at the persist step,
the second is saved and the third is skipped: the tallies are 3/1/1/1.  Without the
failing record the first of the two remaining records fails in its place and the second
is saved: 2/1/0/1.  The failing record changed `SkippedRecords`, and `ErrorRecords` is not
larger by one. -/
theorem processRecords_save_failure_affects_later_records :
    (processRecords neverCancelled (some warmingStore) sampleParser
        ([] ++ [goodRecord] ++ [goodRecord, goodRecord]) "acc" true []).stats = ⟨3, 1, 1, 1⟩ ∧
    (processRecords neverCancelled (some warmingStore) sampleParser
        ([] ++ [goodRecord] ++ [goodRecord, goodRecord]) "acc" true []).errors =
      ["Record 1: save failed: unavailable"] ∧
    (processRecords neverCancelled (some warmingStore) sampleParser
        ([] ++ [goodRecord, goodRecord]) "acc" true []).stats = ⟨2, 1, 0, 1⟩ ∧
    (processRecords neverCancelled (some warmingStore) sampleParser
        ([] ++ [goodRecord, goodRecord]) "acc" true []).errors =
      ["Record 1: save failed: unavailable"] := by
  decide

/-- C4, amended: on a context on which cancellation is never observed, (1) for every
batch of fewer than 2^31 records the error list has as many entries as `ErrorRecords`
counts, the three tallies add up to the batch length (the batch is processed to its end),
and the error list is, in record order, one line per failed record, naming the 1-based
position of the record and quoting the failure of its conversion or of its save; (2) a
record `r` that is not skipped and whose conversion fails, or whose save fails with the
store left as it was, does not affect the records after it: the batch `xs ++ [r] ++ ys`
yields the same `SavedRecords` and `SkippedRecords` as `xs ++ ys`, and `ErrorRecords`
larger by one. -/
theorem processRecords_failures_isolated {σ : Type} (ctx : Context)
    (dbClient : Option (DBClient σ)) (parser : Parser) (accountID : String)
    (skipDuplicates : Bool) (store : σ) (hctx : ∀ i, ctx.ErrAt i = false) :
    (∀ records : List ActualETCRecord, records.length < 2 ^ 31 →
      ((processRecords ctx dbClient parser records accountID skipDuplicates store).errors.length
          : Int) =
        (processRecords ctx dbClient parser records accountID skipDuplicates
          store).stats.ErrorRecords ∧
      (processRecords ctx dbClient parser records accountID skipDuplicates
          store).stats.SavedRecords +
        (processRecords ctx dbClient parser records accountID skipDuplicates
          store).stats.SkippedRecords +
        (processRecords ctx dbClient parser records accountID skipDuplicates
          store).stats.ErrorRecords = (records.length : Int) ∧
      ∃ ps : List (Nat × String),
        (processRecords ctx dbClient parser records accountID skipDuplicates store).errors =
          ps.map (fun p => recordError ((p.1 : Int) + 1) p.2) ∧
        (ps.map Prod.fst).Pairwise (· < ·) ∧
        ∀ p ∈ ps, ∃ r, records[p.1]? = some r ∧ FailureDetail parser r p.2) ∧
    (∀ (xs : List ActualETCRecord) (r : ActualETCRecord) (ys : List ActualETCRecord),
      (xs ++ [r] ++ ys).length < 2 ^ 31 →
      RecordFails dbClient parser accountID skipDuplicates
        (processRecords ctx dbClient parser xs accountID skipDuplicates store) r →
      (processRecords ctx dbClient parser (xs ++ [r] ++ ys) accountID skipDuplicates
          store).stats.SavedRecords =
        (processRecords ctx dbClient parser (xs ++ ys) accountID skipDuplicates
          store).stats.SavedRecords ∧
      (processRecords ctx dbClient parser (xs ++ [r] ++ ys) accountID skipDuplicates
          store).stats.SkippedRecords =
        (processRecords ctx dbClient parser (xs ++ ys) accountID skipDuplicates
          store).stats.SkippedRecords ∧
      (processRecords ctx dbClient parser (xs ++ [r] ++ ys) accountID skipDuplicates
          store).stats.ErrorRecords =
        (processRecords ctx dbClient parser (xs ++ ys) accountID skipDuplicates
          store).stats.ErrorRecords + 1) := by
  have h31 : (2 : Nat) ^ 31 = 2147483648 := by norm_num
  constructor
  · intro records hlen
    obtain ⟨a, b, ps, hsum, hs, hk, he, hl, hpw, hb, _⟩ :=
      processLoop_counts ctx dbClient parser accountID skipDuplicates records.length hctx
        records 0 (initState records.length store) (countersWrapped_init _ _)
    unfold processRecords
    rw [hs, hk, he, hl]
    simp only [initState, zero_add, List.nil_append, List.length_map]
    rw [int32_of_range a (by omega) (by omega), int32_of_range b (by omega) (by omega),
      int32_of_range ps.length (by omega) (by omega)]
    refine ⟨rfl, by omega, ps, rfl, hpw, ?_⟩
    intro p hp
    obtain ⟨_, r, hr, hd⟩ := hb p hp
    exact ⟨r, by simpa using hr, hd⟩
  · intro xs r ys hlen hfail
    simp only [List.length_append, List.length_cons, List.length_nil] at hlen
    unfold processRecords at hfail ⊢
    rw [List.append_assoc, processLoop_append ctx _ _ _ _ _ hctx xs ([r] ++ ys),
      processLoop_append ctx _ _ _ _ _ hctx xs ys, List.singleton_append,
      processLoop_cons _ _ _ _ _ _ _ _ _ _ (hctx _)]
    generalize (xs ++ (r :: ys)).length = n1
    generalize (xs ++ ys).length = n2
    simp only [zero_add]
    obtain ⟨hpx, cx, hcx, ex1, ex2⟩ := processLoop_congr ctx dbClient parser accountID
      skipDuplicates n1 n2 hctx xs 0 0 (initState n1 store) (initState n2 store)
      (sameProgress_init _ _ _) (by simp [initState, int32]) (by simp [initState, int32])
    obtain ⟨hpz, _⟩ := processLoop_congr ctx dbClient parser accountID
      skipDuplicates xs.length n1 hctx xs 0 0 (initState xs.length store)
      (initState n1 store)
      (sameProgress_init _ _ _) (by simp [initState, int32]) (by simp [initState, int32])
    obtain ⟨hpb, eb⟩ := processRecord_of_fails dbClient parser accountID skipDuplicates
      xs.length r _ (recordFails_congr _ _ _ _ _ _ _ hpz hfail)
    obtain ⟨hpy, cy, hcy, ey1, ey2⟩ := processLoop_congr ctx dbClient parser accountID
      skipDuplicates n1 n2 hctx ys (xs.length + 1) xs.length _ _
      (sameProgress_trans hpb hpx) (by rw [eb]; exact int32_idem _)
      (by rw [ex2]; exact int32_idem _)
    refine ⟨hpy.2.2.1, hpy.2.2.2, ?_⟩
    rw [ey1, ey2, eb, ex1, ex2]
    simp only [initState, zero_add, int32_add_int32]
    rw [int32_of_range (cx + 1 + cy) (by omega) (by omega),
      int32_of_range (cx + cy) (by omega) (by omega)]
    ring

/-- Witness of C4: between two well-formed records, a record whose conversion fails, and
a record whose save fails, the store keeping nothing of it. -/
theorem processRecords_failures_isolated_witness :
    ((processRecords neverCancelled (some (recordingStore fun _ _ => none)) sampleParser
        ([goodRecord] ++ [undatedRecord] ++ [cardlessRecord]) "acc" true []).stats.SavedRecords =
      (processRecords neverCancelled (some (recordingStore fun _ _ => none)) sampleParser
        ([goodRecord] ++ [cardlessRecord]) "acc" true []).stats.SavedRecords ∧
    (processRecords neverCancelled (some (recordingStore fun _ _ => none)) sampleParser
        ([goodRecord] ++ [undatedRecord] ++ [cardlessRecord]) "acc" true []).stats.SkippedRecords =
      (processRecords neverCancelled (some (recordingStore fun _ _ => none)) sampleParser
        ([goodRecord] ++ [cardlessRecord]) "acc" true []).stats.SkippedRecords ∧
    (processRecords neverCancelled (some (recordingStore fun _ _ => none)) sampleParser
        ([goodRecord] ++ [undatedRecord] ++ [cardlessRecord]) "acc" true []).stats.ErrorRecords =
      (processRecords neverCancelled (some (recordingStore fun _ _ => none)) sampleParser
        ([goodRecord] ++ [cardlessRecord]) "acc" true []).stats.ErrorRecords + 1) ∧
    ((processRecords neverCancelled (some choosyStore) sampleParser
        ([goodRecord] ++ [cardlessRecord] ++ [goodRecord]) "acc" true []).stats.SavedRecords =
      (processRecords neverCancelled (some choosyStore) sampleParser
        ([goodRecord] ++ [goodRecord]) "acc" true []).stats.SavedRecords ∧
    (processRecords neverCancelled (some choosyStore) sampleParser
        ([goodRecord] ++ [cardlessRecord] ++ [goodRecord]) "acc" true []).stats.SkippedRecords =
      (processRecords neverCancelled (some choosyStore) sampleParser
        ([goodRecord] ++ [goodRecord]) "acc" true []).stats.SkippedRecords ∧
    (processRecords neverCancelled (some choosyStore) sampleParser
        ([goodRecord] ++ [cardlessRecord] ++ [goodRecord]) "acc" true []).stats.ErrorRecords =
      (processRecords neverCancelled (some choosyStore) sampleParser
        ([goodRecord] ++ [goodRecord]) "acc" true []).stats.ErrorRecords + 1) :=
  ⟨(processRecords_failures_isolated neverCancelled (some (recordingStore fun _ _ => none))
      sampleParser "acc" true [] (fun _ => rfl)).2 [goodRecord] undatedRecord [cardlessRecord]
      (by norm_num) ⟨by decide, Or.inl ⟨_, rfl⟩⟩,
   (processRecords_failures_isolated neverCancelled (some choosyStore)
      sampleParser "acc" true [] (fun _ => rfl)).2 [goodRecord] cardlessRecord [goodRecord]
      (by norm_num)
      ⟨by decide, Or.inr ⟨_, choosyStore, "card number missing", rfl, rfl, rfl⟩⟩⟩

/-- C5 (defect of the code, the one of C1): in a batch of three records whose first
record fails conversion and whose second record is saved, cancellation observed at the
start of iteration 2 stops the loop, leaves the third record unprocessed and appends one
summary line, but returns `ErrorRecords = 1`, the number of unprocessed records alone:
the failure of the first record, still present in the error list, is no longer
counted. -/
theorem processRecords_cancel_drops_earlier_failures :
    (processRecords (cancelledFrom 2) (some (recordingStore fun _ _ => none)) sampleParser
        [undatedRecord, goodRecord, cardlessRecord] "acc" true []).stats = ⟨3, 1, 0, 1⟩ ∧
    (processRecords (cancelledFrom 2) (some (recordingStore fun _ _ => none)) sampleParser
        [undatedRecord, goodRecord, cardlessRecord] "acc" true []).errors =
      ["Record 1: conversion failed: invalid entry date",
       "Processing cancelled at record 2"] ∧
    (processRecords (cancelledFrom 2) (some (recordingStore fun _ _ => none)) sampleParser
        [undatedRecord, goodRecord, cardlessRecord] "acc" true []).store.length = 1 := by
  decide

/-! ### Processing keys -/

/-- Value of the character of a digit. -/
theorem digitVal_digitChar (k : Nat) (h : k < 10) : digitVal (Nat.digitChar k) = k := by
  interval_cases k <;> rfl

/-- The character of a digit is a digit. -/
theorem isDigit_digitChar (k : Nat) (h : k < 10) : isDigit (Nat.digitChar k) = true := by
  interval_cases k <;> rfl

/-- Reading back the digits produced by `Nat.toDigitsCore`. -/
theorem toDigitsCore_foldl (fuel : Nat) :
    ∀ (n : Nat) (ds : List Char), n < fuel →
      (Nat.toDigitsCore 10 fuel n ds).foldl (fun acc c => 10 * acc + digitVal c) 0 =
        ds.foldl (fun acc c => 10 * acc + digitVal c) n := by
  induction fuel with
  | zero => intro n ds h; omega
  | succ fuel ih =>
    intro n ds h
    simp only [Nat.toDigitsCore]
    split
    · rename_i h0
      simp only [List.foldl_cons, digitVal_digitChar (n % 10) (Nat.mod_lt _ (by norm_num))]
      congr 1
      omega
    · rename_i h0
      rw [ih (n / 10) _ (by omega)]
      simp only [List.foldl_cons, digitVal_digitChar (n % 10) (Nat.mod_lt _ (by norm_num))]
      congr 1
      omega

/-- Reading back the decimal digits of a number gives the number. -/
theorem decimalValue_toDigits (n : Nat) : decimalValue (Nat.toDigits 10 n) = n := by
  unfold decimalValue Nat.toDigits
  rw [toDigitsCore_foldl (n + 1) n [] (by omega)]
  rfl

/-- The characters produced by `Nat.toDigitsCore` are digits. -/
theorem toDigitsCore_digits (fuel : Nat) :
    ∀ (n : Nat) (ds : List Char), ∀ c ∈ Nat.toDigitsCore 10 fuel n ds,
      isDigit c = true ∨ c ∈ ds := by
  induction fuel with
  | zero => intro n ds c hc; simp only [Nat.toDigitsCore] at hc; exact Or.inr hc
  | succ fuel ih =>
    intro n ds c hc
    simp only [Nat.toDigitsCore] at hc
    split at hc
    · rcases List.mem_cons.1 hc with h | h
      · left; rw [h]; exact isDigit_digitChar _ (Nat.mod_lt _ (by norm_num))
      · exact Or.inr h
    · rcases ih _ _ c hc with h | h
      · exact Or.inl h
      · rcases List.mem_cons.1 h with h | h
        · left; rw [h]; exact isDigit_digitChar _ (Nat.mod_lt _ (by norm_num))
        · exact Or.inr h

/-- The decimal rendering of a natural number consists of digits. -/
theorem toDigits_digits (n : Nat) : ∀ c ∈ Nat.toDigits 10 n, isDigit c = true := by
  intro c hc
  rcases toDigitsCore_digits (n + 1) n [] c hc with h | h
  · exact h
  · cases h

/-- The `%d` rendering of a non-negative integer. -/
theorem fmtD_ofNat (m : Nat) : (fmtD (Int.ofNat m)).data = Nat.toDigits 10 m := rfl

/-- The `%d` rendering of a negative integer. -/
theorem fmtD_negSucc (m : Nat) :
    (fmtD (Int.negSucc m)).data = '-' :: Nat.toDigits 10 (m + 1) := rfl

/-- The `%d` rendering holds no underscore. -/
theorem fmtD_no_underscore (n : Int) : '_' ∉ (fmtD n).data := by
  intro h
  cases n with
  | ofNat m =>
    rw [fmtD_ofNat] at h
    have := toDigits_digits m _ h
    revert this; decide
  | negSucc m =>
    rw [fmtD_negSucc] at h
    rcases List.mem_cons.1 h with h | h
    · revert h; decide
    · have := toDigits_digits _ _ h
      revert this; decide

/-- The `%d` rendering determines the integer. -/
theorem fmtD_injective (a b : Int) (h : fmtD a = fmtD b) : a = b := by
  have hd : (fmtD a).data = (fmtD b).data := by rw [h]
  have hne : ∀ m k : Nat, Nat.toDigits 10 m ≠ '-' :: Nat.toDigits 10 k := by
    intro m k he
    have hm : '-' ∈ Nat.toDigits 10 m := by rw [he]; exact List.mem_cons_self _ _
    have := toDigits_digits m _ hm
    revert this; decide
  cases a with
  | ofNat m =>
    cases b with
    | ofNat k =>
      rw [fmtD_ofNat, fmtD_ofNat] at hd
      have := congrArg decimalValue hd
      rw [decimalValue_toDigits, decimalValue_toDigits] at this
      rw [this]
    | negSucc k =>
      rw [fmtD_ofNat, fmtD_negSucc] at hd
      exact absurd hd (hne _ _)
  | negSucc m =>
    cases b with
    | ofNat k =>
      rw [fmtD_ofNat, fmtD_negSucc] at hd
      exact absurd hd.symm (hne _ _)
    | negSucc k =>
      rw [fmtD_negSucc, fmtD_negSucc] at hd
      have := congrArg decimalValue (List.cons.inj hd).2
      rw [decimalValue_toDigits, decimalValue_toDigits] at this
      have : m = k := by omega
      rw [this]

/-- Two texts cut at their first underscore. -/
theorem split_at_underscore :
    ∀ (s t x y : List Char), '_' ∉ s → '_' ∉ t → s ++ '_' :: x = t ++ '_' :: y →
      s = t ∧ x = y := by
  intro s
  induction s with
  | nil =>
    intro t x y _ ht h
    cases t with
    | nil => simp at h; exact ⟨rfl, h⟩
    | cons c t =>
      simp only [List.nil_append, List.cons_append, List.cons.injEq] at h
      exact absurd (h.1 ▸ List.mem_cons_self _ _) ht
  | cons a s ih =>
    intro t x y hs ht h
    cases t with
    | nil =>
      simp only [List.nil_append, List.cons_append, List.cons.injEq] at h
      exact absurd (h.1 ▸ List.mem_cons_self _ _) hs
    | cons c t =>
      simp only [List.cons_append, List.cons.injEq] at h
      obtain ⟨e1, e2⟩ := ih t x y (fun hm => hs (List.mem_cons_of_mem _ hm))
        (fun hm => ht (List.mem_cons_of_mem _ hm)) h.2
      exact ⟨by rw [h.1, e1], e2⟩

/-- The characters of a processing key. -/
theorem processingKey_data (r : ActualETCRecord) :
    (processingKey r).data =
      r.EntryDate.data ++ '_' :: (r.EntryTime.data ++ '_' :: (r.ExitDate.data ++ '_' ::
        (r.ExitTime.data ++ '_' :: ((fmtD r.ETCAmount).data ++ '_' :: r.CardNumber.data)))) := by
  unfold processingKey
  simp [String.data_append, List.append_assoc]

/-- Records without underscore in their dates and times that have the same processing
key are equal. -/
theorem processingKey_injective (a b : ActualETCRecord) (ha : DateTimeUnderscoreFree a)
    (hb : DateTimeUnderscoreFree b) (h : processingKey a = processingKey b) : a = b := by
  have hd : (processingKey a).data = (processingKey b).data := by rw [h]
  rw [processingKey_data, processingKey_data] at hd
  obtain ⟨a1, a2, a3, a4⟩ := ha
  obtain ⟨b1, b2, b3, b4⟩ := hb
  obtain ⟨e1, hd⟩ := split_at_underscore _ _ _ _ a1 b1 hd
  obtain ⟨e2, hd⟩ := split_at_underscore _ _ _ _ a2 b2 hd
  obtain ⟨e3, hd⟩ := split_at_underscore _ _ _ _ a3 b3 hd
  obtain ⟨e4, hd⟩ := split_at_underscore _ _ _ _ a4 b4 hd
  obtain ⟨e5, e6⟩ := split_at_underscore _ _ _ _ (fmtD_no_underscore _)
    (fmtD_no_underscore _) hd
  cases a; cases b
  simp only [ActualETCRecord.mk.injEq]
  exact ⟨String.ext e1, String.ext e2, String.ext e3, String.ext e4,
    fmtD_injective _ _ (String.ext e5), String.ext e6⟩

/-- A key marked after an iteration was marked before or is the key of its record. -/
theorem processRecord_keys {σ : Type} (db : Option (DBClient σ)) (parser : Parser)
    (acct : String) (skip : Bool) (i : Nat) (r : ActualETCRecord) (st : LoopState σ)
    (k : String) (h : (processRecord db parser acct skip i r st).processedKeys k = true) :
    st.processedKeys k = true ∨ processingKey r = k := by
  rcases processRecord_cases db parser acct skip i r st with
    ⟨_, _, e⟩ | ⟨_, err, _, e⟩ | ⟨_, simple, d, store', err, _, _, _, e⟩ |
    ⟨_, simple, store', _, _, e⟩
  · rw [e] at h; exact Or.inl h
  · rw [e] at h; exact Or.inl h
  · rw [e] at h; exact Or.inl h
  · rw [e] at h
    simp only [markProcessed] at h
    by_cases hk : k = processingKey r
    · exact Or.inr hk.symm
    · simp only [hk, if_false] at h
      exact Or.inl h

/-- A key marked after the loop was marked before or is the key of a record of the
loop. -/
theorem processLoop_keys {σ : Type} (ctx : Context) (db : Option (DBClient σ))
    (parser : Parser) (acct : String) (skip : Bool) (n : Nat) (k : String) :
    ∀ (l : List ActualETCRecord) (i : Nat) (st : LoopState σ),
      (processLoop ctx db parser acct skip n i l st).processedKeys k = true →
      st.processedKeys k = true ∨ ∃ x ∈ l, processingKey x = k := by
  intro l
  induction l with
  | nil => intro i st h; rw [processLoop_nil] at h; exact Or.inl h
  | cons r rest ih =>
    intro i st h
    cases hc : ctx.ErrAt i with
    | true =>
      rw [processLoop_cancel _ _ _ _ _ _ _ _ _ _ hc] at h
      exact Or.inl h
    | false =>
      rw [processLoop_cons _ _ _ _ _ _ _ _ _ _ hc] at h
      rcases ih _ _ h with h | ⟨x, hx, hk⟩
      · rcases processRecord_keys db parser acct skip i r st k h with h | h
        · exact Or.inl h
        · exact Or.inr ⟨r, List.mem_cons_self _ _, h⟩
      · exact Or.inr ⟨x, List.mem_cons_of_mem _ hx, hk⟩

/-- C6, counterexample: two records that differ in entry date and entry time get the
same processing key, from `processRecords` and from `CreateDuplicateKey` alike, because an
underscore inside a field reads like the separator; in a batch with skip-duplicates
enabled the second of them is skipped although no earlier record agrees with it on the
six fields. -/
theorem processingKey_collision :
    processingKey shiftedRecordA = processingKey shiftedRecordB ∧
    CreateDuplicateKey "a_b" "c" "d" "e" 1 "f" = CreateDuplicateKey "a" "b_c" "d" "e" 1 "f" ∧
    shiftedRecordA.EntryDate ≠ shiftedRecordB.EntryDate ∧
    shiftedRecordA.EntryTime ≠ shiftedRecordB.EntryTime ∧
    (processRecords neverCancelled (some (recordingStore fun _ _ => none)) sampleParser
        [shiftedRecordA, shiftedRecordB] "acc" true []).stats = ⟨2, 1, 1, 0⟩ := by
  decide

/-- C6, amended: records that agree on the six fields (entry date, entry time, exit
date, exit time, amount, card number) have the same processing key; for records whose
two dates and two times hold no underscore the processing keys are equal if and only if
the records agree on all six fields; `CreateDuplicateKey` builds the same key; and the
key of a record is marked when its iteration starts (the condition under which it is
skipped when skip-duplicates is enabled) only if an earlier record of the batch has the
same processing key, hence, for records without underscore in dates and times, only if
an earlier record agrees with it on all six fields. -/
theorem processingKey_identifies_fields :
    (∀ a b : ActualETCRecord,
      (a.EntryDate = b.EntryDate ∧ a.EntryTime = b.EntryTime ∧ a.ExitDate = b.ExitDate ∧
        a.ExitTime = b.ExitTime ∧ a.ETCAmount = b.ETCAmount ∧ a.CardNumber = b.CardNumber) →
      processingKey a = processingKey b) ∧
    (∀ a b : ActualETCRecord, DateTimeUnderscoreFree a → DateTimeUnderscoreFree b →
      (processingKey a = processingKey b ↔
        (a.EntryDate = b.EntryDate ∧ a.EntryTime = b.EntryTime ∧ a.ExitDate = b.ExitDate ∧
          a.ExitTime = b.ExitTime ∧ a.ETCAmount = b.ETCAmount ∧
          a.CardNumber = b.CardNumber))) ∧
    (∀ r : ActualETCRecord,
      CreateDuplicateKey r.EntryDate r.EntryTime r.ExitDate r.ExitTime r.ETCAmount
        r.CardNumber = processingKey r) ∧
    (∀ (σ : Type) (ctx : Context) (dbClient : Option (DBClient σ)) (parser : Parser)
      (accountID : String) (store : σ) (n : Nat) (xs : List ActualETCRecord)
      (r : ActualETCRecord),
      (processLoop ctx dbClient parser accountID true n 0 xs
          (initState n store)).processedKeys (processingKey r) = true →
      (∃ x ∈ xs, processingKey x = processingKey r) ∧
      (DateTimeUnderscoreFree r → (∀ x ∈ xs, DateTimeUnderscoreFree x) →
        ∃ x ∈ xs, x.EntryDate = r.EntryDate ∧ x.EntryTime = r.EntryTime ∧
          x.ExitDate = r.ExitDate ∧ x.ExitTime = r.ExitTime ∧ x.ETCAmount = r.ETCAmount ∧
          x.CardNumber = r.CardNumber)) := by
  have hfields : ∀ a b : ActualETCRecord,
      (a.EntryDate = b.EntryDate ∧ a.EntryTime = b.EntryTime ∧ a.ExitDate = b.ExitDate ∧
        a.ExitTime = b.ExitTime ∧ a.ETCAmount = b.ETCAmount ∧ a.CardNumber = b.CardNumber) →
      a = b := by
    intro a b h
    cases a; cases b
    simp only [ActualETCRecord.mk.injEq]
    exact h
  refine ⟨?_, ?_, ?_, ?_⟩
  · intro a b h
    rw [hfields a b h]
  · intro a b ha hb
    constructor
    · intro h
      rw [processingKey_injective a b ha hb h]
      exact ⟨rfl, rfl, rfl, rfl, rfl, rfl⟩
    · intro h
      rw [hfields a b h]
  · intro r
    rfl
  · intro σ ctx dbClient parser accountID store n xs r h
    rcases processLoop_keys ctx dbClient parser accountID true n _ xs 0 _ h with h | h
    · simp [initState] at h
    · refine ⟨h, ?_⟩
      intro hr hxs
      obtain ⟨x, hx, hk⟩ := h
      have := processingKey_injective x r (hxs x hx) hr hk
      exact ⟨x, hx, by rw [this]; exact ⟨rfl, rfl, rfl, rfl, rfl, rfl⟩⟩

/-- Witness of the amended C6, on two records that differ in the card number only. -/
theorem processingKey_identifies_fields_witness :
    processingKey goodRecord = processingKey cardlessRecord ↔
      (goodRecord.EntryDate = cardlessRecord.EntryDate ∧
        goodRecord.EntryTime = cardlessRecord.EntryTime ∧
        goodRecord.ExitDate = cardlessRecord.ExitDate ∧
        goodRecord.ExitTime = cardlessRecord.ExitTime ∧
        goodRecord.ETCAmount = cardlessRecord.ETCAmount ∧
        goodRecord.CardNumber = cardlessRecord.CardNumber) :=
  processingKey_identifies_fields.2.1 goodRecord cardlessRecord
    (by unfold DateTimeUnderscoreFree; decide) (by unfold DateTimeUnderscoreFree; decide)

/-! ### Validate-only mode -/

/-- The loop of `ValidateCSVData` over no records. -/
theorem validateLoop_nil (parser : Parser) (i : Nat) (st : ValidateState) :
    validateLoop parser i [] st = st := by
  simp [validateLoop]

/-- The validation errors the loop of `ValidateCSVData` appends. -/
theorem validateLoop_errors (parser : Parser) :
    ∀ (l : List ActualETCRecord) (i : Nat) (st : ValidateState),
      (validateLoop parser i l st).validationErrors =
        st.validationErrors ++ (l.enumFrom i).filterMap (lineError parser) := by
  intro l
  induction l with
  | nil => intro i st; simp [validateLoop]
  | cons r rest ih =>
    intro i st
    simp only [validateLoop, List.enumFrom_cons]
    cases hv : parser.ValidateRecord r with
    | none =>
      simp only [ih]
      rw [List.filterMap_cons_none (by simp [lineError, hv])]
      split <;> rfl
    | some err =>
      simp only [ih]
      have hl : lineError parser (i, r) = some
          { LineNumber := int32 ((i : Int) + 2), Field := "", Message := err,
            RecordData := fmtV r } := by
        simp [lineError, hv]
      rw [List.filterMap_cons_some hl]
      cases st.duplicateMap (validationKey r) <;> simp

/-- The duplicate count the loop of `ValidateCSVData` arrives at. -/
theorem validateLoop_count (parser : Parser) :
    ∀ (l : List ActualETCRecord) (i : Nat) (st : ValidateState) (seen : Finset String),
      (∀ k, (st.duplicateMap k).isSome = true ↔ k ∈ seen) →
      int32 st.duplicateCount = st.duplicateCount →
      (validateLoop parser i l st).duplicateCount =
        int32 (st.duplicateCount +
          ((l.length : Int) - freshKeys seen (l.map validationKey))) := by
  intro l
  induction l with
  | nil => intro i st seen _ hw; simp [validateLoop, freshKeys, hw]
  | cons r rest ih =>
    intro i st seen hseen hw
    simp only [validateLoop]
    cases hm : st.duplicateMap (validationKey r) with
    | some c =>
      have hmem : validationKey r ∈ seen := (hseen _).1 (by simp [hm])
      have key : ∀ st' : ValidateState,
          st'.duplicateMap = (fun k => if k = validationKey r then some (c + 1)
            else st.duplicateMap k) →
          st'.duplicateCount = int32 (st.duplicateCount + 1) →
          (validateLoop parser (i + 1) rest st').duplicateCount =
            int32 (st.duplicateCount + (((r :: rest).length : Int) -
              freshKeys seen ((r :: rest).map validationKey))) := by
        intro st' h1 h2
        rw [ih (i + 1) st' seen
          (by
            intro k
            rw [h1]
            by_cases hk : k = validationKey r
            · simp [hk, hmem]
            · simp [hk, hseen k])
          (by rw [h2]; exact int32_idem _)]
        rw [h2, int32_add_int32, List.map_cons, freshKeys_cons_mem seen _ _ hmem]
        congr 1
        simp only [List.length_cons]; push_cast; ring
      cases parser.ValidateRecord r with
      | none => exact key _ rfl rfl
      | some err => exact key _ rfl rfl
    | none =>
      have hnot : validationKey r ∉ seen := by
        intro h
        have := (hseen _).2 h
        rw [hm] at this
        cases this
      have key : ∀ st' : ValidateState,
          st'.duplicateMap = (fun k => if k = validationKey r then some 1
            else st.duplicateMap k) →
          st'.duplicateCount = st.duplicateCount →
          (validateLoop parser (i + 1) rest st').duplicateCount =
            int32 (st.duplicateCount + (((r :: rest).length : Int) -
              freshKeys seen ((r :: rest).map validationKey))) := by
        intro st' h1 h2
        rw [ih (i + 1) st' (insert (validationKey r) seen)
          (by
            intro k
            rw [h1]
            by_cases hk : k = validationKey r
            · simp [hk]
            · simp [hk, hseen k])
          (by rw [h2]; exact hw)]
        rw [h2, List.map_cons, freshKeys_cons_not_mem seen _ _ hnot]
        congr 1
        simp only [List.length_cons]; push_cast; ring
      cases parser.ValidateRecord r with
      | none => exact key _ rfl rfl
      | some err => exact key _ rfl rfl

/-- Repeated entries and distinct entries make up the list. -/
theorem repeatsInReverse_eq {α : Type} [DecidableEq α] (l : List α) :
    repeatsInReverse l + l.dedup.length = l.length := by
  induction l with
  | nil => rfl
  | cons k rest ih =>
    by_cases h : k ∈ rest
    · simp only [repeatsInReverse, h, if_true, List.dedup_cons_of_mem h, List.length_cons]
      omega
    · simp only [repeatsInReverse, h, if_false, List.dedup_cons_of_not_mem h,
        List.length_cons]
      omega

/-- Entries equal to an earlier entry and distinct entries make up the list. -/
theorem earlierDuplicates_eq {α : Type} [DecidableEq α] (ks : List α) :
    earlierDuplicates ks + ks.dedup.length = ks.length := by
  unfold earlierDuplicates
  have h := repeatsInReverse_eq ks.reverse
  rw [List.length_reverse, ← List.card_toFinset, List.toFinset_reverse,
    List.card_toFinset] at h
  exact h

/-- The response of `ValidateCSVData` to a request that passes validation and parses. -/
theorem ValidateCSVData_parsed {σ : Type} (s : DataProcessorService σ)
    (r : ValidateCSVDataRequest) (records : List ActualETCRecord)
    (hreq : ValidateValidateCSVDataRequest (.validate (some r)) s.validator = none)
    (hparse : s.parser.Parse r.CsvData = .ok records) :
    ValidateCSVData s (some r) = .response
      { IsValid := decide ((validateLoop s.parser 0 records
          { duplicateMap := fun _ => none, duplicateCount := 0,
            validationErrors := [] }).validationErrors.length = 0)
        Errors := (validateLoop s.parser 0 records
          { duplicateMap := fun _ => none, duplicateCount := 0,
            validationErrors := [] }).validationErrors
        DuplicateCount := (validateLoop s.parser 0 records
          { duplicateMap := fun _ => none, duplicateCount := 0,
            validationErrors := [] }).duplicateCount
        TotalRecords := int32 records.length } := by
  unfold ValidateCSVData
  rw [hreq]
  simp only [hparse]

/-- The validation key joins the five fields of the record. -/
theorem validationKey_eq_joinFields (r : ActualETCRecord) :
    validationKey r = joinFields (validationFields r) := rfl

/-- The characters of a text that joins five fields. -/
theorem joinFields_data (f : String × String × String × String × Int) :
    (joinFields f).data =
      f.1.data ++ '_' :: (f.2.1.data ++ '_' :: (f.2.2.1.data ++ '_' ::
        (f.2.2.2.1.data ++ '_' :: (fmtD f.2.2.2.2).data))) := by
  unfold joinFields
  simp [String.data_append, List.append_assoc]

/-- Records without underscore in their dates and times that have the same validation
key agree on the five fields. -/
theorem validationKey_injective (a b : ActualETCRecord) (ha : DateTimeUnderscoreFree a)
    (hb : DateTimeUnderscoreFree b) (h : validationKey a = validationKey b) :
    validationFields a = validationFields b := by
  have hd : (validationKey a).data = (validationKey b).data := by rw [h]
  rw [validationKey_eq_joinFields, validationKey_eq_joinFields, joinFields_data,
    joinFields_data] at hd
  obtain ⟨a1, a2, a3, a4⟩ := ha
  obtain ⟨b1, b2, b3, b4⟩ := hb
  simp only [validationFields] at hd ⊢
  obtain ⟨e1, hd⟩ := split_at_underscore _ _ _ _ a1 b1 hd
  obtain ⟨e2, hd⟩ := split_at_underscore _ _ _ _ a2 b2 hd
  obtain ⟨e3, hd⟩ := split_at_underscore _ _ _ _ a3 b3 hd
  obtain ⟨e4, hd⟩ := split_at_underscore _ _ _ _ a4 b4 hd
  simp only [Prod.mk.injEq]
  exact ⟨String.ext e1, String.ext e2, String.ext e3, String.ext e4,
    fmtD_injective _ _ (String.ext hd)⟩

/-- A function that is injective on the entries of a list keeps the number of distinct
entries. -/
theorem dedup_length_map {α β : Type} [DecidableEq α] [DecidableEq β] (f : α → β)
    (l : List α) (h : ∀ a ∈ l, ∀ b ∈ l, f a = f b → a = b) :
    (l.map f).dedup.length = l.dedup.length := by
  have e : (l.map f).toFinset = l.toFinset.image f := by
    ext x
    simp
  rw [← List.card_toFinset, ← List.card_toFinset, e]
  apply Finset.card_image_of_injOn
  intro a ha b hb hab
  exact h a (by simpa using ha) b (by simpa using hb) hab

/-- For records without underscore in their dates and times, there are as many distinct
validation keys as distinct combinations of the five fields. -/
theorem validationKey_distinct (records : List ActualETCRecord)
    (h : ∀ x ∈ records, DateTimeUnderscoreFree x) :
    (records.map validationKey).dedup.length =
      (records.map validationFields).dedup.length := by
  have e : records.map validationKey = (records.map validationFields).map joinFields := by
    rw [List.map_map]
    rfl
  rw [e]
  apply dedup_length_map
  intro a ha b hb hab
  obtain ⟨x, hx, rfl⟩ := List.mem_map.1 ha
  obtain ⟨y, hy, rfl⟩ := List.mem_map.1 hb
  exact validationKey_injective x y (h x hx) (h y hy) hab

/-- C7, counterexample: two records that differ in entry date and entry time, so that
neither agrees with an earlier record on the five fields, get the same validation key,
because an underscore inside a field reads like the separator; `ValidateCSVData` reports
one duplicate for them, while the number of records that repeat the five fields of an
earlier record is zero. -/
theorem ValidateCSVData_counts_colliding_keys :
    ValidateCSVData (sampleService [shiftedRecordA, shiftedRecordB])
        (some ⟨"date,time,amount", ""⟩) =
      .response
        { IsValid := true, Errors := [], DuplicateCount := 1, TotalRecords := 2 } ∧
    validationFields shiftedRecordA ≠ validationFields shiftedRecordB ∧
    shiftedRecordA.EntryDate ≠ shiftedRecordB.EntryDate ∧
    shiftedRecordA.EntryTime ≠ shiftedRecordB.EntryTime ∧
    validationKey shiftedRecordA = validationKey shiftedRecordB ∧
    earlierDuplicates ([shiftedRecordA, shiftedRecordB].map validationFields) = 0 := by
  decide

/-- C7, amended: for a request that passes validation and parses into fewer than 2^31
records, `ValidateCSVData` returns as `DuplicateCount` the number of records whose
validation key, the text joining entry date, entry time, exit date, exit time and amount
with underscores, equals the key text of an earlier record, which is the number of
records minus the number of distinct key texts.  Records that agree on the five fields
have the same key whatever their card numbers, and for records whose dates and times hold
no underscore the keys are equal only if the five fields agree; so for such records
`DuplicateCount` is the number of records that repeat the five fields of an earlier
record, the number of records minus the number of distinct combinations of the five
fields. -/
theorem ValidateCSVData_duplicateCount {σ : Type} (s : DataProcessorService σ)
    (r : ValidateCSVDataRequest) (records : List ActualETCRecord)
    (hreq : ValidateValidateCSVDataRequest (.validate (some r)) s.validator = none)
    (hparse : s.parser.Parse r.CsvData = .ok records)
    (hlen : records.length < 2 ^ 31) :
    ∃ resp, ValidateCSVData s (some r) = .response resp ∧
      resp.DuplicateCount = (earlierDuplicates (records.map validationKey) : Int) ∧
      resp.DuplicateCount =
        (records.length : Int) - ((records.map validationKey).dedup.length : Int) ∧
      (∀ a b : ActualETCRecord, validationFields a = validationFields b →
        validationKey a = validationKey b) ∧
      (∀ a b : ActualETCRecord, DateTimeUnderscoreFree a → DateTimeUnderscoreFree b →
        (validationKey a = validationKey b ↔ validationFields a = validationFields b)) ∧
      ((∀ x ∈ records, DateTimeUnderscoreFree x) →
        resp.DuplicateCount = (earlierDuplicates (records.map validationFields) : Int) ∧
        resp.DuplicateCount =
          (records.length : Int) - ((records.map validationFields).dedup.length : Int)) := by
  have h31 : (2 : Nat) ^ 31 = 2147483648 := by norm_num
  have hkey : ∀ a b : ActualETCRecord, validationFields a = validationFields b →
      validationKey a = validationKey b := by
    intro a b hab
    rw [validationKey_eq_joinFields, validationKey_eq_joinFields, hab]
  refine ⟨_, ValidateCSVData_parsed s r records hreq hparse, ?_⟩
  simp only
  rw [validateLoop_count s.parser records 0 _ ∅ (by intro k; simp) (by simp [int32])]
  have hfresh : freshKeys ∅ (records.map validationKey) =
      (records.map validationKey).dedup.length := by
    unfold freshKeys
    rw [Finset.sdiff_empty, List.card_toFinset]
  have he := earlierDuplicates_eq (records.map validationKey)
  rw [List.length_map] at he
  rw [hfresh, zero_add]
  rw [int32_of_range _ (by omega) (by omega)]
  refine ⟨by omega, by omega, hkey, ?_, ?_⟩
  · intro a b ha hb
    exact ⟨validationKey_injective a b ha hb, hkey a b⟩
  · intro hfree
    have hf := earlierDuplicates_eq (records.map validationFields)
    rw [List.length_map] at hf
    have hd := validationKey_distinct records hfree
    constructor <;> omega

/-- Witness of C7: two rows that share dates, times and amount and differ in the card
number give `DuplicateCount = 1`, the number of rows that repeat the five fields of an
earlier row. -/
theorem ValidateCSVData_duplicateCount_witness :
    ∃ resp, ValidateCSVData (sampleService [goodRecord, cardlessRecord])
        (some ⟨"date,time,amount", ""⟩) = .response resp ∧
      resp.DuplicateCount = 1 ∧
      goodRecord.CardNumber ≠ cardlessRecord.CardNumber ∧
      validationFields goodRecord = validationFields cardlessRecord ∧
      (earlierDuplicates ([goodRecord, cardlessRecord].map validationFields) : Int) = 1 := by
  obtain ⟨resp, h1, _, _, _, _, h2⟩ := ValidateCSVData_duplicateCount
    (sampleService [goodRecord, cardlessRecord]) ⟨"date,time,amount", ""⟩
    [goodRecord, cardlessRecord] (by decide) rfl (by norm_num)
  have hfree : ∀ x ∈ [goodRecord, cardlessRecord], DateTimeUnderscoreFree x := by
    intro x hx
    simp only [List.mem_cons, List.mem_singleton, List.not_mem_nil, or_false] at hx
    rcases hx with rfl | rfl <;> exact ⟨by decide, by decide, by decide, by decide⟩
  refine ⟨resp, h1, ?_, by decide, by decide, by decide⟩
  rw [(h2 hfree).1]
  decide

/-- C8: for a request that passes validation and parses into records whose line numbers
fit `int32`, `ValidateCSVData` runs the record validator on every record, duplicate or
not, and returns one `ValidationError` per failing record, in record order, with
`LineNumber` the 0-based index plus 2; `IsValid` holds if and only if no record fails
validation, and `TotalRecords` is the number of records. -/
theorem ValidateCSVData_errors {σ : Type} (s : DataProcessorService σ)
    (r : ValidateCSVDataRequest) (records : List ActualETCRecord)
    (hreq : ValidateValidateCSVDataRequest (.validate (some r)) s.validator = none)
    (hparse : s.parser.Parse r.CsvData = .ok records)
    (hlen : records.length + 2 ≤ 2 ^ 31) :
    ∃ resp, ValidateCSVData s (some r) = .response resp ∧
      resp.Errors = records.enum.filterMap (fun p =>
        (s.parser.ValidateRecord p.2).map fun err =>
          { LineNumber := (p.1 : Int) + 2, Field := "", Message := err,
            RecordData := fmtV p.2 }) ∧
      (resp.IsValid = true ↔ ∀ x ∈ records, s.parser.ValidateRecord x = none) ∧
      resp.TotalRecords = (records.length : Int) := by
  have h31 : (2 : Nat) ^ 31 = 2147483648 := by norm_num
  refine ⟨_, ValidateCSVData_parsed s r records hreq hparse, ?_⟩
  simp only
  rw [validateLoop_errors s.parser records 0 _]
  simp only [List.nil_append]
  refine ⟨?_, ?_, ?_⟩
  · apply List.filterMap_congr
    rintro ⟨i, x⟩ hp
    have hi := (List.mem_enumFrom hp).2.1
    simp only [lineError]
    rw [int32_of_range _ (by omega) (by omega)]
  · rw [decide_eq_true_iff, List.length_eq_zero, List.filterMap_eq_nil_iff]
    constructor
    · intro h x hx
      obtain ⟨i, hi⟩ := List.mem_iff_getElem?.1 hx
      have := h (i, x) (List.mk_mem_enum_iff_getElem?.2 hi)
      simpa [lineError] using this
    · intro h p hp
      have := h p.2 (List.snd_mem_of_mem_enum hp)
      simp [lineError, this]
  · exact int32_of_range _ (by omega) (by omega)

/-- Witness of C8: of two rows the second fails validation and is reported on line 3. -/
theorem ValidateCSVData_errors_witness :
    ∃ resp, ValidateCSVData (sampleService [goodRecord, cardlessRecord])
        (some ⟨"date,time,amount", ""⟩) = .response resp ∧
      resp.Errors =
        [{ LineNumber := 3, Field := "", Message := "card number is required",
           RecordData := "\x7b2024-01-05 10:00 2024-01-05 11:00 1200 \x7d" }] := by
  obtain ⟨resp, h1, h2, _⟩ := ValidateCSVData_errors
    (sampleService [goodRecord, cardlessRecord]) ⟨"date,time,amount", ""⟩
    [goodRecord, cardlessRecord] (by decide) rfl (by norm_num)
  refine ⟨resp, h1, ?_⟩
  rw [h2]
  decide

/-! ### The entry points -/

/-- C9: for every request that passes request validation and whose source is resolved
and parsed, `ProcessCSVFile` and `ProcessCSVData` return a response and no RPC error,
whatever the outcomes of conversion and save on the records are; the statistics of the
response are those of `processRecords`, and `Success` holds if and only if
`SavedRecords > 0`. -/
theorem process_entry_points_respond {σ : Type} (env : Env) (fs : FileSystem)
    (s : DataProcessorService σ) (ctx : Context) (store : σ) :
    (∀ (req : Option ProcessCSVFileRequest) (path : String)
      (records : List ActualETCRecord),
      ValidateProcessCSVFileRequest env (.file req) s.validator = none →
      resolveCSVFilePath env fs (ProcessCSVFileRequest.GetCsvFilePath req) = .ok path →
      s.parser.ParseFile path = .ok records →
      ∃ resp, (ProcessCSVFile env fs s ctx req store).1 = .response resp ∧
        resp.Stats = (processRecords ctx s.dbClient s.parser records
          (ProcessCSVFileRequest.GetAccountId req) (getSkipDuplicatesDefault env)
          store).stats ∧
        (resp.Success = true ↔ resp.Stats.SavedRecords > 0)) ∧
    (∀ (r : ProcessCSVDataRequest) (records : List ActualETCRecord),
      ValidateProcessCSVDataRequest (.data (some r)) s.validator = none →
      s.parser.Parse r.CsvData = .ok records →
      ∃ resp, (ProcessCSVData env s ctx (some r) store).1 = .response resp ∧
        resp.Stats = (processRecords ctx s.dbClient s.parser records r.AccountId
          (getSkipDuplicatesDefault env) store).stats ∧
        (resp.Success = true ↔ resp.Stats.SavedRecords > 0)) := by
  constructor
  · intro req path records hv hr hp
    unfold ProcessCSVFile
    rw [hv]
    simp only [hr, hp]
    exact ⟨_, rfl, rfl, by simp⟩
  · intro r records hv hp
    unfold ProcessCSVData
    rw [hv]
    simp only [hp]
    exact ⟨_, rfl, rfl, by simp⟩

/-- Witness of C9: inline data of two records, the first of which fails conversion. -/
theorem process_entry_points_respond_witness :
    ∃ resp, (ProcessCSVData emptyEnv (sampleService [undatedRecord, goodRecord])
        neverCancelled (some ⟨"date,time,amount", ""⟩) []).1 = .response resp ∧
      resp.Stats = ⟨2, 1, 0, 1⟩ ∧ resp.Success = true := by
  obtain ⟨resp, h1, h2, h3⟩ := (process_entry_points_respond emptyEnv emptyFS
    (sampleService [undatedRecord, goodRecord]) neverCancelled []).2
    ⟨"date,time,amount", ""⟩ [undatedRecord, goodRecord] (by decide) rfl
  have hs : resp.Stats = ⟨2, 1, 0, 1⟩ := by rw [h2]; decide
  refine ⟨resp, h1, hs, ?_⟩
  rw [h3, hs]
  decide

/-! ### Date normalisation -/

/-- The character of a digit is a digit. -/
theorem isDigit_utod (k : Nat) (h : k < 10) : isDigit (utod k) = true := by
  interval_cases k <;> rfl

/-- Value of the character of a digit. -/
theorem digitVal_utod (k : Nat) (h : k < 10) : digitVal (utod k) = k := by
  interval_cases k <;> rfl

/-- The value of a digit character is below ten. -/
theorem digitVal_lt (c : Char) (h : isDigit c = true) : digitVal c < 10 := by
  unfold isDigit at h
  unfold digitVal
  have := of_decide_eq_true h
  omega

/-- A digit character is the character of its value. -/
theorem utod_digitVal (c : Char) (h : isDigit c = true) : utod (digitVal c) = c := by
  unfold isDigit at h
  have h' := of_decide_eq_true h
  unfold utod digitVal
  have : 48 + (c.toNat - 48) = c.toNat := by omega
  rw [this]
  exact Char.ofNat_toNat c

/-- No digit character is the time designator. -/
theorem utod_ne_T (k : Nat) (h : k < 10) : utod k ≠ 'T' := by
  interval_cases k <;> decide

/-- The date layout accepts every valid bare calendar date. -/
theorem timeParseDate_of_calendar (s : String) (y m d : Nat) (hy : y ≤ 9999)
    (hm1 : 1 ≤ m) (hm2 : m ≤ 12) (hd1 : 1 ≤ d) (hd2 : d ≤ daysIn m y)
    (hs : s.data = [utod (y / 1000), utod (y / 100 % 10), utod (y / 10 % 10), utod (y % 10),
      '-', utod (m / 10), utod (m % 10), '-', utod (d / 10), utod (d % 10)]) :
    timeParseDate s = some
      { year := y, month := m, day := d, hour := 0, minute := 0, second := 0, nsec := 0,
        offset := 0 } := by
  have hd3 : d ≤ 31 := by
    unfold daysIn at hd2
    split at hd2
    · split at hd2 <;> omega
    · split at hd2 <;> omega
  have e1 : num4 (utod (y / 1000)) (utod (y / 100 % 10)) (utod (y / 10 % 10))
      (utod (y % 10)) = y := by
    unfold num4
    rw [digitVal_utod _ (by omega), digitVal_utod _ (by omega), digitVal_utod _ (by omega),
      digitVal_utod _ (by omega)]
    omega
  have e2 : num2 (utod (m / 10)) (utod (m % 10)) = m := by
    unfold num2
    rw [digitVal_utod _ (by omega), digitVal_utod _ (by omega)]
    omega
  have e3 : num2 (utod (d / 10)) (utod (d % 10)) = d := by
    unfold num2
    rw [digitVal_utod _ (by omega), digitVal_utod _ (by omega)]
    omega
  unfold timeParseDate
  rw [hs]
  simp only [isDigit_utod (y / 1000) (by omega), isDigit_utod (y / 100 % 10) (by omega),
    isDigit_utod (y / 10 % 10) (by omega), isDigit_utod (y % 10) (by omega),
    isDigit_utod (m / 10) (by omega), isDigit_utod (m % 10) (by omega),
    isDigit_utod (d / 10) (by omega), isDigit_utod (d % 10) (by omega), e1, e2, e3]
  simp [hm1, hm2, hd1, hd2]

/-- The date layout accepts valid bare calendar dates only. -/
theorem calendar_of_timeParseDate (s : String) (t : Time) (h : timeParseDate s = some t) :
    IsCalendarDate s := by
  unfold timeParseDate at h
  split at h
  · rename_i y0 y1 y2 y3 p1 m0 m1 p2 d0 d1 hs
    split at h
    · rename_i hc
      simp only [Bool.and_eq_true, beq_iff_eq] at hc
      obtain ⟨⟨⟨⟨⟨⟨⟨⟨⟨a0, a1⟩, a2⟩, a3⟩, hp1⟩, b0⟩, b1⟩, hp2⟩, c0⟩, c1⟩ := hc
      dsimp only at h
      split at h
      · rename_i hr
        obtain ⟨r1, r2, r3, r4⟩ := hr
        have v0 := digitVal_lt _ a0
        have v1 := digitVal_lt _ a1
        have v2 := digitVal_lt _ a2
        have v3 := digitVal_lt _ a3
        have w0 := digitVal_lt _ b0
        have w1 := digitVal_lt _ b1
        have x0 := digitVal_lt _ c0
        have x1 := digitVal_lt _ c1
        refine ⟨num4 y0 y1 y2 y3, num2 m0 m1, num2 d0 d1, ?_, r1, r2, r3, ?_, ?_⟩
        · unfold num4; omega
        · exact_mod_cast r4
        · rw [hs, hp1, hp2]
          have f0 : num4 y0 y1 y2 y3 / 1000 = digitVal y0 := by unfold num4; omega
          have f1 : num4 y0 y1 y2 y3 / 100 % 10 = digitVal y1 := by unfold num4; omega
          have f2 : num4 y0 y1 y2 y3 / 10 % 10 = digitVal y2 := by unfold num4; omega
          have f3 : num4 y0 y1 y2 y3 % 10 = digitVal y3 := by unfold num4; omega
          have g0 : num2 m0 m1 / 10 = digitVal m0 := by unfold num2; omega
          have g1 : num2 m0 m1 % 10 = digitVal m1 := by unfold num2; omega
          have k0 : num2 d0 d1 / 10 = digitVal d0 := by unfold num2; omega
          have k1 : num2 d0 d1 % 10 = digitVal d1 := by unfold num2; omega
          rw [f0, f1, f2, f3, g0, g1, k0, k1, utod_digitVal _ a0, utod_digitVal _ a1,
            utod_digitVal _ a2, utod_digitVal _ a3, utod_digitVal _ b0, utod_digitVal _ b1,
            utod_digitVal _ c0, utod_digitVal _ c1]
      · cases h
    · cases h
  · cases h

/-- A text accepted by the dedicated parser holds the time designator. -/
theorem parseRFC3339_contains_T (s : String) (t : Time)
    (h : parseRFC3339 s = some t) : 'T' ∈ s.data := by
  unfold parseRFC3339 at h
  split at h
  · rename_i y0 y1 y2 y3 p1 m0 m1 p2 d0 d1 tt h0 h1 c1 n0 n1 c2 s0 s1 rest hs
    split at h
    · rename_i hc
      simp only [Bool.and_eq_true, beq_iff_eq] at hc
      rw [hs, hc.1.1.2]
      simp
    · cases h
  · cases h

/-- What a text with a four-digit year at its head looks like. -/
theorem getLongYear_inv (s v : List Char) (y : Nat) (h : getLongYear s = some (y, v)) :
    ∃ a b c d, s = a :: b :: c :: d :: v := by
  unfold getLongYear at h
  split at h
  · rename_i y0 y1 y2 y3 rest
    split at h
    · simp only [Option.some.injEq, Prod.mk.injEq] at h
      exact ⟨y0, y1, y2, y3, by rw [h.2]⟩
    · cases h
  · cases h

/-- A skipped character is the head of the text. -/
theorem skip_inv (s v : List Char) (c : Char) (h : skip s c = some v) : s = c :: v := by
  unfold skip at h
  split at h
  · rename_i x rest
    split at h
    · rename_i hx
      simp only [Option.some.injEq] at h
      rw [beq_iff_eq] at hx
      rw [hx, h]
    · cases h
  · cases h

/-- A number of fixed width takes two characters. -/
theorem getnum_fixed_inv (s v : List Char) (n : Nat) (h : getnum s true = some (n, v)) :
    ∃ a b, s = a :: b :: v := by
  unfold getnum at h
  split at h
  · cases h
  · rename_i a rest
    split at h
    · split at h
      · simp at h
      · rename_i b rest2
        split at h
        · simp only [Option.some.injEq, Prod.mk.injEq] at h
          exact ⟨a, b, by rw [h.2]⟩
        · simp at h
    · cases h

/-- A text accepted by the layout parser holds the time designator. -/
theorem parseLayoutRFC3339_contains_T (s : String) (t : Time)
    (h : parseLayoutRFC3339 s = some t) : 'T' ∈ s.data := by
  unfold parseLayoutRFC3339 at h
  split at h
  · cases h
  · rename_i year v1 h1
    split at h
    · cases h
    · rename_i v2 h2
      split at h
      · cases h
      · rename_i month v3 h3
        split at h
        · cases h
        · split at h
          · cases h
          · rename_i v4 h4
            split at h
            · cases h
            · rename_i day v5 h5
              split at h
              · cases h
              · rename_i v6 h6
                obtain ⟨a, b, c, d, e1⟩ := getLongYear_inv _ _ _ h1
                obtain ⟨m0, m1, e3⟩ := getnum_fixed_inv _ _ _ h3
                obtain ⟨d0, d1, e5⟩ := getnum_fixed_inv _ _ _ h5
                rw [e1, skip_inv _ _ _ h2, e3, skip_inv _ _ _ h4, e5, skip_inv _ _ _ h6]
                simp

/-- What the dedicated parser accepts, `time.Parse` returns. -/
theorem timeParseRFC3339_of_parseRFC3339 (s : String) (t : Time)
    (h : parseRFC3339 s = some t) : timeParseRFC3339 s = some t := by
  unfold timeParseRFC3339
  rw [h]

/-- A text accepted by `time.Parse` for the layout `time.RFC3339` holds the time
designator. -/
theorem timeParseRFC3339_contains_T (s : String) (t : Time)
    (h : timeParseRFC3339 s = some t) : 'T' ∈ s.data := by
  unfold timeParseRFC3339 at h
  split at h
  · rename_i t1 h1
    exact parseRFC3339_contains_T s t1 h1
  · exact parseLayoutRFC3339_contains_T s t h

/-- A bare calendar date holds no time designator. -/
theorem calendar_no_T (s : String) (h : IsCalendarDate s) : 'T' ∉ s.data := by
  obtain ⟨y, m, d, hy, hm1, hm2, hd1, hd2, hs⟩ := h
  have hd3 : d ≤ 31 := by
    unfold daysIn at hd2
    split at hd2
    · split at hd2 <;> omega
    · split at hd2 <;> omega
  rw [hs]
  intro hmem
  simp only [List.mem_cons, List.mem_singleton, List.not_mem_nil, or_false] at hmem
  have hT : ('T' : Char) ≠ '-' := by decide
  rcases hmem with h | h | h | h | h | h | h | h | h | h
  · exact utod_ne_T _ (by omega) h.symm
  · exact utod_ne_T _ (by omega) h.symm
  · exact utod_ne_T _ (by omega) h.symm
  · exact utod_ne_T _ (by omega) h.symm
  · exact hT h
  · exact utod_ne_T _ (by omega) h.symm
  · exact utod_ne_T _ (by omega) h.symm
  · exact hT h
  · exact utod_ne_T _ (by omega) h.symm
  · exact utod_ne_T _ (by omega) h.symm

/-- The timestamp of midnight UTC of a day is the date followed by `T00:00:00Z`. -/
theorem formatRFC3339_midnight (s : String) (y m d : Nat) (hy : y ≤ 9999) (hm : m ≤ 12)
    (hd : d ≤ 31)
    (hs : s.data = [utod (y / 1000), utod (y / 100 % 10), utod (y / 10 % 10), utod (y % 10),
      '-', utod (m / 10), utod (m % 10), '-', utod (d / 10), utod (d % 10)]) :
    (Time.UTC ⟨y, m, d, 0, 0, 0, 0, 0⟩).formatRFC3339 = s ++ "T00:00:00Z" := by
  apply String.ext
  rw [String.data_append, hs]
  have e4 : appendInt (y : Int) 4 =
      [utod (y / 1000), utod (y / 100 % 10), utod (y / 10 % 10), utod (y % 10)] := by
    unfold appendInt
    have h1 : ¬ ((y : Int) < 0) := by omega
    have h2 : (y : Int).natAbs = y := Int.natAbs_ofNat y
    simp only [h1, h2, if_false]
    have h3 : y < 10000 := by omega
    simp [h3]
  have e2 : ∀ k : Nat, k ≤ 31 → appendInt (k : Int) 2 = [utod (k / 10), utod (k % 10)] := by
    intro k hk
    unfold appendInt
    have h1 : ¬ ((k : Int) < 0) := by omega
    have h2 : (k : Int).natAbs = k := Int.natAbs_ofNat k
    simp only [h1, h2, if_false]
    have h3 : k < 100 := by omega
    simp [h3]
  simp only [Time.UTC, Time.formatRFC3339, if_true]
  rw [e4, e2 m (by omega), e2 d hd]
  have e0 := e2 0 (by omega)
  rw [e0]
  rfl

/-- C10, counterexample: the text `2024-01-05T1:20:30Z` is neither a valid bare date nor a
valid RFC 3339 timestamp (its hour has one digit, and the dedicated RFC 3339 parser
rejects it), yet `formatDateToRFC3339` does not fail on it: the layout parser behind
`time.Parse` accepts the one-digit hour, and the result is the timestamp with the hour
padded. -/
theorem formatDateToRFC3339_accepts_one_digit_hour :
    formatDateToRFC3339 "2024-01-05T1:20:30Z" = .ok "2024-01-05T01:20:30Z" ∧
    parseRFC3339 "2024-01-05T1:20:30Z" = none ∧
    timeParseDate "2024-01-05T1:20:30Z" = none ∧
    ¬ IsCalendarDate "2024-01-05T1:20:30Z" ∧
    formatDateToRFC3339 "2024-01-05T10:20:30,5Z" = .ok "2024-01-05T10:20:30Z" ∧
    parseRFC3339 "2024-01-05T10:20:30,5Z" = none ∧
    ¬ IsCalendarDate "2024-01-05T10:20:30,5Z" :=
  ⟨rfl, rfl, rfl, fun h => calendar_no_T _ h (by decide), rfl, rfl,
    fun h => calendar_no_T _ h (by decide)⟩

/-- C10, amended: for every valid bare calendar date `d` of the form `YYYY-MM-DD`,
`formatDateToRFC3339 d` succeeds and returns `d` followed by `T00:00:00Z`;
`formatDateToRFC3339` fails exactly on the inputs that `time.Parse` rejects for the layout
`time.RFC3339` and that are no valid bare calendar date; and `time.Parse` accepts every
text of the RFC 3339 grammar (the dedicated parser), so no such text fails. -/
theorem formatDateToRFC3339_bare_date :
    (∀ d : String, IsCalendarDate d → formatDateToRFC3339 d = .ok (d ++ "T00:00:00Z")) ∧
    (∀ d : String, (∃ e, formatDateToRFC3339 d = .error e) ↔
      (timeParseRFC3339 d = none ∧ ¬ IsCalendarDate d)) ∧
    (∀ (d : String) (t : Time), parseRFC3339 d = some t →
      timeParseRFC3339 d = some t ∧ formatDateToRFC3339 d = .ok t.formatRFC3339) := by
  refine ⟨?_, ?_, ?_⟩
  · intro s hc
    have hT := calendar_no_T s hc
    obtain ⟨y, m, d, hy, hm1, hm2, hd1, hd2, hs⟩ := hc
    have hd3 : d ≤ 31 := by
      unfold daysIn at hd2
      split at hd2
      · split at hd2 <;> omega
      · split at hd2 <;> omega
    unfold formatDateToRFC3339
    simp only [hT, if_false, timeParseDate_of_calendar s y m d hy hm1 hm2 hd1 hd2 hs]
    rw [formatRFC3339_midnight s y m d hy hm2 hd3 hs]
  · intro s
    have hdate : ∀ t, timeParseDate s = some t → IsCalendarDate s :=
      fun t h => calendar_of_timeParseDate s t h
    have hdate' : IsCalendarDate s → ∃ t, timeParseDate s = some t := by
      rintro ⟨y, m, d, hy, hm1, hm2, hd1, hd2, hs⟩
      exact ⟨_, timeParseDate_of_calendar s y m d hy hm1 hm2 hd1 hd2 hs⟩
    unfold formatDateToRFC3339
    by_cases hT : 'T' ∈ s.data
    · simp only [hT, if_true]
      cases hp : timeParseRFC3339 s with
      | some t => simp
      | none =>
        cases hq : timeParseDate s with
        | some t =>
          simp only [true_and]
          constructor
          · rintro ⟨e, he⟩; cases he
          · intro hn; exact absurd (hdate t hq) hn
        | none =>
          simp only [true_and]
          constructor
          · intro _ hc
            obtain ⟨t, ht⟩ := hdate' hc
            rw [hq] at ht; cases ht
          · intro _; exact ⟨_, rfl⟩
    · simp only [hT, if_false]
      have hp : timeParseRFC3339 s = none := by
        cases hp : timeParseRFC3339 s with
        | none => rfl
        | some t => exact absurd (timeParseRFC3339_contains_T s t hp) hT
      cases hq : timeParseDate s with
      | some t =>
        constructor
        · rintro ⟨e, he⟩; cases he
        · rintro ⟨_, hn⟩; exact absurd (hdate t hq) hn
      | none =>
        constructor
        · intro _
          refine ⟨hp, ?_⟩
          intro hc
          obtain ⟨t, ht⟩ := hdate' hc
          rw [hq] at ht; cases ht
        · intro _; exact ⟨_, rfl⟩
  · intro s t h
    have h2 := timeParseRFC3339_of_parseRFC3339 s t h
    have hT := timeParseRFC3339_contains_T s t h2
    refine ⟨h2, ?_⟩
    unfold formatDateToRFC3339
    simp only [hT, if_true, h2]

/-- Witness of C10: the date `2024-01-05`. -/
theorem formatDateToRFC3339_bare_date_witness :
    formatDateToRFC3339 "2024-01-05" = .ok "2024-01-05T00:00:00Z" :=
  formatDateToRFC3339_bare_date.1 "2024-01-05"
    ⟨2024, 1, 5, by decide, by decide, by decide, by decide, by decide, by decide⟩

/-! ### Timestamps -/

/-- Reading back a two-digit field. -/
theorem num2_utod (k : Nat) (h : k < 100) : num2 (utod (k / 10)) (utod (k % 10)) = k := by
  unfold num2
  rw [digitVal_utod _ (by omega), digitVal_utod _ (by omega)]
  omega

/-- Two digit characters are the text of their value. -/
theorem num2_text (a b : Char) (ha : isDigit a = true) (hb : isDigit b = true) :
    num2 a b < 100 ∧ utod (num2 a b / 10) = a ∧ utod (num2 a b % 10) = b := by
  have v0 := digitVal_lt _ ha
  have v1 := digitVal_lt _ hb
  have g0 : num2 a b / 10 = digitVal a := by unfold num2; omega
  have g1 : num2 a b % 10 = digitVal b := by unfold num2; omega
  refine ⟨by unfold num2; omega, ?_, ?_⟩
  · rw [g0, utod_digitVal _ ha]
  · rw [g1, utod_digitVal _ hb]

/-- Four digit characters are the text of their value. -/
theorem num4_text (a b c d : Char) (ha : isDigit a = true) (hb : isDigit b = true)
    (hc : isDigit c = true) (hd : isDigit d = true) :
    num4 a b c d ≤ 9999 ∧ utod (num4 a b c d / 1000) = a ∧
      utod (num4 a b c d / 100 % 10) = b ∧ utod (num4 a b c d / 10 % 10) = c ∧
      utod (num4 a b c d % 10) = d := by
  have v0 := digitVal_lt _ ha
  have v1 := digitVal_lt _ hb
  have v2 := digitVal_lt _ hc
  have v3 := digitVal_lt _ hd
  have f0 : num4 a b c d / 1000 = digitVal a := by unfold num4; omega
  have f1 : num4 a b c d / 100 % 10 = digitVal b := by unfold num4; omega
  have f2 : num4 a b c d / 10 % 10 = digitVal c := by unfold num4; omega
  have f3 : num4 a b c d % 10 = digitVal d := by unfold num4; omega
  refine ⟨by unfold num4; omega, ?_, ?_, ?_, ?_⟩
  · rw [f0, utod_digitVal _ ha]
  · rw [f1, utod_digitVal _ hb]
  · rw [f2, utod_digitVal _ hc]
  · rw [f3, utod_digitVal _ hd]

/-- What a text accepted as a zone suffix looks like. -/
theorem parseZoneStrict_inv (z : List Char) (off : Int) (h : parseZoneStrict z = some off) :
    (z = ['Z'] ∧ off = 0) ∨
    ∃ hh mm : Nat, hh ≤ 23 ∧ mm ≤ 59 ∧
      ((z = zoneText '+' hh mm ∧ off = (((hh * 60 + mm) * 60 : Nat) : Int)) ∨
       (z = zoneText '-' hh mm ∧ off = -(((hh * 60 + mm) * 60 : Nat) : Int))) := by
  unfold parseZoneStrict at h
  split at h
  · left
    simp only [Option.some.injEq] at h
    exact ⟨rfl, h.symm⟩
  · rename_i sg h0 h1 c m0 m1
    right
    split at h
    · rename_i hc
      simp only [Bool.and_eq_true, Bool.or_eq_true, beq_iff_eq, decide_eq_true_eq] at hc
      obtain ⟨⟨⟨⟨⟨⟨⟨a0, a1⟩, b0⟩, b1⟩, hcol⟩, hsg⟩, hh⟩, hm⟩ := hc
      obtain ⟨_, t0, t1⟩ := num2_text h0 h1 a0 a1
      obtain ⟨_, u0, u1⟩ := num2_text m0 m1 b0 b1
      refine ⟨num2 h0 h1, num2 m0 m1, hh, hm, ?_⟩
      simp only [Option.some.injEq] at h
      rcases hsg with hsg | hsg
      · right
        subst hsg
        simp only [beq_self_eq_true, if_true] at h
        refine ⟨?_, h.symm⟩
        unfold zoneText
        rw [t0, t1, u0, u1, hcol]
      · left
        subst hsg
        have : (('+' : Char) == '-') = false := by decide
        simp only [this] at h
        refine ⟨?_, ?_⟩
        · unfold zoneText
          rw [t0, t1, u0, u1, hcol]
        · exact h.symm
    · cases h
  · cases h

/-- What a text accepted as an RFC 3339 timestamp looks like. -/
theorem parseRFC3339_inv (s : String) (t : Time) (h : parseRFC3339 s = some t) :
    ∃ (y mo d hr mi sc : Nat) (rest : List Char) (off : Int),
      y ≤ 9999 ∧ 1 ≤ mo ∧ mo ≤ 12 ∧ 1 ≤ d ∧ d ≤ daysIn mo y ∧ hr ≤ 23 ∧ mi ≤ 59 ∧ sc ≤ 59 ∧
      s.data = dateTimeText y mo d hr mi sc ++ rest ∧
      parseZoneStrict (splitFraction rest).2 = some off ∧
      t = ⟨y, mo, d, hr, mi, sc, (splitFraction rest).1, off⟩ := by
  unfold parseRFC3339 at h
  split at h
  · rename_i y0 y1 y2 y3 p1 m0 m1 p2 d0 d1 tt h0 h1 c1 n0 n1 c2 s0 s1 rest hs
    split at h
    · rename_i hc
      simp only [Bool.and_eq_true, beq_iff_eq] at hc
      obtain ⟨⟨⟨⟨⟨⟨⟨⟨⟨⟨⟨⟨⟨⟨⟨⟨⟨⟨a0, a1⟩, a2⟩, a3⟩, b0⟩, b1⟩, e0⟩, e1⟩, f0⟩, f1⟩, g0⟩, g1⟩, k0⟩,
        k1⟩, hp1⟩, hp2⟩, hT⟩, hc1⟩, hc2⟩ := hc
      dsimp only at h
      split at h
      · rename_i hr
        obtain ⟨r1, r2, r3, r4, r5, r6, r7⟩ := hr
        split at h
        · rename_i off hz
          simp only [Option.some.injEq] at h
          obtain ⟨hy, y0', y1', y2', y3'⟩ := num4_text y0 y1 y2 y3 a0 a1 a2 a3
          obtain ⟨_, m0', m1'⟩ := num2_text m0 m1 b0 b1
          obtain ⟨_, d0', d1'⟩ := num2_text d0 d1 e0 e1
          obtain ⟨_, h0', h1'⟩ := num2_text h0 h1 f0 f1
          obtain ⟨_, n0', n1'⟩ := num2_text n0 n1 g0 g1
          obtain ⟨_, s0', s1'⟩ := num2_text s0 s1 k0 k1
          refine ⟨num4 y0 y1 y2 y3, num2 m0 m1, num2 d0 d1, num2 h0 h1, num2 n0 n1,
            num2 s0 s1, rest, off, hy, r1, r2, r3, by exact_mod_cast r4, r5, r6, r7, ?_, hz,
            h.symm⟩
          rw [hs]
          unfold dateTimeText
          rw [y0', y1', y2', y3', m0', m1', d0', d1', h0', h1', n0', n1', s0', s1', hp1, hp2,
            hT, hc1, hc2]
          rfl
        · cases h
      · cases h
    · cases h
  · cases h

/-- The two-digit branch of `appendInt`. -/
theorem appendInt_two (k : Nat) (h : k < 100) :
    appendInt (k : Int) 2 = [utod (k / 10), utod (k % 10)] := by
  unfold appendInt
  have h1 : ¬ ((k : Int) < 0) := by omega
  have h2 : (k : Int).natAbs = k := Int.natAbs_ofNat k
  simp only [h1, h2, if_false]
  simp [h]

/-- The four-digit branch of `appendInt`. -/
theorem appendInt_four (k : Nat) (h : k < 10000) :
    appendInt (k : Int) 4 =
      [utod (k / 1000), utod (k / 100 % 10), utod (k / 10 % 10), utod (k % 10)] := by
  unfold appendInt
  have h1 : ¬ ((k : Int) < 0) := by omega
  have h2 : (k : Int).natAbs = k := Int.natAbs_ofNat k
  simp only [h1, h2, if_false]
  simp [h]

/-- The zone part printed for an offset east of UTC. -/
theorem formatZone_east (hh mm : Nat) (h1 : hh ≤ 23) (h2 : mm ≤ 59)
    (h3 : (hh * 60 + mm) * 60 ≠ 0) :
    formatZone (((hh * 60 + mm) * 60 : Nat) : Int) = zoneText '+' hh mm := by
  have hz : Int.tdiv (((hh * 60 + mm) * 60 : Nat) : Int) 60 = ((hh * 60 + mm : Nat) : Int) := by
    rw [Int.tdiv_eq_ediv (by omega) (by omega)]
    omega
  unfold formatZone
  have hne : ¬ ((((hh * 60 + mm) * 60 : Nat) : Int) = 0) := by omega
  simp only [hne, if_false, hz]
  have hn : ¬ (((hh * 60 + mm : Nat) : Int) < 0) := by omega
  simp only [hn, if_false]
  have e1 : ((hh * 60 + mm : Nat) : Int) / 60 = (hh : Int) := by omega
  have e2 : ((hh * 60 + mm : Nat) : Int) % 60 = (mm : Int) := by omega
  rw [e1, e2, appendInt_two hh (by omega), appendInt_two mm (by omega)]
  rfl

/-- The zone part printed for an offset west of UTC. -/
theorem formatZone_west (hh mm : Nat) (h1 : hh ≤ 23) (h2 : mm ≤ 59)
    (h3 : (hh * 60 + mm) * 60 ≠ 0) :
    formatZone (-(((hh * 60 + mm) * 60 : Nat) : Int)) = zoneText '-' hh mm := by
  have hz : Int.tdiv (-(((hh * 60 + mm) * 60 : Nat) : Int)) 60 =
      -((hh * 60 + mm : Nat) : Int) := by
    rw [Int.neg_tdiv, Int.tdiv_eq_ediv (by omega) (by omega)]
    omega
  unfold formatZone
  have hne : ¬ (-(((hh * 60 + mm) * 60 : Nat) : Int) = 0) := by omega
  simp only [hne, if_false, hz]
  have hn : (-((hh * 60 + mm : Nat) : Int) < 0) := by omega
  simp only [hn, if_true, neg_neg]
  have e1 : ((hh * 60 + mm : Nat) : Int) / 60 = (hh : Int) := by omega
  have e2 : ((hh * 60 + mm : Nat) : Int) % 60 = (mm : Int) := by omega
  rw [e1, e2, appendInt_two hh (by omega), appendInt_two mm (by omega)]
  rfl

/-- A numeric zone suffix is read as its offset. -/
theorem parseZoneStrict_zoneText (sg : Char) (hh mm : Nat) (h1 : hh ≤ 23) (h2 : mm ≤ 59)
    (hsg : sg = '+' ∨ sg = '-') :
    parseZoneStrict (zoneText sg hh mm) =
      some (if sg = '-' then -(((hh * 60 + mm) * 60 : Nat) : Int)
        else (((hh * 60 + mm) * 60 : Nat) : Int)) := by
  have hZ : sg ≠ 'Z' := by rcases hsg with h | h <;> (rw [h]; decide)
  unfold zoneText parseZoneStrict
  simp only [isDigit_utod (hh / 10) (by omega), isDigit_utod (hh % 10) (by omega),
    isDigit_utod (mm / 10) (by omega), isDigit_utod (mm % 10) (by omega),
    num2_utod hh (by omega), num2_utod mm (by omega)]
  rcases hsg with h | h <;> subst h <;> simp [h1, h2]

/-- No month has more than 31 days. -/
theorem daysIn_le (m : Nat) (y : Int) : daysIn m y ≤ 31 := by
  unfold daysIn
  split
  · split <;> omega
  · split <;> omega

/-- The canonical text of a time whose fields are in range. -/
theorem formatRFC3339_data (y mo d hr mi sc ns : Nat) (off : Int) (hy : y ≤ 9999)
    (hmo : mo ≤ 12) (hd : d ≤ 31) (hhr : hr ≤ 23) (hmi : mi ≤ 59) (hsc : sc ≤ 59) :
    (Time.formatRFC3339 ⟨y, mo, d, hr, mi, sc, ns, off⟩).data =
      dateTimeText y mo d hr mi sc ++ formatZone off := by
  simp only [Time.formatRFC3339]
  rw [appendInt_four y (by omega), appendInt_two mo (by omega), appendInt_two d (by omega),
    appendInt_two hr (by omega), appendInt_two mi (by omega), appendInt_two sc (by omega)]
  rfl

/-- A canonical text parses to the time it was written from. -/
theorem parseRFC3339_canonical (s : String) (y mo d hr mi sc : Nat) (z : List Char)
    (off : Int) (hy : y ≤ 9999) (hmo1 : 1 ≤ mo) (hmo : mo ≤ 12) (hd1 : 1 ≤ d)
    (hd : d ≤ daysIn mo y) (hhr : hr ≤ 23) (hmi : mi ≤ 59) (hsc : sc ≤ 59)
    (hs : s.data = dateTimeText y mo d hr mi sc ++ z) (hf : splitFraction z = (0, z))
    (hz : parseZoneStrict z = some off) :
    parseRFC3339 s = some ⟨y, mo, d, hr, mi, sc, 0, off⟩ := by
  have hd3 := daysIn_le mo y
  have e1 : num4 (utod (y / 1000)) (utod (y / 100 % 10)) (utod (y / 10 % 10))
      (utod (y % 10)) = y := by
    unfold num4
    rw [digitVal_utod _ (by omega), digitVal_utod _ (by omega), digitVal_utod _ (by omega),
      digitVal_utod _ (by omega)]
    omega
  unfold parseRFC3339
  rw [hs]
  unfold dateTimeText
  simp only [List.cons_append, List.nil_append,
    isDigit_utod (y / 1000) (by omega), isDigit_utod (y / 100 % 10) (by omega),
    isDigit_utod (y / 10 % 10) (by omega), isDigit_utod (y % 10) (by omega),
    isDigit_utod (mo / 10) (by omega), isDigit_utod (mo % 10) (by omega),
    isDigit_utod (d / 10) (by omega), isDigit_utod (d % 10) (by omega),
    isDigit_utod (hr / 10) (by omega), isDigit_utod (hr % 10) (by omega),
    isDigit_utod (mi / 10) (by omega), isDigit_utod (mi % 10) (by omega),
    isDigit_utod (sc / 10) (by omega), isDigit_utod (sc % 10) (by omega),
    e1, num2_utod mo (by omega), num2_utod d (by omega), num2_utod hr (by omega),
    num2_utod mi (by omega), num2_utod sc (by omega), hf, hz]
  simp [hmo1, hmo, hd1, hd, hhr, hmi, hsc]

/-- The zone part of a canonical text holds no fraction. -/
theorem splitFraction_of_head (z : List Char) (h : ∀ rest, z ≠ '.' :: rest) :
    splitFraction z = (0, z) := by
  unfold splitFraction
  split
  · rename_i c rest
    exact absurd rfl (h (c :: rest))
  · rfl

/-- Every offset a zone suffix can denote is printed as a suffix that denotes it again. -/
theorem formatZone_canonical (z : List Char) (off : Int) (h : parseZoneStrict z = some off) :
    parseZoneStrict (formatZone off) = some off ∧
      splitFraction (formatZone off) = (0, formatZone off) := by
  have hZ : parseZoneStrict (formatZone 0) = some 0 ∧
      splitFraction (formatZone 0) = (0, formatZone 0) := ⟨rfl, rfl⟩
  rcases parseZoneStrict_inv z off h with ⟨_, h0⟩ | ⟨hh, mm, h1, h2, ⟨_, ho⟩ | ⟨_, ho⟩⟩
  · rw [h0]; exact hZ
  · by_cases h3 : (hh * 60 + mm) * 60 = 0
    · have : off = 0 := by rw [ho, h3]; rfl
      rw [this]; exact hZ
    · rw [ho, formatZone_east hh mm h1 h2 h3]
      refine ⟨?_, ?_⟩
      · rw [parseZoneStrict_zoneText '+' hh mm h1 h2 (Or.inl rfl)]
        simp
      · apply splitFraction_of_head
        intro rest hr
        unfold zoneText at hr
        simp only [List.cons.injEq] at hr
        exact absurd hr.1 (by decide)
  · by_cases h3 : (hh * 60 + mm) * 60 = 0
    · have : off = 0 := by rw [ho, h3]; rfl
      rw [this]; exact hZ
    · rw [ho, formatZone_west hh mm h1 h2 h3]
      refine ⟨?_, ?_⟩
      · rw [parseZoneStrict_zoneText '-' hh mm h1 h2 (Or.inr rfl)]
        simp
      · apply splitFraction_of_head
        intro rest hr
        unfold zoneText at hr
        simp only [List.cons.injEq] at hr
        exact absurd hr.1 (by decide)

/-- An input accepted as a timestamp is re-emitted from the parsed time. -/
theorem formatDateToRFC3339_of_timestamp (s : String) (t : Time)
    (h : timeParseRFC3339 s = some t) : formatDateToRFC3339 s = .ok t.formatRFC3339 := by
  have hT := timeParseRFC3339_contains_T s t h
  unfold formatDateToRFC3339
  simp only [hT, if_true, h]

/-- C11 (defect of the code): the comment in `formatDateToRFC3339` says that an input
already in RFC 3339 format is returned as it is, but the code returns the parsed time
formatted anew.  A valid timestamp with a fractional second, and one whose zero offset is
written `+00:00`, come back as a different string; and a text with the zone `-24:60`,
which `time.Parse` accepts, comes back with the zone `-25:00`, on which a second
application fails. -/
theorem formatDateToRFC3339_rewrites_timestamp :
    formatDateToRFC3339 "2024-01-05T10:20:30.5Z" = .ok "2024-01-05T10:20:30Z" ∧
    formatDateToRFC3339 "2024-01-05T10:20:30+00:00" = .ok "2024-01-05T10:20:30Z" ∧
    (parseRFC3339 "2024-01-05T10:20:30.5Z").isSome = true ∧
    (parseRFC3339 "2024-01-05T10:20:30+00:00").isSome = true ∧
    'T' ∈ "2024-01-05T10:20:30.5Z".data ∧
    'T' ∈ "2024-01-05T10:20:30+00:00".data ∧
    "2024-01-05T10:20:30Z" ≠ "2024-01-05T10:20:30.5Z" ∧
    "2024-01-05T10:20:30Z" ≠ "2024-01-05T10:20:30+00:00" ∧
    formatDateToRFC3339 "2024-01-05T10:20:30-24:60" = .ok "2024-01-05T10:20:30-25:00" ∧
    (∃ e, formatDateToRFC3339 "2024-01-05T10:20:30-25:00" = .error e) :=
  ⟨rfl, rfl, by decide, by decide, by decide, by decide, by decide, by decide, rfl,
    ⟨_, rfl⟩⟩

/-- On the texts of the RFC 3339 grammar (the dedicated parser) `formatDateToRFC3339`
succeeds and returns the canonical form of the parsed time (a fractional second is
dropped, a zero offset is written `Z`); applying `formatDateToRFC3339` to the result
returns the same string again; and the result equals the input when the input holds no
fractional second and its zone is written `Z` or is a non-zero offset. -/
theorem formatDateToRFC3339_timestamp (s : String) (t : Time)
    (h : parseRFC3339 s = some t) :
    formatDateToRFC3339 s = .ok t.formatRFC3339 ∧
    formatDateToRFC3339 t.formatRFC3339 = .ok t.formatRFC3339 ∧
    ('.' ∉ s.data → (s.data.length = 20 ∨ t.offset ≠ 0) → t.formatRFC3339 = s) := by
  obtain ⟨y, mo, d, hr, mi, sc, rest, off, hy, hmo1, hmo, hd1, hd, hhr, hmi, hsc, hs, hz, ht⟩ :=
    parseRFC3339_inv s t h
  have hd3 := daysIn_le mo y
  have hdata : t.formatRFC3339.data = dateTimeText y mo d hr mi sc ++ formatZone off := by
    rw [ht]
    exact formatRFC3339_data y mo d hr mi sc _ off hy hmo (by omega) hhr hmi hsc
  refine ⟨formatDateToRFC3339_of_timestamp s t (timeParseRFC3339_of_parseRFC3339 s t h),
    ?_, ?_⟩
  · obtain ⟨c1, c2⟩ := formatZone_canonical _ off hz
    have hp := parseRFC3339_canonical t.formatRFC3339 y mo d hr mi sc (formatZone off) off
      hy hmo1 hmo hd1 hd hhr hmi hsc hdata c2 c1
    rw [formatDateToRFC3339_of_timestamp _ _ (timeParseRFC3339_of_parseRFC3339 _ _ hp), ht]
    rfl
  · intro hdot hcanon
    have hrest : splitFraction rest = (0, rest) := by
      apply splitFraction_of_head
      intro r hr
      apply hdot
      rw [hs, hr]
      simp
    rw [hrest] at hz
    apply String.ext
    rw [hdata, hs]
    congr 1
    rcases parseZoneStrict_inv rest off hz with ⟨hr, h0⟩ | ⟨hh, mm, h1, h2, ⟨hr, ho⟩ | ⟨hr, ho⟩⟩
    · rw [hr, h0]; rfl
    · have hne : (hh * 60 + mm) * 60 ≠ 0 := by
        intro h3
        rcases hcanon with hl | hoff
        · rw [hs, hr] at hl
          simp [dateTimeText, zoneText] at hl
        · apply hoff
          rw [ht]
          simp only
          rw [ho, h3]; rfl
      rw [hr, ho, formatZone_east hh mm h1 h2 hne]
    · have hne : (hh * 60 + mm) * 60 ≠ 0 := by
        intro h3
        rcases hcanon with hl | hoff
        · rw [hs, hr] at hl
          simp [dateTimeText, zoneText] at hl
        · apply hoff
          rw [ht]
          simp only
          rw [ho, h3]; rfl
      rw [hr, ho, formatZone_west hh mm h1 h2 hne]

/-- A timestamp nine hours east of UTC, without fraction, is returned as it is. -/
theorem formatDateToRFC3339_timestamp_witness :
    formatDateToRFC3339 "2024-01-05T10:20:30+09:00" = .ok "2024-01-05T10:20:30+09:00" ∧
    formatDateToRFC3339 "2024-01-05T10:20:30+09:00" =
      .ok (Time.formatRFC3339 ⟨2024, 1, 5, 10, 20, 30, 0, 32400⟩) := by
  have h := formatDateToRFC3339_timestamp "2024-01-05T10:20:30+09:00"
    ⟨2024, 1, 5, 10, 20, 30, 0, 32400⟩ rfl
  exact ⟨by rw [h.1, h.2.2 (by decide) (Or.inr (by decide))], h.1⟩


/-- C20 (defect of the code): the doc comment of `formatDateToRFC3339` names
`"2006-01-02T15:04:05"` as an accepted input, but a date-time without zone suffix is
accepted by neither layout: the layout `time.RFC3339` requires a zone and the layout
`"2006-01-02"` leaves the time of day as extra text, so the function returns an error. -/
theorem formatDateToRFC3339_rejects_zoneless_timestamp :
    formatDateToRFC3339 "2006-01-02T15:04:05" =
      .error ("cannot parse date '2006-01-02T15:04:05': " ++
        parseErrorText "2006-01-02" "2006-01-02T15:04:05") ∧
    formatDateToRFC3339 "2024-01-05T10:20:30" =
      .error ("cannot parse date '2024-01-05T10:20:30': " ++
        parseErrorText "2006-01-02" "2024-01-05T10:20:30") :=
  ⟨rfl, rfl⟩

/-! ### Conversion to `int32` -/

/-- Within the range of `int32` the integer branches of `parseInt32` return the input. -/
theorem parseInt32_integer_in_range (v : Int) (h1 : -2147483648 ≤ v) (h2 : v < 2147483648) :
    parseInt32 (.int v) = .ok v ∧ parseInt32 (.int32 v) = .ok v ∧
      parseInt32 (.int64 v) = .ok v := by
  simp only [parseInt32, int32_of_range v h1 h2, and_self]

/-- C21 (defect of the code): the integer branches of `parseInt32` convert with
`int32(v)` without a range check, so an `int` or `int64` outside the range of `int32`
wraps around: 4294967297 is returned as 1 and 2147483648 as -2147483648, with a nil error
in both cases, and through `convertToETCMeisai` an amount of 4294968496 is stored as the
price 1200.  The text branch, which goes through `strconv.ParseInt(v, 10, 32)`, rejects
the text `2147483648` as out of range. -/
theorem parseInt32_wraps_wide_integers :
    parseInt32 (.int 4294967297) = .ok 1 ∧
    parseInt32 (.int64 2147483648) = .ok (-2147483648) ∧
    parseInt32 (.str "2147483648") =
      .error ("cannot parse '2147483648' as int32: " ++
        "strconv.ParseInt: parsing \"2147483648\": value out of range") ∧
    (convertToETCMeisai sampleSum256
        [("date", .str "2024-01-05"), ("entry_ic", .str "A"), ("exit_ic", .str "B"),
         ("vehicle_type", .int 1), ("amount", .int 4294968496)]).toOption.map
      Db_ETCMeisai.Price = some 1200 :=
  ⟨rfl, rfl, rfl, by decide⟩

/-- The decimal rendering of a natural number is not empty. -/
theorem toDigits_ne_nil (m : Nat) : Nat.toDigits 10 m ≠ [] := by
  intro h
  have hv := decimalValue_toDigits m
  rw [h] at hv
  have hm : m = 0 := hv.symm
  subst hm
  revert h
  decide

/-- The digits of a natural number are read back as the number. -/
theorem parseDigits_toDigits (m : Nat) : parseDigits (Nat.toDigits 10 m) = some m := by
  unfold parseDigits
  have h1 := toDigits_ne_nil m
  have h2 : (Nat.toDigits 10 m).all isDigit = true := by
    rw [List.all_eq_true]
    exact toDigits_digits m
  simp only [h1, h2, ne_eq, not_false_eq_true, and_self, if_true, decimalValue_toDigits]

/-- The text branch of `parseInt32` reads back the decimal rendering of every integer in
the range of `int32`. -/
theorem parseInt32_fmtD (n : Int) (h1 : -2147483648 ≤ n) (h2 : n < 2147483648) :
    parseInt32 (.str (fmtD n)) = .ok n := by
  cases n with
  | ofNat m =>
    have hm : m < 2147483648 := by
      have : ((m : Nat) : Int) < 2147483648 := h2
      omega
    obtain ⟨c, rest, hl⟩ := List.exists_cons_of_ne_nil (toDigits_ne_nil m)
    have hc : isDigit c = true := toDigits_digits m c (by rw [hl]; exact List.mem_cons_self _ _)
    have hp : c ≠ '+' := by intro h; rw [h] at hc; revert hc; decide
    have hq : c ≠ '-' := by intro h; rw [h] at hc; revert hc; decide
    have hbody : strconvParseInt32.match_1 (fun _ => List Char × Bool)
        (fmtD (Int.ofNat m)).data (fun rest => (rest, false)) (fun rest => (rest, true))
        (fun l => (l, false)) = (Nat.toDigits 10 m, false) := by
      rw [fmtD_ofNat, hl]
      unfold strconvParseInt32.match_1
      simp [hp, hq]
    unfold parseInt32 strconvParseInt32
    simp only [hbody, parseDigits_toDigits]
    have hr : ¬ (m ≥ 2147483648) := by omega
    simp only [hr, decide_False, Bool.not_false, Bool.and_false, Bool.false_and,
      Bool.or_self, Bool.false_eq_true, if_false]
    rw [int32_of_range _ (by omega) (by omega)]
    rfl
  | negSucc m =>
    have hneg : Int.negSucc m = -((m : Int) + 1) := Int.negSucc_eq m
    have hm : m + 1 ≤ 2147483648 := by
      rw [hneg] at h1
      omega
    have hbody : strconvParseInt32.match_1 (fun _ => List Char × Bool)
        (fmtD (Int.negSucc m)).data (fun rest => (rest, false)) (fun rest => (rest, true))
        (fun l => (l, false)) = (Nat.toDigits 10 (m + 1), true) := by
      rw [fmtD_negSucc]
      rfl
    unfold parseInt32 strconvParseInt32
    simp only [hbody, parseDigits_toDigits]
    have hr : ¬ (m + 1 > 2147483648) := by omega
    simp only [hr, decide_False, Bool.not_true, Bool.false_and, Bool.and_false,
      Bool.or_self, Bool.false_eq_true, if_false, if_true]
    rw [int32_of_range _ (by push_cast; omega) (by push_cast; omega)]
    rw [hneg]
    rfl

/-- The text branch of `parseInt32` returns values in the range of `int32` only. -/
theorem parseInt32_str_range (s : String) (n : Int) (h : parseInt32 (.str s) = .ok n) :
    -2147483648 ≤ n ∧ n < 2147483648 := by
  unfold parseInt32 at h
  simp only at h
  split at h
  · cases h
  · rename_i parsed _
    have hn : n = int32 parsed := by
      simp only [Except.ok.injEq] at h
      exact h.symm
    rw [hn]
    unfold int32
    omega

/-- A value that is neither a number nor a text is not converted. -/
theorem parseInt32_other (t x : String) :
    (∃ err, parseInt32 .nil = .error err) ∧ (∃ err, parseInt32 (.other t x) = .error err) :=
  ⟨⟨_, rfl⟩, ⟨_, rfl⟩⟩

/-- The `float64` branch of `parseInt32`: the truncated value within the range of
`int32`, and `-2147483648` for a value out of range, a NaN or an infinity. -/
theorem parseInt32_float64 (t : Int) (text : String) :
    (-2147483648 ≤ t → t ≤ 2147483647 → parseInt32 (.float64 (some t) text) = .ok t) ∧
    (¬ (-2147483648 ≤ t ∧ t ≤ 2147483647) →
      parseInt32 (.float64 (some t) text) = .ok (-2147483648)) ∧
    parseInt32 (.float64 none text) = .ok (-2147483648) := by
  refine ⟨?_, ?_, rfl⟩
  · intro h1 h2
    simp [parseInt32, float64ToInt32, h1, h2]
  · intro h
    simp only [parseInt32, float64ToInt32, h, if_false]

/-! ### Content hash and conversion -/

/-- A hexadecimal digit is one of `0123456789abcdef`. -/
theorem hexDigit_mem (n : Nat) (h : n < 16) : hexDigit n ∈ "0123456789abcdef".data := by
  interval_cases n <;> decide

/-- Distinct values below sixteen have distinct hexadecimal digits. -/
theorem hexDigit_injective (a b : Nat) (ha : a < 16) (hb : b < 16)
    (h : hexDigit a = hexDigit b) : a = b := by
  interval_cases a <;> interval_cases b <;> first | rfl | (revert h; decide)

/-- Two hexadecimal digits per byte. -/
theorem hexOfBytes_length (l : List (Fin 256)) : (hexOfBytes l).length = 2 * l.length := by
  induction l with
  | nil => rfl
  | cons b rest ih => simp only [hexOfBytes, hexOfByte, List.length_append, List.length_cons,
      List.length_nil, ih]; omega

/-- The hexadecimal text of bytes holds hexadecimal digits only. -/
theorem hexOfBytes_mem (l : List (Fin 256)) :
    ∀ c ∈ hexOfBytes l, c ∈ "0123456789abcdef".data := by
  induction l with
  | nil => intro c hc; cases hc
  | cons b rest ih =>
    intro c hc
    simp only [hexOfBytes, hexOfByte, List.mem_append, List.mem_cons, List.mem_singleton,
      List.not_mem_nil, or_false] at hc
    rcases hc with (h | h) | h
    · rw [h]; exact hexDigit_mem _ (by have := b.isLt; omega)
    · rw [h]; exact hexDigit_mem _ (by omega)
    · exact ih c h

/-- The hexadecimal text determines the bytes. -/
theorem hexOfBytes_injective :
    ∀ l₁ l₂ : List (Fin 256), hexOfBytes l₁ = hexOfBytes l₂ → l₁ = l₂ := by
  intro l₁
  induction l₁ with
  | nil =>
    intro l₂ h
    cases l₂ with
    | nil => rfl
    | cons b rest => simp [hexOfBytes, hexOfByte] at h
  | cons a rest ih =>
    intro l₂ h
    cases l₂ with
    | nil => simp [hexOfBytes, hexOfByte] at h
    | cons b rest₂ =>
      simp only [hexOfBytes, hexOfByte, List.cons_append, List.nil_append,
        List.cons.injEq] at h
      obtain ⟨h1, h2, h3⟩ := h
      have e1 := hexDigit_injective _ _ (by have := a.isLt; omega) (by have := b.isLt; omega) h1
      have e2 := hexDigit_injective _ _ (by omega) (by omega) h2
      have : a = b := by
        apply Fin.ext
        omega
      rw [this, ih rest₂ h3]

/-- The `%x` rendering determines the digest. -/
theorem fmtX_injective (d₁ d₂ : Digest) (h : fmtX d₁ = fmtX d₂) : d₁ = d₂ := by
  unfold fmtX at h
  have h' := hexOfBytes_injective _ _ (congrArg String.data h)
  exact List.ofFn_injective h'

/-- The digest `generateHash` returns, with a nil `IcFr` read as the empty text. -/
theorem generateHash_eq (sum256 : String → Digest) (a : Db_ETCMeisai) :
    generateHash sum256 a =
      fmtX (sum256 (hashInput a.DateTo (a.IcFr.getD "") a.IcTo a.Price a.EtcNum)) := by
  unfold generateHash
  cases a.IcFr <;> rfl

/-- C12: `generateHash` is a function of five fields, in this order: `DateTo`, `IcFr` (a
nil `IcFr` counting as the empty text), `IcTo`, `Price` in decimal, `EtcNum`.  Two records
that agree on these five values get the same digest, whatever their `Hash`, `Shashu` and
`DateToDate` hold; and the digest is a text of 64 characters, each a lowercase
hexadecimal digit. -/
theorem generateHash_five_fields (sum256 : String → Digest) :
    (∀ a b : Db_ETCMeisai, a.DateTo = b.DateTo → a.IcFr.getD "" = b.IcFr.getD "" →
      a.IcTo = b.IcTo → a.Price = b.Price → a.EtcNum = b.EtcNum →
      generateHash sum256 a = generateHash sum256 b) ∧
    (∀ a : Db_ETCMeisai, generateHash sum256 a =
      fmtX (sum256 (a.DateTo ++ "_" ++ a.IcFr.getD "" ++ "_" ++ a.IcTo ++ "_" ++
        fmtD a.Price ++ "_" ++ a.EtcNum))) ∧
    (∀ a : Db_ETCMeisai, (generateHash sum256 a).length = 64 ∧
      ∀ c ∈ (generateHash sum256 a).data, c ∈ "0123456789abcdef".data) := by
  refine ⟨?_, ?_, ?_⟩
  · intro a b h1 h2 h3 h4 h5
    rw [generateHash_eq, generateHash_eq, h1, h2, h3, h4, h5]
  · intro a
    rw [generateHash_eq]
    rfl
  · intro a
    rw [generateHash_eq]
    unfold fmtX
    refine ⟨?_, ?_⟩
    · show (hexOfBytes _).length = 64
      rw [hexOfBytes_length, List.length_ofFn]
    · exact hexOfBytes_mem _

/-- Witness of C12: two records that differ in `DateToDate`, `Shashu` and `Hash`, one with
a nil `IcFr` and one with an empty one. -/
theorem generateHash_five_fields_witness :
    generateHash sampleSum256 ⟨"2024-01-05T00:00:00Z", "2024-01-05", none, "B", 1200, 1,
        "1234", ""⟩ =
      generateHash sampleSum256 ⟨"2024-01-05T00:00:00Z", "05/01/2024", some "", "B", 1200, 7,
        "1234", "stale"⟩ :=
  (generateHash_five_fields sampleSum256).1 _ _ rfl rfl rfl rfl rfl

/-- The characters of the text that is hashed. -/
theorem hashInput_data (t e x : String) (p : Int) (c : String) :
    (hashInput t e x p c).data =
      t.data ++ '_' :: (e.data ++ '_' :: (x.data ++ '_' :: ((fmtD p).data ++ '_' :: c.data))) := by
  unfold hashInput
  simp [String.data_append, List.append_assoc]

/-- C13: when two tuples of the five hashed fields (timestamp, entry location or empty,
exit location, amount, card number) differ in exactly one field, the joined texts that
`generateHash` feeds to the digest function differ; hence the digests of two records with
these fields differ whenever the digest function does not collide on the two texts. -/
theorem hashInput_separates (sum256 : String → Digest) (t₁ e₁ x₁ : String) (p₁ : Int)
    (c₁ t₂ e₂ x₂ : String) (p₂ : Int) (c₂ : String)
    (hdiff : (t₁ ≠ t₂ ∧ e₁ = e₂ ∧ x₁ = x₂ ∧ p₁ = p₂ ∧ c₁ = c₂) ∨
      (t₁ = t₂ ∧ e₁ ≠ e₂ ∧ x₁ = x₂ ∧ p₁ = p₂ ∧ c₁ = c₂) ∨
      (t₁ = t₂ ∧ e₁ = e₂ ∧ x₁ ≠ x₂ ∧ p₁ = p₂ ∧ c₁ = c₂) ∨
      (t₁ = t₂ ∧ e₁ = e₂ ∧ x₁ = x₂ ∧ p₁ ≠ p₂ ∧ c₁ = c₂) ∨
      (t₁ = t₂ ∧ e₁ = e₂ ∧ x₁ = x₂ ∧ p₁ = p₂ ∧ c₁ ≠ c₂)) :
    hashInput t₁ e₁ x₁ p₁ c₁ ≠ hashInput t₂ e₂ x₂ p₂ c₂ ∧
    (sum256 (hashInput t₁ e₁ x₁ p₁ c₁) ≠ sum256 (hashInput t₂ e₂ x₂ p₂ c₂) →
      ∀ a b : Db_ETCMeisai,
        a.DateTo = t₁ → a.IcFr.getD "" = e₁ → a.IcTo = x₁ → a.Price = p₁ → a.EtcNum = c₁ →
        b.DateTo = t₂ → b.IcFr.getD "" = e₂ → b.IcTo = x₂ → b.Price = p₂ → b.EtcNum = c₂ →
        generateHash sum256 a ≠ generateHash sum256 b) := by
  constructor
  · intro h
    have hd : (hashInput t₁ e₁ x₁ p₁ c₁).data = (hashInput t₂ e₂ x₂ p₂ c₂).data := by rw [h]
    rw [hashInput_data, hashInput_data] at hd
    rcases hdiff with ⟨hn, h2, h3, h4, h5⟩ | ⟨h1, hn, h3, h4, h5⟩ | ⟨h1, h2, hn, h4, h5⟩ |
      ⟨h1, h2, h3, hn, h5⟩ | ⟨h1, h2, h3, h4, hn⟩
    · subst h2 h3 h4 h5
      exact hn (String.ext (List.append_cancel_right hd))
    · subst h1 h3 h4 h5
      have := List.append_cancel_left hd
      simp only [List.cons.injEq, true_and] at this
      exact hn (String.ext (List.append_cancel_right this))
    · subst h1 h2 h4 h5
      have := List.append_cancel_left hd
      simp only [List.cons.injEq, true_and] at this
      have := List.append_cancel_left this
      simp only [List.cons.injEq, true_and] at this
      exact hn (String.ext (List.append_cancel_right this))
    · subst h1 h2 h3 h5
      have := List.append_cancel_left hd
      simp only [List.cons.injEq, true_and] at this
      have := List.append_cancel_left this
      simp only [List.cons.injEq, true_and] at this
      have := List.append_cancel_left this
      simp only [List.cons.injEq, true_and] at this
      exact hn (fmtD_injective _ _ (String.ext (List.append_cancel_right this)))
    · subst h1 h2 h3 h4
      have := List.append_cancel_left hd
      simp only [List.cons.injEq, true_and] at this
      have := List.append_cancel_left this
      simp only [List.cons.injEq, true_and] at this
      have := List.append_cancel_left this
      simp only [List.cons.injEq, true_and] at this
      have := List.append_cancel_left this
      simp only [List.cons.injEq, true_and] at this
      exact hn (String.ext this)
  · intro hs a b a1 a2 a3 a4 a5 b1 b2 b3 b4 b5 h
    rw [generateHash_eq, generateHash_eq, a1, a2, a3, a4, a5, b1, b2, b3, b4, b5] at h
    exact hs (fmtX_injective _ _ h)

/-- Witness of C13: two tuples that differ in the amount only. -/
theorem hashInput_separates_witness :
    hashInput "2024-01-05T00:00:00Z" "A" "B" 1200 "1234" ≠
      hashInput "2024-01-05T00:00:00Z" "A" "B" 1300 "1234" :=
  (hashInput_separates sampleSum256 "2024-01-05T00:00:00Z" "A" "B" 1200 "1234"
    "2024-01-05T00:00:00Z" "A" "B" 1300 "1234"
    (Or.inr (Or.inr (Or.inr (Or.inl ⟨rfl, rfl, rfl, by decide, rfl⟩))))).1

/-- The record built by `convertToETCMeisai`: for a payload with a non-empty `date` text
that normalises to `ts`, texts under `entry_ic` and `exit_ic`, and values under `amount`
and `vehicle_type` on which `parseInt32` returns `amount` and `vehicleType`,
`convertToETCMeisai` succeeds; the record has `DateTo = ts`, `DateToDate` the original
date text, `IcFr` nil if and only if `entry_ic` is empty and `entry_ic` otherwise,
`IcTo = exit_ic`, `Price` and `Shashu` the two results of `parseInt32`, `EtcNum` the text
under `card_number` (empty when there is none) and `Hash` the digest `generateHash` gives
for the record.  It fails when `date` is missing, not a text or empty, or when `entry_ic`
or `exit_ic` is not a text. -/
theorem convertToETCMeisai_spec (sum256 : String → Digest) (data : DataMap) :
    (∀ (dateStr ts entryIC exitIC : String) (amount vehicleType : Int),
      data.get "date" = .str dateStr → dateStr ≠ "" →
      formatDateToRFC3339 dateStr = .ok ts →
      data.get "entry_ic" = .str entryIC → data.get "exit_ic" = .str exitIC →
      parseInt32 (data.get "amount") = .ok amount →
      parseInt32 (data.get "vehicle_type") = .ok vehicleType →
      ∃ m, convertToETCMeisai sum256 data = .ok m ∧
        m.DateTo = ts ∧ m.DateToDate = dateStr ∧
        (m.IcFr = none ↔ entryIC = "") ∧ (entryIC ≠ "" → m.IcFr = some entryIC) ∧
        m.IcTo = exitIC ∧ m.Price = amount ∧ m.Shashu = vehicleType ∧
        m.EtcNum = (match data.get "card_number" with
          | .str c => c
          | _ => "") ∧
        m.Hash = generateHash sum256 m) ∧
    (((∀ s, data.get "date" ≠ .str s) ∨ data.get "date" = .str "" ∨
        (∀ s, data.get "entry_ic" ≠ .str s) ∨ (∀ s, data.get "exit_ic" ≠ .str s)) →
      ∃ err, convertToETCMeisai sum256 data = .error err) := by
  constructor
  · intro dateStr ts entryIC exitIC amount vehicleType h1 h2 h3 h4 h5 h6 h7
    unfold convertToETCMeisai
    simp only [h1, h2, if_false, h3, h4, h5, h6, h7]
    refine ⟨_, rfl, rfl, rfl, ?_, ?_, rfl, rfl, rfl, rfl, ?_⟩
    · by_cases he : entryIC = "" <;> simp [he]
    · intro he
      simp [he]
    · rw [generateHash_eq, generateHash_eq]
  · intro h
    unfold convertToETCMeisai
    cases hd : data.get "date" with
    | str dateStr =>
      by_cases he : dateStr = ""
      · simp only [he, if_true]
        exact ⟨_, rfl⟩
      · simp only [he, if_false]
        cases hf : formatDateToRFC3339 dateStr with
        | error err => exact ⟨_, rfl⟩
        | ok ts =>
          simp only
          rcases h with h | h | h | h
          · exact absurd hd (h dateStr)
          · rw [hd] at h
            exact absurd (Value.str.inj h) he
          · cases hen : data.get "entry_ic" with
            | str s => exact absurd hen (h s)
            | _ => exact ⟨_, rfl⟩
          · cases hen : data.get "entry_ic" with
            | str s =>
              simp only
              cases hex : data.get "exit_ic" with
              | str s' => exact absurd hex (h s')
              | _ => exact ⟨_, rfl⟩
            | _ => exact ⟨_, rfl⟩
    | _ => exact ⟨_, rfl⟩

/-- An integer in the range of `int32`, held as a number or as its decimal text, is what
`parseInt32` returns. -/
theorem parseInt32_of_holds (v : Value) (n : Int) (h : HoldsInteger v n)
    (h1 : -2147483648 ≤ n) (h2 : n ≤ 2147483647) : parseInt32 v = .ok n := by
  have hr := parseInt32_integer_in_range n h1 (by omega)
  rcases h with h | h | h | h
  · rw [h]; exact hr.1
  · rw [h]; exact hr.2.1
  · rw [h]; exact hr.2.2
  · rw [h]; exact parseInt32_fmtD n h1 (by omega)

/-- The record built by `convertToETCMeisai` from amounts and vehicle types in the range
of `int32`: for a payload with a non-empty `date` text that normalises to `ts`, texts
under `entry_ic` and `exit_ic`, and under `amount` and `vehicle_type` integers in the
range of `int32` (held as numbers or as decimal texts), the conversion succeeds with
`Price` the amount and `Shashu` the vehicle type themselves, and the other fields as the
payload gives them. -/
theorem convertToETCMeisai_in_range (sum256 : String → Digest) (data : DataMap)
    (dateStr ts entryIC exitIC : String) (amount vehicleType : Int)
    (hdate : data.get "date" = .str dateStr) (hne : dateStr ≠ "")
    (hts : formatDateToRFC3339 dateStr = .ok ts)
    (hentry : data.get "entry_ic" = .str entryIC) (hexit : data.get "exit_ic" = .str exitIC)
    (hamount : HoldsInteger (data.get "amount") amount)
    (ha1 : -2147483648 ≤ amount) (ha2 : amount ≤ 2147483647)
    (hvehicle : HoldsInteger (data.get "vehicle_type") vehicleType)
    (hv1 : -2147483648 ≤ vehicleType) (hv2 : vehicleType ≤ 2147483647) :
    ∃ m, convertToETCMeisai sum256 data = .ok m ∧
      m.DateTo = ts ∧ m.DateToDate = dateStr ∧
      (m.IcFr = none ↔ entryIC = "") ∧ (entryIC ≠ "" → m.IcFr = some entryIC) ∧
      m.IcTo = exitIC ∧ m.Price = amount ∧ m.Shashu = vehicleType ∧
      m.EtcNum = (match data.get "card_number" with
        | .str c => c
        | _ => "") ∧
      m.Hash = generateHash sum256 m :=
  (convertToETCMeisai_spec sum256 data).1 dateStr ts entryIC exitIC amount vehicleType
    hdate hne hts hentry hexit (parseInt32_of_holds _ _ hamount ha1 ha2)
    (parseInt32_of_holds _ _ hvehicle hv1 hv2)

/-- The conversion of `samplePayload`. -/
theorem convertToETCMeisai_in_range_sample :
    ∃ m, convertToETCMeisai sampleSum256 samplePayload = .ok m ∧
      m.DateTo = "2024-01-05T00:00:00Z" ∧ m.DateToDate = "2024-01-05" ∧
      m.IcFr = some "A" ∧ m.IcTo = "B" ∧ m.Price = 1200 ∧ m.Shashu = 1 ∧
      m.EtcNum = "1234" := by
  obtain ⟨m, h1, h2, h3, _, h5, h6, h7, h8, h9, _⟩ :=
    convertToETCMeisai_in_range sampleSum256 samplePayload "2024-01-05"
      "2024-01-05T00:00:00Z" "A" "B" 1200 1 rfl (by decide) rfl rfl rfl (Or.inl rfl)
      (by decide) (by decide) (Or.inl rfl) (by decide) (by decide)
  exact ⟨m, h1, h2, h3, h5 (by decide), h6, h7, h8, h9⟩

/-- C14 (defect of the code, the one of C21): a payload with a parseable date, texts under
`entry_ic` and `exit_ic`, and under `amount` the `int` 4294968496, which `parseInt32`
converts without error, is turned into a record whose `Price` is 1200, not the amount:
`parseInt32` narrows the integer with `int32(v)` without a range check.  The other fields
of the record are as the payload gives them. -/
theorem convertToETCMeisai_stores_narrowed_amount :
    widePayload.get "amount" = .int 4294968496 ∧
    parseInt32 (widePayload.get "amount") = .ok 1200 ∧
    (convertToETCMeisai sampleSum256 widePayload).toOption.map
        (fun m => (m.DateTo, m.DateToDate, m.IcFr, m.IcTo, m.Price, m.Shashu, m.EtcNum)) =
      some ("2024-01-05T00:00:00Z", "2024-01-05", some "A", "B", 1200, 1, "1234") ∧
    (convertToETCMeisai sampleSum256
        [("date", .str "2024-01-05"), ("entry_ic", .str ""), ("exit_ic", .str "B"),
         ("vehicle_type", .int64 4294967298), ("amount", .int 100)]).toOption.map
        (fun m => (m.IcFr, m.Price, m.Shashu, m.EtcNum)) =
      some (none, 100, 2, "") ∧
    (1200 : Int) ≠ 4294968496 ∧ (2 : Int) ≠ 4294967298 :=
  ⟨rfl, rfl, rfl, rfl, by decide, by decide⟩

/-! ### Request validation and source resolution -/

/-- C15 (defect of the code): `ValidateAccountID` compares `len(accountID)`, the number of
bytes, with 3, while its own message demands at least 3 characters.  The account id of
the two characters `あい` (six bytes) is not empty and is accepted; the two-character id
`ab` is rejected with `InvalidArgument`. -/
theorem ValidateAccountID_counts_bytes :
    DefaultValidator.ValidateAccountID "あい" = none ∧ "あい".length = 2 ∧
    "あい" ≠ "" ∧ "あい".utf8ByteSize = 6 ∧
    DefaultValidator.ValidateAccountID "ab" =
      some ⟨.InvalidArgument, "account_id must be at least 3 characters"⟩ := by
  decide

/-- C16, counterexample: a data text of five characters that takes fifteen bytes is
accepted by `DefaultValidator.ValidateCSVData`, whose floor is ten bytes. -/
theorem ValidateCSVData_counts_bytes :
    DefaultValidator.ValidateCSVData "あいうえお" = none ∧ "あいうえお".length = 5 ∧
    "あいうえお".utf8ByteSize = 15 := by
  decide

/-- C16, amended: `DefaultValidator.ValidateCSVData` rejects exactly the data texts that
are empty or shorter than ten bytes, always with `InvalidArgument`; and for every such
text `ProcessCSVData` and `ValidateCSVData` with the default validator return that
`InvalidArgument` error whatever the parser and the store are, the store being left as
it was. -/
theorem ValidateCSVData_short_rejected :
    (∀ data : String,
      (∃ st, DefaultValidator.ValidateCSVData data = some st) ↔
        (data = "" ∨ data.utf8ByteSize < 10)) ∧
    (∀ data st, DefaultValidator.ValidateCSVData data = some st → st.code = .InvalidArgument) ∧
    (∀ (σ : Type) (env : Env) (venv : Env) (fs : FileSystem) (dbClient : Option (DBClient σ))
      (parser : Parser) (ctx : Context) (store : σ) (data accountID : String),
      (data = "" ∨ data.utf8ByteSize < 10) →
      ∃ st, st.code = .InvalidArgument ∧
        ProcessCSVData env ⟨dbClient, parser, NewDefaultValidator venv fs⟩ ctx
          (some ⟨data, accountID⟩) store = (.error st, store) ∧
        ValidateCSVData (σ := σ) ⟨dbClient, parser, NewDefaultValidator venv fs⟩
          (some ⟨data, accountID⟩) = .error st) := by
  have hsome : ∀ data : String, (data = "" ∨ data.utf8ByteSize < 10) →
      ∃ st, DefaultValidator.ValidateCSVData data = some st ∧ st.code = .InvalidArgument := by
    intro data h
    unfold DefaultValidator.ValidateCSVData
    by_cases h1 : data = ""
    · exact ⟨⟨.InvalidArgument, "csv_data is required"⟩, by simp [h1], rfl⟩
    · rcases h with h | h
      · exact absurd h h1
      · exact ⟨⟨.InvalidArgument, "csv_data is too short"⟩, by simp [h1, h], rfl⟩
  refine ⟨?_, ?_, ?_⟩
  · intro data
    constructor
    · rintro ⟨st, h⟩
      unfold DefaultValidator.ValidateCSVData at h
      by_cases h1 : data = ""
      · exact Or.inl h1
      · by_cases h2 : data.utf8ByteSize < 10
        · exact Or.inr h2
        · simp [h1, h2] at h
    · intro h
      obtain ⟨st, h1, _⟩ := hsome data h
      exact ⟨st, h1⟩
  · intro data st h
    unfold DefaultValidator.ValidateCSVData at h
    split at h
    · cases h; rfl
    · split at h
      · cases h; rfl
      · cases h
  · intro σ env venv fs dbClient parser ctx store data accountID h
    obtain ⟨st, h1, h2⟩ := hsome data h
    refine ⟨st, h2, ?_, ?_⟩
    · unfold ProcessCSVData ValidateProcessCSVDataRequest validateDataFields
      simp [NewDefaultValidator, ProcessCSVDataRequest.GetCsvData, h1]
    · unfold ValidateCSVData ValidateValidateCSVDataRequest validateDataFields
      simp [NewDefaultValidator, ValidateCSVDataRequest.GetCsvData, h1]

/-- Witness of the amended C16: inline data of five bytes. -/
theorem ValidateCSVData_short_rejected_witness :
    ∃ st, st.code = .InvalidArgument ∧
      ProcessCSVData emptyEnv (sampleService [goodRecord]) neverCancelled
        (some ⟨"a,b,c", ""⟩) [] = (.error st, []) := by
  obtain ⟨st, h1, h2, _⟩ := ValidateCSVData_short_rejected.2.2 (List DataMap) emptyEnv emptyEnv
    emptyFS (sampleService [goodRecord]).dbClient (sampleService [goodRecord]).parser
    neverCancelled [] "a,b,c" "" (Or.inr (by decide))
  exact ⟨st, h1, h2⟩

/-- The order of the checks of `ValidateProcessCSVFileRequest` with the default
validator (its file check being any function `check`), on a request with path `p` and
account id `a`: it fails with `InvalidArgument` if `p` is empty and no override base
directory is configured; otherwise it fails with `InvalidArgument` if `a` is not empty
and takes fewer than 3 bytes; otherwise, if `p` is not empty and no override is
configured, it returns what the file check returns on `p`, and if not it succeeds without
consulting the file check.  The file check of the default validator returns `NotFound`
when the file is absent and `Internal` on any other failure. -/
theorem ValidateProcessCSVFileRequest_default (env : Env) (fs : FileSystem)
    (check : String → Option Status) (p a : String) :
    ((p = "" ∧ env "CSV_BASE_PATH" = "") →
      ∃ st, st.code = .InvalidArgument ∧
        ValidateProcessCSVFileRequest env (.file (some ⟨p, a⟩))
          { NewDefaultValidator env fs with CheckFileExists := check } = some st) ∧
    (¬ (p = "" ∧ env "CSV_BASE_PATH" = "") → a ≠ "" → a.utf8ByteSize < 3 →
      ValidateProcessCSVFileRequest env (.file (some ⟨p, a⟩))
          { NewDefaultValidator env fs with CheckFileExists := check } =
        some ⟨.InvalidArgument, "account_id must be at least 3 characters"⟩) ∧
    (¬ (p = "" ∧ env "CSV_BASE_PATH" = "") → (a = "" ∨ 3 ≤ a.utf8ByteSize) →
      (p ≠ "" ∧ env "CSV_BASE_PATH" = "") →
      ValidateProcessCSVFileRequest env (.file (some ⟨p, a⟩))
        { NewDefaultValidator env fs with CheckFileExists := check } = check p) ∧
    (¬ (p = "" ∧ env "CSV_BASE_PATH" = "") → (a = "" ∨ 3 ≤ a.utf8ByteSize) →
      ¬ (p ≠ "" ∧ env "CSV_BASE_PATH" = "") →
      ValidateProcessCSVFileRequest env (.file (some ⟨p, a⟩))
        { NewDefaultValidator env fs with CheckFileExists := check } = none) ∧
    ((NewDefaultValidator env fs).CheckFileExists p =
      match fs.Stat p with
      | none => none
      | some err =>
        if err.isNotExist then some ⟨.NotFound, "file not found: " ++ p⟩
        else some ⟨.Internal, "failed to check file: " ++ err.message⟩) := by
  have hacc : (a = "" ∨ 3 ≤ a.utf8ByteSize) →
      DefaultValidator.ValidateAccountID a = none := by
    intro h
    unfold DefaultValidator.ValidateAccountID
    rcases h with h | h
    · simp [h]
    · have h3 : ¬ (a.utf8ByteSize < 3) := by omega
      simp [h3]
  refine ⟨?_, ?_, ?_, ?_, ?_⟩
  · intro h
    refine ⟨⟨.InvalidArgument, "csv_file_path is required when CSV_BASE_PATH is not set"⟩,
      rfl, ?_⟩
    simp [ValidateProcessCSVFileRequest, NewDefaultValidator,
      DefaultValidator.ValidateCSVFilePath, ProcessCSVFileRequest.GetCsvFilePath, h.1, h.2]
  · intro h ha hlt
    have hv : DefaultValidator.ValidateAccountID a =
        some ⟨.InvalidArgument, "account_id must be at least 3 characters"⟩ := by
      unfold DefaultValidator.ValidateAccountID
      simp [ha, hlt]
    simp [ValidateProcessCSVFileRequest, NewDefaultValidator,
      DefaultValidator.ValidateCSVFilePath, ProcessCSVFileRequest.GetCsvFilePath,
      ProcessCSVFileRequest.GetAccountId, h, hv]
  · intro h ha hc
    simp only [ValidateProcessCSVFileRequest, NewDefaultValidator,
      DefaultValidator.ValidateCSVFilePath, ProcessCSVFileRequest.GetCsvFilePath,
      ProcessCSVFileRequest.GetAccountId, h, hacc ha, if_false]
    simp only [ne_eq, hc.1, not_false_eq_true, hc.2, and_self, if_true]
    cases check p <;> rfl
  · intro h ha hc
    simp only [ValidateProcessCSVFileRequest, NewDefaultValidator,
      DefaultValidator.ValidateCSVFilePath, ProcessCSVFileRequest.GetCsvFilePath,
      ProcessCSVFileRequest.GetAccountId, h, hacc ha, if_false]
    simp only [hc, if_false]
  · rfl

/-- A path that is given, no override, and a file that is absent. -/
theorem ValidateProcessCSVFileRequest_default_sample :
    ValidateProcessCSVFileRequest emptyEnv (.file (some ⟨"/data/etc.csv", "acc"⟩))
      (NewDefaultValidator emptyEnv emptyFS) =
      some ⟨.NotFound, "file not found: /data/etc.csv"⟩ :=
  (ValidateProcessCSVFileRequest_default emptyEnv emptyFS
    (DefaultValidator.CheckFileExists emptyFS) "/data/etc.csv" "acc").2.2.1
    (by decide) (Or.inr (by decide)) (by decide)

/-- C17 (defect of the code, the one of C15): a request whose account id is the two
characters `あい`, which is not empty and has fewer than 3 characters, is not rejected with
`InvalidArgument`: with a path given, no override and the file present, and likewise with
the override configured and no path, `ValidateProcessCSVFileRequest` succeeds, because the
default validator counts bytes.  The two-character id `ab` is rejected in the same two
settings. -/
theorem ValidateProcessCSVFileRequest_accepts_short_account :
    "あい" ≠ "" ∧ "あい".length = 2 ∧
    ValidateProcessCSVFileRequest emptyEnv (.file (some ⟨"/data/etc.csv", "あい"⟩))
      (NewDefaultValidator emptyEnv datedFS) = none ∧
    ValidateProcessCSVFileRequest overrideEnv (.file (some ⟨"", "あい"⟩))
      (NewDefaultValidator overrideEnv datedFS) = none ∧
    ValidateProcessCSVFileRequest emptyEnv (.file (some ⟨"/data/etc.csv", "ab"⟩))
      (NewDefaultValidator emptyEnv datedFS) =
      some ⟨.InvalidArgument, "account_id must be at least 3 characters"⟩ ∧
    ValidateProcessCSVFileRequest overrideEnv (.file (some ⟨"", "ab"⟩))
      (NewDefaultValidator overrideEnv datedFS) =
      some ⟨.InvalidArgument, "account_id must be at least 3 characters"⟩ := by
  decide

/-- C18 (defect of the code): a nil request pointer handed to a validator is an interface
value that is not nil, so the test `req == nil` does not catch it and validation goes on
with empty fields.  With an override base directory configured,
`ValidateProcessCSVFileRequest` accepts the nil pointer and `ProcessCSVFile` processes the
latest CSV file; with a validator that accepts empty data, `ProcessCSVData` and
`ValidateCSVData` pass validation and then dereference the nil pointer. -/
theorem nil_request_pointer_accepted :
    ValidateProcessCSVFileRequest overrideEnv (.file none)
      (NewDefaultValidator overrideEnv datedFS) = none ∧
    (ProcessCSVFile overrideEnv datedFS
        ⟨some (recordingStore fun _ _ => none), (sampleService [goodRecord]).parser,
          NewDefaultValidator overrideEnv datedFS⟩ neverCancelled none []).1 =
      .response
        { Success := true
          Message := "Processed 1 records from file"
          Stats := ⟨1, 1, 0, 0⟩
          Errors := [] } ∧
    ValidateProcessCSVDataRequest (.data none) permissiveValidator = none ∧
    (ProcessCSVData emptyEnv ⟨some (recordingStore fun _ _ => none), sampleParser,
        permissiveValidator⟩ neverCancelled none []).1 = .panic ∧
    (ValidateCSVData (σ := List DataMap) ⟨none, sampleParser, permissiveValidator⟩ none) =
      .panic := by
  decide

/-- The entry that `sort.Slice` puts first has the greatest name. -/
theorem sortByNameDesc_head (d : DirEntry) (ds : List DirEntry) :
    ∀ dflt, ∃ m ∈ d :: ds, (sortByNameDesc (d :: ds)).headD dflt = m ∧
      ∀ x ∈ d :: ds, x.Name.data ≤ m.Name.data := by
  induction ds generalizing d with
  | nil =>
    intro dflt
    refine ⟨d, List.mem_cons_self _ _, rfl, ?_⟩
    intro x hx
    rw [List.mem_singleton.1 hx]
  | cons b t ih =>
    intro dflt
    obtain ⟨m, hm, hhead, hmax⟩ := ih b dflt
    have hsort : sortByNameDesc (d :: b :: t) =
        List.orderedInsert (fun a b => b.Name.data < a.Name.data) d
          (sortByNameDesc (b :: t)) := rfl
    cases hs : sortByNameDesc (b :: t) with
    | nil =>
      have hlen : (sortByNameDesc (b :: t)).length = (b :: t).length :=
        List.length_insertionSort _ _
      rw [hs] at hlen
      simp at hlen
    | cons s0 srest =>
      rw [hs] at hhead
      simp only [List.headD_cons] at hhead
      subst hhead
      rw [hsort, hs, List.orderedInsert]
      by_cases hr : s0.Name.data < d.Name.data
      · simp only [hr, if_true, List.headD_cons]
        refine ⟨d, List.mem_cons_self _ _, rfl, ?_⟩
        intro x hx
        rcases List.mem_cons.1 hx with hx | hx
        · rw [hx]
        · exact le_of_lt (lt_of_le_of_lt (hmax x hx) hr)
      · simp only [hr, if_false, List.headD_cons]
        refine ⟨s0, List.mem_cons_of_mem _ hm, rfl, ?_⟩
        intro x hx
        rcases List.mem_cons.1 hx with hx | hx
        · rw [hx]; exact not_lt.1 hr
        · exact hmax x hx

/-- C19: `resolveCSVFilePath` returns the provided path unchanged when no override base
directory is configured.  When one is configured and listed, entries that are not
directories are ignored: with no sub-directory it fails; otherwise it searches for CSV
files in one sub-directory only, one whose name is the greatest of all sub-directory
names in lexicographic order, fails if the search fails or finds nothing, and returns
the first match otherwise. -/
theorem resolveCSVFilePath_spec (env : Env) (fs : FileSystem) (providedPath : String) :
    (env "CSV_BASE_PATH" = "" → resolveCSVFilePath env fs providedPath = .ok providedPath) ∧
    (∀ entries : List DirEntry, env "CSV_BASE_PATH" ≠ "" →
      fs.ReadDir (env "CSV_BASE_PATH") = .ok entries →
      ((∀ e ∈ entries, e.IsDir = false) →
        ∃ err, resolveCSVFilePath env fs providedPath = .error err) ∧
      ((∃ e ∈ entries, e.IsDir = true) →
        ∃ latest ∈ entries, latest.IsDir = true ∧
          (∀ e ∈ entries, e.IsDir = true → e.Name.data ≤ latest.Name.data) ∧
          resolveCSVFilePath env fs providedPath =
            match fs.Glob (fs.Join (fs.Join (env "CSV_BASE_PATH") latest.Name) "*.csv") with
            | .error err => .error ("failed to search for CSV files: " ++ err)
            | .ok [] =>
              .error ("no CSV files found in latest directory: " ++
                fs.Join (env "CSV_BASE_PATH") latest.Name)
            | .ok (csvFile :: _) => .ok csvFile)) := by
  constructor
  · intro h
    simp [resolveCSVFilePath, h]
  · intro entries hbase hread
    constructor
    · intro hall
      have hf : entries.filter (fun entry => entry.IsDir) = [] := by
        rw [List.filter_eq_nil_iff]
        intro e he
        simp [hall e he]
      simp only [resolveCSVFilePath, hbase, if_false, hread, hf]
      exact ⟨_, rfl⟩
    · rintro ⟨e, he, hdir⟩
      cases hf : entries.filter (fun entry => entry.IsDir) with
      | nil =>
        rw [List.filter_eq_nil_iff] at hf
        exact absurd hdir (hf e he)
      | cons d ds =>
        obtain ⟨m, hm, hhead, hmax⟩ := sortByNameDesc_head d ds d
        have hm' : m ∈ entries.filter (fun entry => entry.IsDir) := by rw [hf]; exact hm
        rw [List.mem_filter] at hm'
        refine ⟨m, hm'.1, hm'.2, ?_, ?_⟩
        · intro x hx hxd
          apply hmax
          rw [← hf, List.mem_filter]
          exact ⟨hx, hxd⟩
        · simp only [resolveCSVFilePath, hbase, if_false, hread, hf, hhead]

/-- Witness of C19: of the sub-directories `2024-01-01`, `2024-01-15` and `2024-02-01` the
last one is searched. -/
theorem resolveCSVFilePath_spec_witness :
    resolveCSVFilePath overrideEnv datedFS "ignored.csv" = .ok "/data/2024-02-01/etc.csv" := by
  obtain ⟨latest, hmem, hdir, hmax, hres⟩ :=
    ((resolveCSVFilePath_spec overrideEnv datedFS "ignored.csv").2
      [⟨"2024-01-01", true⟩, ⟨"2024-02-01", true⟩, ⟨"notes.txt", false⟩, ⟨"2024-01-15", true⟩]
      (by decide) rfl).2 ⟨⟨"2024-02-01", true⟩, by decide, rfl⟩
  have h2 := hmax ⟨"2024-02-01", true⟩ (by decide) rfl
  simp only [List.mem_cons, List.mem_singleton, List.not_mem_nil, or_false] at hmem
  rcases hmem with h | h | h | h
  · subst h; exact absurd h2 (by decide)
  · subst h; rw [hres]; rfl
  · subst h; cases hdir
  · subst h; exact absurd h2 (by decide)

end EtcDataProcessor
